import Mathlib

/-!
Verification development for the Go table-test converter.

The repository contains two copies of the conversion tool written against
Go's `go/ast` package:

* Version 1 ("declaration-based", `processFile` working on `ast.GenDecl`
  value specifications, together with `findNameField`,
  `createStructTypeWithoutField`, `convertElementsToMapEntries`,
  `lookupObject`, `isMapType`, `isBlankIdent`), and
* Version 2 ("assignment-based", `processFile` working on
  `ast.AssignStmt`, with the map-entry construction inlined, and a
  `tableTestVars` set correlating the later passes with the converted
  variables).

Both copies share the batch driver `ConvertTableTests` (identical logic up
to progress printing) and the persistence code (`os.Create` followed by
`printer.Fprint`).

This file gives a shallow embedding of the syntax-tree fragment the tool
inspects and of every function of the tool that the claims touch, and
proves properties about them.  Modelling conventions:

* Go `ast.Expr` values (including type expressions, which are expressions
  in Go's AST) become the inductive `Expr`; `nil` expression fields become
  `OptExpr.none`.  Position, comment and object-resolution metadata that
  the tool never reads is omitted.
* Go statements become `Stmt`; statement forms the tool never matches on
  (`if`, `return`, ...) are represented by the generic container
  `Stmt.block` and the leaf `Stmt.otherStmt`, which the traversals walk
  or skip exactly as `ast.Inspect` walks or skips the children of
  unmatched nodes.
* `ast.Inspect` visits a node (running the callback, which may mutate the
  node in place) and then walks the children of the mutated node.  The
  passes below are written bottom-up (children first, then the node's own
  rewrite).  The two orders agree because every callback guard examines
  only node shapes that the recursive processing of children preserves,
  and the freshly created nodes (`KeyValueExpr` entries, `BasicLit` keys,
  injected `Ident`s) are nodes on which the callbacks are no-ops.  The
  single exception: a slice row dropped by the conversion is not walked
  further by `ast.Inspect`, while the bottom-up form processes it before
  dropping it; the two agree on every input in which dropped rows contain
  no convertible nested assignment, in particular on all inputs used in
  the theorems below.
* Fallible lookups (`findNameField` returning `("", -1)`, `lookupObject`
  returning `nil`) are modelled with `Option`.
-/

namespace GoConv

/-- Literal kinds of `go/token` as used by `ast.BasicLit.Kind`. -/
inductive LitKind where
  | STRING
  | INT
  | FLOAT
  | CHAR
  | IMAG
deriving DecidableEq

/-- Assignment tokens distinguished by the tool: `token.DEFINE` (`:=`),
`token.ASSIGN` (`=`), anything else. -/
inductive AssignTok where
  | DEFINE
  | ASSIGN
  | otherTok
deriving DecidableEq

/-- Declaration tokens distinguished by the tool: `token.VAR`,
`token.CONST`, anything else (`import`, `type`). -/
inductive DeclTok where
  | VAR
  | CONST
  | otherDeclTok
deriving DecidableEq

mutual

/-- Go expressions (`ast.Expr`), restricted to the node shapes the tool
inspects plus an opaque leaf for everything else.  Type expressions are
expressions in Go's AST, hence `arrayTypeE`, `structTypeE`, `mapTypeE`
live here too. -/
inductive Expr where
  | ident (name : String)
  | basicLit (kind : LitKind) (value : String)
  | compositeLit (typ : OptExpr) (elts : ExprList)
  | selectorExpr (x : Expr) (sel : String)
  | callExpr (fn : Expr) (args : ExprList)
  | keyValueExpr (key : Expr) (val : Expr)
  | funcLit (body : StmtList)
  | arrayTypeE (len : OptExpr) (elt : Expr)
  | structTypeE (fields : FieldList)
  | mapTypeE (key : Expr) (val : Expr)
  | otherExpr (tag : Nat)
deriving DecidableEq

/-- A possibly-nil Go expression field. -/
inductive OptExpr where
  | none
  | some (e : Expr)
deriving DecidableEq

/-- A list of expressions (`[]ast.Expr`). -/
inductive ExprList where
  | nil
  | cons (head : Expr) (tail : ExprList)
deriving DecidableEq

/-- A struct field (`ast.Field`): a list of names sharing one type.  The
tool reads `len(field.Names)` and `field.Names[0].Name` only. -/
inductive Field where
  | mk (names : List String) (typ : Expr)
deriving DecidableEq

/-- A field list (`ast.FieldList`, flattened: the tool treats a nil
`Fields`/`List` the same as an empty one except for a debug print). -/
inductive FieldList where
  | nil
  | cons (f : Field) (fs : FieldList)
deriving DecidableEq

/-- Go statements, restricted to the shapes the tool matches on
(`ast.AssignStmt`, `ast.RangeStmt`, `ast.DeclStmt` wrapping a GenDecl)
plus generic containers for everything else that `ast.Inspect` walks. -/
inductive Stmt where
  | assignStmt (lhs : ExprList) (tok : AssignTok) (rhs : ExprList)
  | rangeStmt (key : OptExpr) (value : OptExpr) (x : Expr) (body : StmtList)
  | exprStmt (e : Expr)
  | declStmt (tok : DeclTok) (specs : SpecList)
  | block (body : StmtList)
  | otherStmt (tag : Nat)
deriving DecidableEq

/-- A list of statements. -/
inductive StmtList where
  | nil
  | cons (s : Stmt) (tl : StmtList)
deriving DecidableEq

/-- A declaration specification (`ast.Spec`): `ast.ValueSpec` with names,
an optional type and values, or an opaque other spec. -/
inductive Spec where
  | valueSpec (names : List String) (typ : OptExpr) (values : ExprList)
  | otherSpec (tag : Nat)
deriving DecidableEq

/-- A list of specs. -/
inductive SpecList where
  | nil
  | cons (s : Spec) (tl : SpecList)
deriving DecidableEq

end

/-- A top-level declaration: a function declaration (whose body the
traversals walk) or a generic declaration (`ast.GenDecl`). -/
inductive Decl where
  | funcDecl (name : String) (body : StmtList)
  | genDecl (tok : DeclTok) (specs : SpecList)
deriving DecidableEq

/-- A parsed Go file (`ast.File`): its list of top-level declarations. -/
structure File where
  decls : List Decl
deriving DecidableEq

/-- Length of an expression list. -/
def ExprList.length : ExprList → Nat
  | .nil => 0
  | .cons _ tl => tl.length + 1

/-- Indexing into an expression list. -/
def ExprList.get? : ExprList → Nat → Option Expr
  | .nil, _ => Option.none
  | .cons e _, 0 => Option.some e
  | .cons _ tl, n + 1 => tl.get? n

/-- Remove the element at the given index, keeping all other elements in
their original relative order.  This models the Go loops of the shape
`for i, v := range xs { if i != k { out = append(out, v) } }`. -/
def ExprList.removeNth : ExprList → Nat → ExprList
  | .nil, _ => .nil
  | .cons _ tl, 0 => tl
  | .cons e tl, n + 1 => .cons e (tl.removeNth n)

/-- Convert an expression list to a `List`. -/
def ExprList.toList : ExprList → List Expr
  | .nil => []
  | .cons e tl => e :: tl.toList

/-- Build an expression list from a `List`. -/
def ExprList.ofList : List Expr → ExprList
  | [] => .nil
  | e :: tl => .cons e (ExprList.ofList tl)

/-- Generic filter-map over an expression list (used only on the
specification side of characterisation theorems). -/
def ExprList.filterMap (f : Expr → Option Expr) : ExprList → ExprList
  | .nil => .nil
  | .cons e tl =>
      match f e with
      | Option.some e1 => .cons e1 (tl.filterMap f)
      | Option.none => tl.filterMap f

/-- Length of a field list. -/
def FieldList.length : FieldList → Nat
  | .nil => 0
  | .cons _ fs => fs.length + 1

/-- Remove the field at the given index (the loop body of
`createStructTypeWithoutField`). -/
def FieldList.removeNth : FieldList → Nat → FieldList
  | .nil, _ => .nil
  | .cons _ fs, 0 => fs
  | .cons f fs, n + 1 => .cons f (fs.removeNth n)

/-- Source: `findNameField` (identical in both copies).  Walks the struct
fields in declaration order and returns the first field literally named
`name`, `desc`, or `description`, together with its index.  The source
returns `("", -1)` when no field matches; this is modelled as `none`.
Fields with an empty name list are skipped.  -/
def findNameField (fields : FieldList) : Option (String × Nat) :=
  go fields 0
where
  go : FieldList → Nat → Option (String × Nat)
  | .nil, _ => Option.none
  | .cons (.mk names _) fs, i =>
      match names with
      | [] => go fs (i + 1)
      | fieldName :: _ =>
          if fieldName == "name" || fieldName == "desc" || fieldName == "description" then
            Option.some (fieldName, i)
          else
            go fs (i + 1)

/-- Source: `createStructTypeWithoutField` (identical in both copies).
Builds a new struct type with the field at the given index removed and
all other fields kept in order.  The source's `fieldIndex < 0` guard
(returning the struct unchanged) is unreachable from its call sites,
which only pass indices produced by a successful `findNameField`; the
index is therefore modelled as `Nat`. -/
def createStructTypeWithoutField (fields : FieldList) (fieldIndex : Nat) : Expr :=
  .structTypeE (fields.removeNth fieldIndex)

/-- Source: `isBlankIdent` (identical in both copies): the expression is
an identifier named `_`.  A nil expression (`OptExpr.none`) fails the
type assertion and yields `false`, exactly as in Go. -/
def isBlankIdent : OptExpr → Bool
  | .some (.ident name) => name == "_"
  | _ => false

/-- Is an optional expression present (Go: `!= nil`)? -/
def OptExpr.isSome : OptExpr → Bool
  | .none => false
  | .some _ => true

/-- The combined range-key test both copies use:
`isBlankIdent(rangeStmt.Key) || rangeStmt.Key == nil`. -/
def keyNeedsInjection (key : OptExpr) : Bool :=
  isBlankIdent key || !key.isSome



/-! ## Version 1: the declaration-based converter

Its first pass walks every `ast.GenDecl` (top-level or inside a
`DeclStmt`) with token `var`/`const`, and for each `ValueSpec` iterates
over the values, re-reading the spec's type each iteration (so after a
conversion the remaining values of the same spec no longer match).  Note
the source builds `mapType` with `Value: structType`, the *original*
struct type; the subsequent `arrayType.Elt = newStructType` writes into
the `ArrayType` node that was just unlinked from the spec by
`valueSpec.Type = mapType`, so the name-field removal never reaches the
output tree.  The model reproduces this: the new map value type keeps the
name field. -/

/-- Guard chain of version 1's per-value check (and of version 2's
composite-literal check): the type is an un-sized array (slice) of an
inline struct that has a recognised name field.  Returns the struct
fields, the matched field name and its index. -/
def matchEligibleType (typ : OptExpr) : Option (FieldList × String × Nat) :=
  match typ with
  | .some (.arrayTypeE .none (.structTypeE fields)) =>
      match findNameField fields with
      | Option.some (nm, idx) => Option.some (fields, nm, idx)
      | Option.none => Option.none
  | _ => Option.none

/-- Source: `convertElementsToMapEntries` (version 1).  For each slice
element that is a composite literal with an in-range, literal value at
the name-field index, emit a key-value entry whose key is a *string*
literal carrying the old literal's text and whose value keeps the
remaining element values in order; every other element is dropped
(`continue`).  The source's `nameFieldIndex < 0` guard (returning the
elements unchanged) is unreachable from its call site, which passes the
index of a successful `findNameField`; the index is modelled as `Nat`. -/
def convertElementsToMapEntries : ExprList → Nat → ExprList
  | .nil, _ => .nil
  | .cons elt rest, nameFieldIndex =>
      match elt with
      | .compositeLit _ elts =>
          if nameFieldIndex ≥ elts.length then
            convertElementsToMapEntries rest nameFieldIndex
          else
            match elts.get? nameFieldIndex with
            | Option.some (.basicLit _ nameValue) =>
                .cons
                  (.keyValueExpr (.basicLit .STRING nameValue)
                    (.compositeLit .none (elts.removeNth nameFieldIndex)))
                  (convertElementsToMapEntries rest nameFieldIndex)
            | _ => convertElementsToMapEntries rest nameFieldIndex
      | _ => convertElementsToMapEntries rest nameFieldIndex

/-- Version 1, the `for i, value := range valueSpec.Values` loop: the
spec's current type is re-read each iteration, so it is threaded through
the fold.  On a match the type becomes `map[string]structType` (with the
*original* struct type, see the module comment on the orphaned
`arrayType.Elt` write) and the value is replaced by a map literal. -/
def v1ConvertValues (typ : OptExpr) : ExprList → OptExpr × ExprList × Bool × Nat
  | .nil => (typ, .nil, false, 0)
  | .cons value rest =>
      match matchEligibleType typ, value with
      | Option.some (fields, _, idx), .compositeLit _ elts =>
          let newTyp : Expr := .mapTypeE (.ident "string") (.structTypeE fields)
          let newValue : Expr :=
            .compositeLit (.some newTyp) (convertElementsToMapEntries elts idx)
          let (typ2, rest2, _, c2) := v1ConvertValues (.some newTyp) rest
          (typ2, .cons newValue rest2, true, c2 + 1)
      | _, _ =>
          let (typ2, rest2, m2, c2) := v1ConvertValues typ rest
          (typ2, .cons value rest2, m2, c2)

/-- Version 1, per-spec conversion (non-`ValueSpec` specs are skipped). -/
def v1ConvertSpec : Spec → Spec × Bool × Nat
  | .valueSpec names typ values =>
      let (typ2, values2, m, c) := v1ConvertValues typ values
      (.valueSpec names typ2 values2, m, c)
  | .otherSpec t => (.otherSpec t, false, 0)

/-- Version 1, all specs of one `GenDecl`. -/
def v1ConvertSpecs : SpecList → SpecList × Bool × Nat
  | .nil => (.nil, false, 0)
  | .cons s tl =>
      let (s1, m1, c1) := v1ConvertSpec s
      let (tl1, m2, c2) := v1ConvertSpecs tl
      (.cons s1 tl1, m1 || m2, c1 + c2)

/-- Version 1, one `GenDecl`: only `var`/`const` declarations are
processed (`decl.Tok != token.VAR && decl.Tok != token.CONST`). -/
def v1ConvertGenDecl (tok : DeclTok) (specs : SpecList) : SpecList × Bool × Nat :=
  if tok == .VAR || tok == .CONST then v1ConvertSpecs specs
  else (specs, false, 0)

mutual

/-- Version 1, detection/transformation pass, expression traversal
(`ast.Inspect`, first callback of `processFile`). -/
def v1DetectExpr : Expr → Expr × Bool × Nat
  | .ident n => (.ident n, false, 0)
  | .basicLit k v => (.basicLit k v, false, 0)
  | .compositeLit t es =>
      let (t1, m1, c1) := v1DetectOpt t
      let (es1, m2, c2) := v1DetectList es
      (.compositeLit t1 es1, m1 || m2, c1 + c2)
  | .selectorExpr x s =>
      let (x1, m1, c1) := v1DetectExpr x
      (.selectorExpr x1 s, m1, c1)
  | .callExpr f as =>
      let (f1, m1, c1) := v1DetectExpr f
      let (as1, m2, c2) := v1DetectList as
      (.callExpr f1 as1, m1 || m2, c1 + c2)
  | .keyValueExpr k v =>
      let (k1, m1, c1) := v1DetectExpr k
      let (v1, m2, c2) := v1DetectExpr v
      (.keyValueExpr k1 v1, m1 || m2, c1 + c2)
  | .funcLit b =>
      let (b1, m1, c1) := v1DetectStmts b
      (.funcLit b1, m1, c1)
  | .arrayTypeE l e =>
      let (l1, m1, c1) := v1DetectOpt l
      let (e1, m2, c2) := v1DetectExpr e
      (.arrayTypeE l1 e1, m1 || m2, c1 + c2)
  | .structTypeE fs =>
      let (fs1, m1, c1) := v1DetectFields fs
      (.structTypeE fs1, m1, c1)
  | .mapTypeE k v =>
      let (k1, m1, c1) := v1DetectExpr k
      let (v1, m2, c2) := v1DetectExpr v
      (.mapTypeE k1 v1, m1 || m2, c1 + c2)
  | .otherExpr t => (.otherExpr t, false, 0)

def v1DetectOpt : OptExpr → OptExpr × Bool × Nat
  | .none => (.none, false, 0)
  | .some e =>
      let (e1, m, c) := v1DetectExpr e
      (.some e1, m, c)

def v1DetectList : ExprList → ExprList × Bool × Nat
  | .nil => (.nil, false, 0)
  | .cons e tl =>
      let (e1, m1, c1) := v1DetectExpr e
      let (tl1, m2, c2) := v1DetectList tl
      (.cons e1 tl1, m1 || m2, c1 + c2)

def v1DetectFields : FieldList → FieldList × Bool × Nat
  | .nil => (.nil, false, 0)
  | .cons (.mk ns t) fs =>
      let (t1, m1, c1) := v1DetectExpr t
      let (fs1, m2, c2) := v1DetectFields fs
      (.cons (.mk ns t1) fs1, m1 || m2, c1 + c2)

def v1DetectStmts : StmtList → StmtList × Bool × Nat
  | .nil => (.nil, false, 0)
  | .cons s tl =>
      let (s1, m1, c1) := v1DetectStmt s
      let (tl1, m2, c2) := v1DetectStmts tl
      (.cons s1 tl1, m1 || m2, c1 + c2)

def v1DetectStmt : Stmt → Stmt × Bool × Nat
  | .assignStmt lhs tok rhs =>
      let (lhs1, m1, c1) := v1DetectList lhs
      let (rhs1, m2, c2) := v1DetectList rhs
      (.assignStmt lhs1 tok rhs1, m1 || m2, c1 + c2)
  | .rangeStmt key value x body =>
      let (key1, m1, c1) := v1DetectOpt key
      let (value1, m2, c2) := v1DetectOpt value
      let (x1, m3, c3) := v1DetectExpr x
      let (body1, m4, c4) := v1DetectStmts body
      (.rangeStmt key1 value1 x1 body1, m1 || m2 || m3 || m4, c1 + c2 + c3 + c4)
  | .exprStmt e =>
      let (e1, m, c) := v1DetectExpr e
      (.exprStmt e1, m, c)
  | .declStmt tok specs =>
      let (specs1, m1, c1) := v1DetectSpecs specs
      let (specs2, m2, c2) := v1ConvertGenDecl tok specs1
      (.declStmt tok specs2, m1 || m2, c1 + c2)
  | .block body =>
      let (body1, m, c) := v1DetectStmts body
      (.block body1, m, c)
  | .otherStmt t => (.otherStmt t, false, 0)

def v1DetectSpec : Spec → Spec × Bool × Nat
  | .valueSpec names typ values =>
      let (typ1, m1, c1) := v1DetectOpt typ
      let (values1, m2, c2) := v1DetectList values
      (.valueSpec names typ1 values1, m1 || m2, c1 + c2)
  | .otherSpec t => (.otherSpec t, false, 0)

def v1DetectSpecs : SpecList → SpecList × Bool × Nat
  | .nil => (.nil, false, 0)
  | .cons s tl =>
      let (s1, m1, c1) := v1DetectSpec s
      let (tl1, m2, c2) := v1DetectSpecs tl
      (.cons s1 tl1, m1 || m2, c1 + c2)

end

/-- Version 1, detection pass over the top-level declarations. -/
def v1DetectDecls : List Decl → List Decl × Bool × Nat
  | [] => ([], false, 0)
  | .funcDecl n body :: rest =>
      let (body1, m1, c1) := v1DetectStmts body
      let (rest1, m2, c2) := v1DetectDecls rest
      (.funcDecl n body1 :: rest1, m1 || m2, c1 + c2)
  | .genDecl tok specs :: rest =>
      let (specs1, m1, c1) := v1DetectSpecs specs
      let (specs2, m2, c2) := v1ConvertGenDecl tok specs1
      let (rest1, m3, c3) := v1DetectDecls rest
      (.genDecl tok specs2 :: rest1, m1 || m2 || m3, c1 + c2 + c3)

/-- Version 1, detection pass over a whole file. -/
def v1DetectFile (f : File) : File × Bool × Nat :=
  let (decls1, m, c) := v1DetectDecls f.decls
  (⟨decls1⟩, m, c)

/-- Source: `lookupInSpecs` part of `lookupObject`: find the first
`ValueSpec` declaring the name. -/
def lookupInSpecs : SpecList → String → Option Spec
  | .nil, _ => Option.none
  | .cons s tl, name =>
      match s with
      | .valueSpec names typ values =>
          if names.contains name then Option.some (.valueSpec names typ values)
          else lookupInSpecs tl name
      | .otherSpec _ => lookupInSpecs tl name

/-- Source: `lookupObject` (version 1): scan the file's *top-level*
declarations for a `var`/`const` `ValueSpec` declaring the name.  The
source returns the declared identifier's `ast.Object`, whose `Decl`
field is that `ValueSpec`; the model returns the spec directly (`none`
for Go's `nil`). -/
def lookupObject : List Decl → String → Option Spec
  | [], _ => Option.none
  | .genDecl tok specs :: rest, name =>
      if tok == .VAR || tok == .CONST then
        match lookupInSpecs specs name with
        | Option.some s => Option.some s
        | Option.none => lookupObject rest name
      else lookupObject rest name
  | .funcDecl _ _ :: rest, name => lookupObject rest name

/-- Source: `isMapType` (version 1): the object is present, its
declaration is a `ValueSpec`, and the spec's type is a `MapType`. -/
def isMapType : Option Spec → Bool
  | Option.some (.valueSpec _ (.some (.mapTypeE _ _)) _) => true
  | _ => false

/-- Version 1, the body of the range-statement callback once the ranged
expression is an identifier: if the looked-up object has map type, leave
a both-key-and-value range alone, otherwise inject the key identifier
`name` when the key is blank or absent -- and set `modified`
unconditionally in this branch (even when no key is injected). -/
def v1RangeRewrite (decls : List Decl) (key value : OptExpr) (x : Expr) :
    OptExpr × Bool :=
  match x with
  | .ident name =>
      if isMapType (lookupObject decls name) then
        if key.isSome && value.isSome then (key, false)
        else if keyNeedsInjection key then (.some (.ident "name"), true)
        else (key, true)
      else (key, false)
  | _ => (key, false)

mutual

/-- Version 1, range-statement pass (second `ast.Inspect`), expression
traversal.  `decls` is the file's top-level declaration list, which this
pass reads (via `lookupObject`) but never changes. -/
def v1RangeExpr (decls : List Decl) : Expr → Expr × Bool
  | .ident n => (.ident n, false)
  | .basicLit k v => (.basicLit k v, false)
  | .compositeLit t es =>
      let (t1, m1) := v1RangeOpt decls t
      let (es1, m2) := v1RangeList decls es
      (.compositeLit t1 es1, m1 || m2)
  | .selectorExpr x s =>
      let (x1, m1) := v1RangeExpr decls x
      (.selectorExpr x1 s, m1)
  | .callExpr f as =>
      let (f1, m1) := v1RangeExpr decls f
      let (as1, m2) := v1RangeList decls as
      (.callExpr f1 as1, m1 || m2)
  | .keyValueExpr k v =>
      let (k1, m1) := v1RangeExpr decls k
      let (v1, m2) := v1RangeExpr decls v
      (.keyValueExpr k1 v1, m1 || m2)
  | .funcLit b =>
      let (b1, m1) := v1RangeStmts decls b
      (.funcLit b1, m1)
  | .arrayTypeE l e =>
      let (l1, m1) := v1RangeOpt decls l
      let (e1, m2) := v1RangeExpr decls e
      (.arrayTypeE l1 e1, m1 || m2)
  | .structTypeE fs =>
      let (fs1, m1) := v1RangeFields decls fs
      (.structTypeE fs1, m1)
  | .mapTypeE k v =>
      let (k1, m1) := v1RangeExpr decls k
      let (v1, m2) := v1RangeExpr decls v
      (.mapTypeE k1 v1, m1 || m2)
  | .otherExpr t => (.otherExpr t, false)

def v1RangeOpt (decls : List Decl) : OptExpr → OptExpr × Bool
  | .none => (.none, false)
  | .some e =>
      let (e1, m) := v1RangeExpr decls e
      (.some e1, m)

def v1RangeList (decls : List Decl) : ExprList → ExprList × Bool
  | .nil => (.nil, false)
  | .cons e tl =>
      let (e1, m1) := v1RangeExpr decls e
      let (tl1, m2) := v1RangeList decls tl
      (.cons e1 tl1, m1 || m2)

def v1RangeFields (decls : List Decl) : FieldList → FieldList × Bool
  | .nil => (.nil, false)
  | .cons (.mk ns t) fs =>
      let (t1, m1) := v1RangeExpr decls t
      let (fs1, m2) := v1RangeFields decls fs
      (.cons (.mk ns t1) fs1, m1 || m2)

def v1RangeStmts (decls : List Decl) : StmtList → StmtList × Bool
  | .nil => (.nil, false)
  | .cons s tl =>
      let (s1, m1) := v1RangeStmt decls s
      let (tl1, m2) := v1RangeStmts decls tl
      (.cons s1 tl1, m1 || m2)

def v1RangeStmt (decls : List Decl) : Stmt → Stmt × Bool
  | .assignStmt lhs tok rhs =>
      let (lhs1, m1) := v1RangeList decls lhs
      let (rhs1, m2) := v1RangeList decls rhs
      (.assignStmt lhs1 tok rhs1, m1 || m2)
  | .rangeStmt key value x body =>
      let (key1, m1) := v1RangeOpt decls key
      let (value1, m2) := v1RangeOpt decls value
      let (x1, m3) := v1RangeExpr decls x
      let (body1, m4) := v1RangeStmts decls body
      let (key2, m5) := v1RangeRewrite decls key1 value1 x1
      (.rangeStmt key2 value1 x1 body1, m1 || m2 || m3 || m4 || m5)
  | .exprStmt e =>
      let (e1, m) := v1RangeExpr decls e
      (.exprStmt e1, m)
  | .declStmt tok specs =>
      let (specs1, m) := v1RangeSpecs decls specs
      (.declStmt tok specs1, m)
  | .block body =>
      let (body1, m) := v1RangeStmts decls body
      (.block body1, m)
  | .otherStmt t => (.otherStmt t, false)

def v1RangeSpec (decls : List Decl) : Spec → Spec × Bool
  | .valueSpec names typ values =>
      let (typ1, m1) := v1RangeOpt decls typ
      let (values1, m2) := v1RangeList decls values
      (.valueSpec names typ1 values1, m1 || m2)
  | .otherSpec t => (.otherSpec t, false)

def v1RangeSpecs (decls : List Decl) : SpecList → SpecList × Bool
  | .nil => (.nil, false)
  | .cons s tl =>
      let (s1, m1) := v1RangeSpec decls s
      let (tl1, m2) := v1RangeSpecs decls tl
      (.cons s1 tl1, m1 || m2)

end

/-- Version 1, range pass over the top-level declarations. -/
def v1RangeDecls (decls : List Decl) : List Decl → List Decl × Bool
  | [] => ([], false)
  | .funcDecl n body :: rest =>
      let (body1, m1) := v1RangeStmts decls body
      let (rest1, m2) := v1RangeDecls decls rest
      (.funcDecl n body1 :: rest1, m1 || m2)
  | .genDecl tok specs :: rest =>
      let (specs1, m1) := v1RangeSpecs decls specs
      let (rest1, m2) := v1RangeDecls decls rest
      (.genDecl tok specs1 :: rest1, m1 || m2)

/-- Version 1, range pass over a whole file; `lookupObject` consults the
file's own top-level declarations. -/
def v1RangeFile (f : File) : File × Bool :=
  let (decls1, m) := v1RangeDecls f.decls f.decls
  (⟨decls1⟩, m)

/-! ## The `t.Run` call-site pass

Both copies run a third `ast.Inspect` that rewrites the first argument of
`t.Run(tc.<field>, ...)` calls to the bare identifier `name`.  The two
copies differ *only* in which accessed field names trigger the rewrite:
version 1 accepts the field literally named `name`, version 2 accepts
`name`, `desc` and `description`.  The pass is therefore defined once,
parameterised by the recognised-field predicate.  Neither copy consults
the set of converted variables here: the guard is purely syntactic. -/

/-- Version 1's accepted field names at the call site: only `name`
(`x.Name == "tc" && arg0.Sel.Name == "name"`). -/
def recognizedV1 (fieldName : String) : Bool :=
  fieldName == "name"

/-- Version 2's accepted field names at the call site:
`arg.Sel.Name == "name" || arg.Sel.Name == "desc" || arg.Sel.Name == "description"`. -/
def recognizedV2 (fieldName : String) : Bool :=
  fieldName == "name" || fieldName == "desc" || fieldName == "description"

/-- The call-site guard chain shared by both copies: the called function
is a selector whose receiver is the identifier `t` with method `Run`,
there is at least one argument, and the first argument is a selector on
the identifier `tc` whose field name is recognised. -/
def isTRunRewritable (recog : String → Bool) (fn : Expr) (args : ExprList) : Bool :=
  match fn, args with
  | .selectorExpr (.ident recv) selName, .cons (.selectorExpr (.ident base) fieldName) _ =>
      recv == "t" && selName == "Run" && base == "tc" && recog fieldName
  | _, _ => false

/-- Replace the first argument with the identifier `name`
(`callExpr.Args[0] = &ast.Ident{Name: "name"}`). -/
def replaceFirstArg : ExprList → ExprList
  | .cons _ rest => .cons (.ident "name") rest
  | .nil => .nil

mutual

/-- The `t.Run` call-site pass (third `ast.Inspect` of both copies),
expression traversal, parameterised by the recognised-field predicate. -/
def callPassExpr (recog : String → Bool) : Expr → Expr × Bool
  | .ident n => (.ident n, false)
  | .basicLit k v => (.basicLit k v, false)
  | .compositeLit t es =>
      let (t1, m1) := callPassOpt recog t
      let (es1, m2) := callPassList recog es
      (.compositeLit t1 es1, m1 || m2)
  | .selectorExpr x s =>
      let (x1, m1) := callPassExpr recog x
      (.selectorExpr x1 s, m1)
  | .callExpr f as =>
      let (f1, m1) := callPassExpr recog f
      let (as1, m2) := callPassList recog as
      if isTRunRewritable recog f1 as1 then
        (.callExpr f1 (replaceFirstArg as1), true)
      else
        (.callExpr f1 as1, m1 || m2)
  | .keyValueExpr k v =>
      let (k1, m1) := callPassExpr recog k
      let (v1, m2) := callPassExpr recog v
      (.keyValueExpr k1 v1, m1 || m2)
  | .funcLit b =>
      let (b1, m1) := callPassStmts recog b
      (.funcLit b1, m1)
  | .arrayTypeE l e =>
      let (l1, m1) := callPassOpt recog l
      let (e1, m2) := callPassExpr recog e
      (.arrayTypeE l1 e1, m1 || m2)
  | .structTypeE fs =>
      let (fs1, m1) := callPassFields recog fs
      (.structTypeE fs1, m1)
  | .mapTypeE k v =>
      let (k1, m1) := callPassExpr recog k
      let (v1, m2) := callPassExpr recog v
      (.mapTypeE k1 v1, m1 || m2)
  | .otherExpr t => (.otherExpr t, false)

def callPassOpt (recog : String → Bool) : OptExpr → OptExpr × Bool
  | .none => (.none, false)
  | .some e =>
      let (e1, m) := callPassExpr recog e
      (.some e1, m)

def callPassList (recog : String → Bool) : ExprList → ExprList × Bool
  | .nil => (.nil, false)
  | .cons e tl =>
      let (e1, m1) := callPassExpr recog e
      let (tl1, m2) := callPassList recog tl
      (.cons e1 tl1, m1 || m2)

def callPassFields (recog : String → Bool) : FieldList → FieldList × Bool
  | .nil => (.nil, false)
  | .cons (.mk ns t) fs =>
      let (t1, m1) := callPassExpr recog t
      let (fs1, m2) := callPassFields recog fs
      (.cons (.mk ns t1) fs1, m1 || m2)

def callPassStmts (recog : String → Bool) : StmtList → StmtList × Bool
  | .nil => (.nil, false)
  | .cons s tl =>
      let (s1, m1) := callPassStmt recog s
      let (tl1, m2) := callPassStmts recog tl
      (.cons s1 tl1, m1 || m2)

def callPassStmt (recog : String → Bool) : Stmt → Stmt × Bool
  | .assignStmt lhs tok rhs =>
      let (lhs1, m1) := callPassList recog lhs
      let (rhs1, m2) := callPassList recog rhs
      (.assignStmt lhs1 tok rhs1, m1 || m2)
  | .rangeStmt key value x body =>
      let (key1, m1) := callPassOpt recog key
      let (value1, m2) := callPassOpt recog value
      let (x1, m3) := callPassExpr recog x
      let (body1, m4) := callPassStmts recog body
      (.rangeStmt key1 value1 x1 body1, m1 || m2 || m3 || m4)
  | .exprStmt e =>
      let (e1, m) := callPassExpr recog e
      (.exprStmt e1, m)
  | .declStmt tok specs =>
      let (specs1, m) := callPassSpecs recog specs
      (.declStmt tok specs1, m)
  | .block body =>
      let (body1, m) := callPassStmts recog body
      (.block body1, m)
  | .otherStmt t => (.otherStmt t, false)

def callPassSpec (recog : String → Bool) : Spec → Spec × Bool
  | .valueSpec names typ values =>
      let (typ1, m1) := callPassOpt recog typ
      let (values1, m2) := callPassList recog values
      (.valueSpec names typ1 values1, m1 || m2)
  | .otherSpec t => (.otherSpec t, false)

def callPassSpecs (recog : String → Bool) : SpecList → SpecList × Bool
  | .nil => (.nil, false)
  | .cons s tl =>
      let (s1, m1) := callPassSpec recog s
      let (tl1, m2) := callPassSpecs recog tl
      (.cons s1 tl1, m1 || m2)

end

/-- Call-site pass over the top-level declarations. -/
def callPassDecls (recog : String → Bool) : List Decl → List Decl × Bool
  | [] => ([], false)
  | .funcDecl n body :: rest =>
      let (body1, m1) := callPassStmts recog body
      let (rest1, m2) := callPassDecls recog rest
      (.funcDecl n body1 :: rest1, m1 || m2)
  | .genDecl tok specs :: rest =>
      let (specs1, m1) := callPassSpecs recog specs
      let (rest1, m2) := callPassDecls recog rest
      (.genDecl tok specs1 :: rest1, m1 || m2)

/-- Call-site pass over a whole file. -/
def callPassFile (recog : String → Bool) (f : File) : File × Bool :=
  let (decls1, m) := callPassDecls recog f.decls
  (⟨decls1⟩, m)

/-! ## Version 2: the assignment-based converter

Its first pass walks every `ast.AssignStmt` with token `:=` or `=`,
matches composite-literal right-hand sides whose type is an un-sized
slice of an inline struct with a recognised name field, requires the
corresponding left-hand side to be a plain identifier, records that
identifier in `tableTestVars`, and rewrites the literal in place to a
`map[string]<struct minus name field>` literal, silently dropping every
row whose name position does not hold a `BasicLit`. -/

/-- Version 2, the inlined map-entry construction (the `for _, elt :=
range compLit.Elts` loop): rows that are composite literals with an
in-range `BasicLit` at the name index become key-value entries keyed by
that very literal (kind preserved); all other rows are dropped. -/
def v2MapEntries : ExprList → Nat → ExprList
  | .nil, _ => .nil
  | .cons elt rest, nameFieldIndex =>
      match elt with
      | .compositeLit _ elts =>
          if nameFieldIndex < elts.length then
            match elts.get? nameFieldIndex with
            | Option.some (.basicLit kind value) =>
                .cons
                  (.keyValueExpr (.basicLit kind value)
                    (.compositeLit .none (elts.removeNth nameFieldIndex)))
                  (v2MapEntries rest nameFieldIndex)
            | _ => v2MapEntries rest nameFieldIndex
          else v2MapEntries rest nameFieldIndex
      | _ => v2MapEntries rest nameFieldIndex

/-- Version 2's right-hand-side guard: a composite literal whose type is
an un-sized slice of an inline struct with a recognised name field. -/
def matchSliceTable (r : Expr) : Option (FieldList × ExprList × String × Nat) :=
  match r with
  | .compositeLit (.some (.arrayTypeE .none (.structTypeE fields))) elts =>
      match findNameField fields with
      | Option.some (nm, idx) => Option.some (fields, elts, nm, idx)
      | Option.none => Option.none
  | _ => Option.none

/-- Version 2, the `for i, rhs := range assign.Rhs` loop paired with
`assign.Lhs[i]`: a matching right-hand side whose left-hand side is a
plain identifier is converted (type replaced by
`map[string]<struct minus name field>`, rows rebuilt by `v2MapEntries`)
and the identifier recorded; everything else is kept.  Right-hand sides
beyond the length of the left-hand side list are kept. -/
def v2ConvertPairs : ExprList → ExprList → ExprList × List String × Bool × Nat
  | _, .nil => (.nil, [], false, 0)
  | .nil, .cons r rtl =>
      let (rtl2, vs, m, c) := v2ConvertPairs .nil rtl
      (.cons r rtl2, vs, m, c)
  | .cons l ltl, .cons r rtl =>
      let (rtl2, vs, m, c) := v2ConvertPairs ltl rtl
      match l, matchSliceTable r with
      | .ident name, Option.some (fields, elts, _, idx) =>
          let newTyp : Expr :=
            .mapTypeE (.ident "string") (createStructTypeWithoutField fields idx)
          (.cons (.compositeLit (.some newTyp) (v2MapEntries elts idx)) rtl2,
            name :: vs, true, c + 1)
      | _, _ => (.cons r rtl2, vs, m, c)

/-- Version 2, one assignment statement: only `:=` and `=` assignments
are examined (`assign.Tok != token.DEFINE && assign.Tok != token.ASSIGN`). -/
def v2ConvertAssign (lhs : ExprList) (tok : AssignTok) (rhs : ExprList) :
    ExprList × List String × Bool × Nat :=
  if tok == .DEFINE || tok == .ASSIGN then v2ConvertPairs lhs rhs
  else (rhs, [], false, 0)

mutual

/-- Version 2, detection/transformation pass (first `ast.Inspect`),
expression traversal.  Returns the rewritten node, the names recorded in
`tableTestVars`, the `modified` contribution and the `tablesConverted`
contribution. -/
def v2DetectExpr : Expr → Expr × List String × Bool × Nat
  | .ident n => (.ident n, [], false, 0)
  | .basicLit k v => (.basicLit k v, [], false, 0)
  | .compositeLit t es =>
      let (t1, vs1, m1, c1) := v2DetectOpt t
      let (es1, vs2, m2, c2) := v2DetectList es
      (.compositeLit t1 es1, vs1 ++ vs2, m1 || m2, c1 + c2)
  | .selectorExpr x s =>
      let (x1, vs1, m1, c1) := v2DetectExpr x
      (.selectorExpr x1 s, vs1, m1, c1)
  | .callExpr f as =>
      let (f1, vs1, m1, c1) := v2DetectExpr f
      let (as1, vs2, m2, c2) := v2DetectList as
      (.callExpr f1 as1, vs1 ++ vs2, m1 || m2, c1 + c2)
  | .keyValueExpr k v =>
      let (k1, vs1, m1, c1) := v2DetectExpr k
      let (v1, vs2, m2, c2) := v2DetectExpr v
      (.keyValueExpr k1 v1, vs1 ++ vs2, m1 || m2, c1 + c2)
  | .funcLit b =>
      let (b1, vs1, m1, c1) := v2DetectStmts b
      (.funcLit b1, vs1, m1, c1)
  | .arrayTypeE l e =>
      let (l1, vs1, m1, c1) := v2DetectOpt l
      let (e1, vs2, m2, c2) := v2DetectExpr e
      (.arrayTypeE l1 e1, vs1 ++ vs2, m1 || m2, c1 + c2)
  | .structTypeE fs =>
      let (fs1, vs1, m1, c1) := v2DetectFields fs
      (.structTypeE fs1, vs1, m1, c1)
  | .mapTypeE k v =>
      let (k1, vs1, m1, c1) := v2DetectExpr k
      let (v1, vs2, m2, c2) := v2DetectExpr v
      (.mapTypeE k1 v1, vs1 ++ vs2, m1 || m2, c1 + c2)
  | .otherExpr t => (.otherExpr t, [], false, 0)

def v2DetectOpt : OptExpr → OptExpr × List String × Bool × Nat
  | .none => (.none, [], false, 0)
  | .some e =>
      let (e1, vs, m, c) := v2DetectExpr e
      (.some e1, vs, m, c)

def v2DetectList : ExprList → ExprList × List String × Bool × Nat
  | .nil => (.nil, [], false, 0)
  | .cons e tl =>
      let (e1, vs1, m1, c1) := v2DetectExpr e
      let (tl1, vs2, m2, c2) := v2DetectList tl
      (.cons e1 tl1, vs1 ++ vs2, m1 || m2, c1 + c2)

def v2DetectFields : FieldList → FieldList × List String × Bool × Nat
  | .nil => (.nil, [], false, 0)
  | .cons (.mk ns t) fs =>
      let (t1, vs1, m1, c1) := v2DetectExpr t
      let (fs1, vs2, m2, c2) := v2DetectFields fs
      (.cons (.mk ns t1) fs1, vs1 ++ vs2, m1 || m2, c1 + c2)

def v2DetectStmts : StmtList → StmtList × List String × Bool × Nat
  | .nil => (.nil, [], false, 0)
  | .cons s tl =>
      let (s1, vs1, m1, c1) := v2DetectStmt s
      let (tl1, vs2, m2, c2) := v2DetectStmts tl
      (.cons s1 tl1, vs1 ++ vs2, m1 || m2, c1 + c2)

def v2DetectStmt : Stmt → Stmt × List String × Bool × Nat
  | .assignStmt lhs tok rhs =>
      let (lhs1, vs1, m1, c1) := v2DetectList lhs
      let (rhs1, vs2, m2, c2) := v2DetectList rhs
      let (rhs2, vs3, m3, c3) := v2ConvertAssign lhs1 tok rhs1
      (.assignStmt lhs1 tok rhs2, vs1 ++ vs2 ++ vs3, m1 || m2 || m3, c1 + c2 + c3)
  | .rangeStmt key value x body =>
      let (key1, vs1, m1, c1) := v2DetectOpt key
      let (value1, vs2, m2, c2) := v2DetectOpt value
      let (x1, vs3, m3, c3) := v2DetectExpr x
      let (body1, vs4, m4, c4) := v2DetectStmts body
      (.rangeStmt key1 value1 x1 body1, vs1 ++ vs2 ++ vs3 ++ vs4,
        m1 || m2 || m3 || m4, c1 + c2 + c3 + c4)
  | .exprStmt e =>
      let (e1, vs, m, c) := v2DetectExpr e
      (.exprStmt e1, vs, m, c)
  | .declStmt tok specs =>
      let (specs1, vs, m, c) := v2DetectSpecs specs
      (.declStmt tok specs1, vs, m, c)
  | .block body =>
      let (body1, vs, m, c) := v2DetectStmts body
      (.block body1, vs, m, c)
  | .otherStmt t => (.otherStmt t, [], false, 0)

def v2DetectSpec : Spec → Spec × List String × Bool × Nat
  | .valueSpec names typ values =>
      let (typ1, vs1, m1, c1) := v2DetectOpt typ
      let (values1, vs2, m2, c2) := v2DetectList values
      (.valueSpec names typ1 values1, vs1 ++ vs2, m1 || m2, c1 + c2)
  | .otherSpec t => (.otherSpec t, [], false, 0)

def v2DetectSpecs : SpecList → SpecList × List String × Bool × Nat
  | .nil => (.nil, [], false, 0)
  | .cons s tl =>
      let (s1, vs1, m1, c1) := v2DetectSpec s
      let (tl1, vs2, m2, c2) := v2DetectSpecs tl
      (.cons s1 tl1, vs1 ++ vs2, m1 || m2, c1 + c2)

end

/-- Version 2, detection pass over the top-level declarations. -/
def v2DetectDecls : List Decl → List Decl × List String × Bool × Nat
  | [] => ([], [], false, 0)
  | .funcDecl n body :: rest =>
      let (body1, vs1, m1, c1) := v2DetectStmts body
      let (rest1, vs2, m2, c2) := v2DetectDecls rest
      (.funcDecl n body1 :: rest1, vs1 ++ vs2, m1 || m2, c1 + c2)
  | .genDecl tok specs :: rest =>
      let (specs1, vs1, m1, c1) := v2DetectSpecs specs
      let (rest1, vs2, m2, c2) := v2DetectDecls rest
      (.genDecl tok specs1 :: rest1, vs1 ++ vs2, m1 || m2, c1 + c2)

/-- Version 2, detection pass over a whole file. -/
def v2DetectFile (f : File) : File × List String × Bool × Nat :=
  let (decls1, vs, m, c) := v2DetectDecls f.decls
  (⟨decls1⟩, vs, m, c)

/-- Version 2, the body of the range-statement callback: only ranges
over an identifier recorded in `tableTestVars` are touched, and
`modified` is set only when a key is actually injected. -/
def v2RangeRewrite (vars : List String) (key : OptExpr) (x : Expr) :
    OptExpr × Bool :=
  match x with
  | .ident name =>
      if vars.contains name && keyNeedsInjection key then
        (.some (.ident "name"), true)
      else (key, false)
  | _ => (key, false)

mutual

/-- Version 2, range-statement pass (second `ast.Inspect`), expression
traversal, parameterised by the `tableTestVars` set collected by the
detection pass. -/
def v2RangeExpr (vars : List String) : Expr → Expr × Bool
  | .ident n => (.ident n, false)
  | .basicLit k v => (.basicLit k v, false)
  | .compositeLit t es =>
      let (t1, m1) := v2RangeOpt vars t
      let (es1, m2) := v2RangeList vars es
      (.compositeLit t1 es1, m1 || m2)
  | .selectorExpr x s =>
      let (x1, m1) := v2RangeExpr vars x
      (.selectorExpr x1 s, m1)
  | .callExpr f as =>
      let (f1, m1) := v2RangeExpr vars f
      let (as1, m2) := v2RangeList vars as
      (.callExpr f1 as1, m1 || m2)
  | .keyValueExpr k v =>
      let (k1, m1) := v2RangeExpr vars k
      let (v1, m2) := v2RangeExpr vars v
      (.keyValueExpr k1 v1, m1 || m2)
  | .funcLit b =>
      let (b1, m1) := v2RangeStmts vars b
      (.funcLit b1, m1)
  | .arrayTypeE l e =>
      let (l1, m1) := v2RangeOpt vars l
      let (e1, m2) := v2RangeExpr vars e
      (.arrayTypeE l1 e1, m1 || m2)
  | .structTypeE fs =>
      let (fs1, m1) := v2RangeFields vars fs
      (.structTypeE fs1, m1)
  | .mapTypeE k v =>
      let (k1, m1) := v2RangeExpr vars k
      let (v1, m2) := v2RangeExpr vars v
      (.mapTypeE k1 v1, m1 || m2)
  | .otherExpr t => (.otherExpr t, false)

def v2RangeOpt (vars : List String) : OptExpr → OptExpr × Bool
  | .none => (.none, false)
  | .some e =>
      let (e1, m) := v2RangeExpr vars e
      (.some e1, m)

def v2RangeList (vars : List String) : ExprList → ExprList × Bool
  | .nil => (.nil, false)
  | .cons e tl =>
      let (e1, m1) := v2RangeExpr vars e
      let (tl1, m2) := v2RangeList vars tl
      (.cons e1 tl1, m1 || m2)

def v2RangeFields (vars : List String) : FieldList → FieldList × Bool
  | .nil => (.nil, false)
  | .cons (.mk ns t) fs =>
      let (t1, m1) := v2RangeExpr vars t
      let (fs1, m2) := v2RangeFields vars fs
      (.cons (.mk ns t1) fs1, m1 || m2)

def v2RangeStmts (vars : List String) : StmtList → StmtList × Bool
  | .nil => (.nil, false)
  | .cons s tl =>
      let (s1, m1) := v2RangeStmt vars s
      let (tl1, m2) := v2RangeStmts vars tl
      (.cons s1 tl1, m1 || m2)

def v2RangeStmt (vars : List String) : Stmt → Stmt × Bool
  | .assignStmt lhs tok rhs =>
      let (lhs1, m1) := v2RangeList vars lhs
      let (rhs1, m2) := v2RangeList vars rhs
      (.assignStmt lhs1 tok rhs1, m1 || m2)
  | .rangeStmt key value x body =>
      let (key1, m1) := v2RangeOpt vars key
      let (value1, m2) := v2RangeOpt vars value
      let (x1, m3) := v2RangeExpr vars x
      let (body1, m4) := v2RangeStmts vars body
      let (key2, m5) := v2RangeRewrite vars key1 x1
      (.rangeStmt key2 value1 x1 body1, m1 || m2 || m3 || m4 || m5)
  | .exprStmt e =>
      let (e1, m) := v2RangeExpr vars e
      (.exprStmt e1, m)
  | .declStmt tok specs =>
      let (specs1, m) := v2RangeSpecs vars specs
      (.declStmt tok specs1, m)
  | .block body =>
      let (body1, m) := v2RangeStmts vars body
      (.block body1, m)
  | .otherStmt t => (.otherStmt t, false)

def v2RangeSpec (vars : List String) : Spec → Spec × Bool
  | .valueSpec names typ values =>
      let (typ1, m1) := v2RangeOpt vars typ
      let (values1, m2) := v2RangeList vars values
      (.valueSpec names typ1 values1, m1 || m2)
  | .otherSpec t => (.otherSpec t, false)

def v2RangeSpecs (vars : List String) : SpecList → SpecList × Bool
  | .nil => (.nil, false)
  | .cons s tl =>
      let (s1, m1) := v2RangeSpec vars s
      let (tl1, m2) := v2RangeSpecs vars tl
      (.cons s1 tl1, m1 || m2)

end

/-- Version 2, range pass over the top-level declarations. -/
def v2RangeDecls (vars : List String) : List Decl → List Decl × Bool
  | [] => ([], false)
  | .funcDecl n body :: rest =>
      let (body1, m1) := v2RangeStmts vars body
      let (rest1, m2) := v2RangeDecls vars rest
      (.funcDecl n body1 :: rest1, m1 || m2)
  | .genDecl tok specs :: rest =>
      let (specs1, m1) := v2RangeSpecs vars specs
      let (rest1, m2) := v2RangeDecls vars rest
      (.genDecl tok specs1 :: rest1, m1 || m2)

/-- Version 2, range pass over a whole file. -/
def v2RangeFile (vars : List String) (f : File) : File × Bool :=
  let (decls1, m) := v2RangeDecls vars f.decls
  (⟨decls1⟩, m)

/-! ## Per-file orchestration, persistence and the batch driver -/

/-- Source: `FileResult` (identical in both copies). -/
structure FileResult where
  Modified : Bool
  TablesConverted : Nat
deriving DecidableEq

/-- Version 1, `processFile` without the external parse/print/write
capabilities: the three passes in order, then the result assembly.  The
`FileResult` fields are set only inside `if modified` (the zero value is
`{false, 0}`).  The returned `File` is the in-memory tree after all
passes; it reaches the disk only when `Modified` is true. -/
def processFileV1 (f : File) : FileResult × File :=
  let (f1, m1, c1) := v1DetectFile f
  let (f2, m2) := v1RangeFile f1
  let (f3, m3) := callPassFile recognizedV1 f2
  let modified := m1 || m2 || m3
  (if modified then ⟨true, c1⟩ else ⟨false, 0⟩, f3)

/-- Version 2, `processFile` without the external capabilities: the
detection pass feeds `tableTestVars` to the range pass. -/
def processFileV2 (f : File) : FileResult × File :=
  let (f1, vars, m1, c1) := v2DetectFile f
  let (f2, m2) := v2RangeFile vars f1
  let (f3, m3) := callPassFile recognizedV2 f2
  let modified := m1 || m2 || m3
  (if modified then ⟨true, c1⟩ else ⟨false, 0⟩, f3)

/-- Outcome of the persistence step of `processFile` (identical in both
copies): `os.Create` can fail, `printer.Fprint` can fail after writing
some bytes, or both succeed. -/
inductive WriteOutcome where
  | createFails
  | printFailsAt (written : Nat)
  | succeeds
deriving DecidableEq

/-- On-disk content after the write block runs.  The source opens the
file with `os.Create` -- which truncates an existing file to length zero
-- and then streams the rendered output into the file handle with
`printer.Fprint(f, fset, node)`; nothing is serialised to memory first.
If `os.Create` itself fails the old content survives; if `Fprint` fails
after `written` bytes the file holds exactly that prefix of the rendered
output. -/
def diskAfterWrite (original printed : String) : WriteOutcome → String
  | .createFails => original
  | .printFailsAt written => printed.take written
  | .succeeds => printed

/-- The persistence gate of `processFile` (identical in both copies):
the write block runs only under `if modified`. -/
def persist (original printed : String) (modified : Bool) (o : WriteOutcome) :
    String :=
  if modified then diskAfterWrite original printed o else original

/-- Source: `ConversionResult` (identical in both copies). -/
structure ConversionResult where
  FilesProcessed : Nat
  FilesModified : Nat
  TablesConverted : Nat
  Errors : List String
deriving DecidableEq

instance : DecidableEq (Except String FileResult) := fun x y =>
  match x, y with
  | .error a, .error b =>
      if h : a = b then .isTrue (by rw [h]) else .isFalse (by simp [h])
  | .ok a, .ok b =>
      if h : a = b then .isTrue (by rw [h]) else .isFalse (by simp [h])
  | .error _, .ok _ => .isFalse (by simp)
  | .ok _, .error _ => .isFalse (by simp)

/-- One event delivered to the `filepath.Walk` callback: an access error
on a path, a directory entry, a non-Go file, or a Go file together with
the outcome `processFile` produced for it (a parse or write failure with
its message, or a `FileResult`). -/
inductive WalkItem where
  | accessError (path msg : String)
  | dir (path : String)
  | nonGoFile (path : String)
  | goFile (path : String) (outcome : Except String FileResult)
deriving DecidableEq

/-- Source: the body of the `filepath.Walk` callback in
`ConvertTableTests` (identical in both copies up to progress printing):
access errors and per-file errors are appended to `Errors` and the walk
continues (`return nil`); directories and non-Go files are skipped;
successfully processed files bump `FilesProcessed`, and modified ones
also bump `FilesModified` and add their table count. -/
def walkStep (acc : ConversionResult) : WalkItem → ConversionResult
  | .accessError path msg =>
      { acc with Errors := acc.Errors ++ ["Error accessing " ++ path ++ ": " ++ msg] }
  | .dir _ => acc
  | .nonGoFile _ => acc
  | .goFile path (.error msg) =>
      { acc with Errors := acc.Errors ++ ["Error processing " ++ path ++ ": " ++ msg] }
  | .goFile _ (.ok r) =>
      { acc with
        FilesProcessed := acc.FilesProcessed + 1
        FilesModified := acc.FilesModified + (if r.Modified then 1 else 0)
        TablesConverted :=
          acc.TablesConverted + (if r.Modified then r.TablesConverted else 0) }

/-- Source: `ConvertTableTests` (identical in both copies): fold the
callback over the walked items starting from the zero result.  The
callback always returns `nil`, so `filepath.Walk` -- and with it
`ConvertTableTests` -- never surfaces an error for any item (even the
root-access failure reaches the callback as an item); the function
totally evaluates to a `ConversionResult`. -/
def ConvertTableTests (items : List WalkItem) : ConversionResult :=
  items.foldl walkStep ⟨0, 0, 0, []⟩

/-! ## Specification-side functions and predicates

Everything from here on is written for the theorems: per-row conversion
functions used to characterise the entry builders, no-occurrence
predicates used to state frame properties, and the concrete example
files used by counterexamples and witnesses. -/

/-- Is the expression a `BasicLit`? -/
def isBasicLit : Expr → Bool
  | .basicLit _ _ => true
  | _ => false

/-- Per-row view of version 1's `convertElementsToMapEntries`: a row
converts iff it is a composite literal with an in-range literal at the
name index; the produced entry is keyed by a string literal carrying the
old literal's text, and its value keeps the remaining row values. -/
def rowEntryV1 (idx : Nat) (elt : Expr) : Option Expr :=
  match elt with
  | .compositeLit _ relts =>
      if idx ≥ relts.length then Option.none
      else
        match relts.get? idx with
        | Option.some (.basicLit _ value) =>
            Option.some (.keyValueExpr (.basicLit .STRING value)
              (.compositeLit .none (relts.removeNth idx)))
        | _ => Option.none
  | _ => Option.none

/-- Per-row view of version 2's entry builder: as in version 1 but the
key is the original literal itself, kind included. -/
def rowEntryV2 (idx : Nat) (elt : Expr) : Option Expr :=
  match elt with
  | .compositeLit _ relts =>
      if idx < relts.length then
        match relts.get? idx with
        | Option.some (.basicLit kind value) =>
            Option.some (.keyValueExpr (.basicLit kind value)
              (.compositeLit .none (relts.removeNth idx)))
        | _ => Option.none
      else Option.none
  | _ => Option.none

/-- One (left-hand side, right-hand side) pair would be converted by
version 2: the left side is a plain identifier and the right side
matches the slice-table shape. -/
def pairConvertible (l r : Expr) : Bool :=
  match l with
  | .ident _ => (matchSliceTable r).isSome
  | _ => false

/-- Some positionally paired (lhs, rhs) combination is convertible. -/
def v2PairsConvertible : ExprList → ExprList → Bool
  | _, .nil => false
  | .nil, .cons _ rtl => v2PairsConvertible .nil rtl
  | .cons l ltl, .cons r rtl => pairConvertible l r || v2PairsConvertible ltl rtl

/-- The assignment statement would convert something under version 2. -/
def v2AssignConvertible (lhs : ExprList) (tok : AssignTok) (rhs : ExprList) : Bool :=
  (tok == .DEFINE || tok == .ASSIGN) && v2PairsConvertible lhs rhs

mutual

/-- No assignment statement anywhere in the expression would be
converted by version 2's detection pass. -/
def noConvExpr : Expr → Bool
  | .ident _ => true
  | .basicLit _ _ => true
  | .compositeLit t es => noConvOpt t && noConvList es
  | .selectorExpr x _ => noConvExpr x
  | .callExpr f as => noConvExpr f && noConvList as
  | .keyValueExpr k v => noConvExpr k && noConvExpr v
  | .funcLit b => noConvStmts b
  | .arrayTypeE l e => noConvOpt l && noConvExpr e
  | .structTypeE fs => noConvFields fs
  | .mapTypeE k v => noConvExpr k && noConvExpr v
  | .otherExpr _ => true

def noConvOpt : OptExpr → Bool
  | .none => true
  | .some e => noConvExpr e

def noConvList : ExprList → Bool
  | .nil => true
  | .cons e tl => noConvExpr e && noConvList tl

def noConvFields : FieldList → Bool
  | .nil => true
  | .cons (.mk _ t) fs => noConvExpr t && noConvFields fs

def noConvStmts : StmtList → Bool
  | .nil => true
  | .cons s tl => noConvStmt s && noConvStmts tl

def noConvStmt : Stmt → Bool
  | .assignStmt lhs tok rhs =>
      !v2AssignConvertible lhs tok rhs && noConvList lhs && noConvList rhs
  | .rangeStmt key value x body =>
      noConvOpt key && noConvOpt value && noConvExpr x && noConvStmts body
  | .exprStmt e => noConvExpr e
  | .declStmt _ specs => noConvSpecs specs
  | .block body => noConvStmts body
  | .otherStmt _ => true

def noConvSpec : Spec → Bool
  | .valueSpec _ typ values => noConvOpt typ && noConvList values
  | .otherSpec _ => true

def noConvSpecs : SpecList → Bool
  | .nil => true
  | .cons s tl => noConvSpec s && noConvSpecs tl

end

/-- No assignment statement anywhere in the declaration list would be
converted by version 2's detection pass. -/
def noConvDecls : List Decl → Bool
  | [] => true
  | .funcDecl _ body :: rest => noConvStmts body && noConvDecls rest
  | .genDecl _ specs :: rest => noConvSpecs specs && noConvDecls rest

/-- No assignment statement anywhere in the file would be converted by
version 2's detection pass. -/
def noConvFile (f : File) : Bool :=
  noConvDecls f.decls

mutual

/-- No `t.Run` call anywhere in the expression matches the call-site
rewrite guard (for the given recognised-field predicate). -/
def noTRunExpr (recog : String → Bool) : Expr → Bool
  | .ident _ => true
  | .basicLit _ _ => true
  | .compositeLit t es => noTRunOpt recog t && noTRunList recog es
  | .selectorExpr x _ => noTRunExpr recog x
  | .callExpr f as =>
      !isTRunRewritable recog f as && noTRunExpr recog f && noTRunList recog as
  | .keyValueExpr k v => noTRunExpr recog k && noTRunExpr recog v
  | .funcLit b => noTRunStmts recog b
  | .arrayTypeE l e => noTRunOpt recog l && noTRunExpr recog e
  | .structTypeE fs => noTRunFields recog fs
  | .mapTypeE k v => noTRunExpr recog k && noTRunExpr recog v
  | .otherExpr _ => true

def noTRunOpt (recog : String → Bool) : OptExpr → Bool
  | .none => true
  | .some e => noTRunExpr recog e

def noTRunList (recog : String → Bool) : ExprList → Bool
  | .nil => true
  | .cons e tl => noTRunExpr recog e && noTRunList recog tl

def noTRunFields (recog : String → Bool) : FieldList → Bool
  | .nil => true
  | .cons (.mk _ t) fs => noTRunExpr recog t && noTRunFields recog fs

def noTRunStmts (recog : String → Bool) : StmtList → Bool
  | .nil => true
  | .cons s tl => noTRunStmt recog s && noTRunStmts recog tl

def noTRunStmt (recog : String → Bool) : Stmt → Bool
  | .assignStmt lhs _ rhs => noTRunList recog lhs && noTRunList recog rhs
  | .rangeStmt key value x body =>
      noTRunOpt recog key && noTRunOpt recog value && noTRunExpr recog x &&
        noTRunStmts recog body
  | .exprStmt e => noTRunExpr recog e
  | .declStmt _ specs => noTRunSpecs recog specs
  | .block body => noTRunStmts recog body
  | .otherStmt _ => true

def noTRunSpec (recog : String → Bool) : Spec → Bool
  | .valueSpec _ typ values => noTRunOpt recog typ && noTRunList recog values
  | .otherSpec _ => true

def noTRunSpecs (recog : String → Bool) : SpecList → Bool
  | .nil => true
  | .cons s tl => noTRunSpec recog s && noTRunSpecs recog tl

end

/-- No matching `t.Run` call anywhere in the declaration list. -/
def noTRunDecls (recog : String → Bool) : List Decl → Bool
  | [] => true
  | .funcDecl _ body :: rest => noTRunStmts recog body && noTRunDecls recog rest
  | .genDecl _ specs :: rest => noTRunSpecs recog specs && noTRunDecls recog rest

/-- No matching `t.Run` call anywhere in the file. -/
def noTRunFile (recog : String → Bool) (f : File) : Bool :=
  noTRunDecls recog f.decls

mutual

/-- The names of all identifiers that some range statement in the
expression ranges over. -/
def rangedVarsExpr : Expr → List String
  | .ident _ => []
  | .basicLit _ _ => []
  | .compositeLit t es => rangedVarsOpt t ++ rangedVarsList es
  | .selectorExpr x _ => rangedVarsExpr x
  | .callExpr f as => rangedVarsExpr f ++ rangedVarsList as
  | .keyValueExpr k v => rangedVarsExpr k ++ rangedVarsExpr v
  | .funcLit b => rangedVarsStmts b
  | .arrayTypeE l e => rangedVarsOpt l ++ rangedVarsExpr e
  | .structTypeE fs => rangedVarsFields fs
  | .mapTypeE k v => rangedVarsExpr k ++ rangedVarsExpr v
  | .otherExpr _ => []

def rangedVarsOpt : OptExpr → List String
  | .none => []
  | .some e => rangedVarsExpr e

def rangedVarsList : ExprList → List String
  | .nil => []
  | .cons e tl => rangedVarsExpr e ++ rangedVarsList tl

def rangedVarsFields : FieldList → List String
  | .nil => []
  | .cons (.mk _ t) fs => rangedVarsExpr t ++ rangedVarsFields fs

def rangedVarsStmts : StmtList → List String
  | .nil => []
  | .cons s tl => rangedVarsStmt s ++ rangedVarsStmts tl

def rangedVarsStmt : Stmt → List String
  | .assignStmt lhs _ rhs => rangedVarsList lhs ++ rangedVarsList rhs
  | .rangeStmt key value x body =>
      (match x with
       | .ident n => [n]
       | _ => []) ++
        rangedVarsOpt key ++ rangedVarsOpt value ++ rangedVarsExpr x ++
        rangedVarsStmts body
  | .exprStmt e => rangedVarsExpr e
  | .declStmt _ specs => rangedVarsSpecs specs
  | .block body => rangedVarsStmts body
  | .otherStmt _ => []

def rangedVarsSpec : Spec → List String
  | .valueSpec _ typ values => rangedVarsOpt typ ++ rangedVarsList values
  | .otherSpec _ => []

def rangedVarsSpecs : SpecList → List String
  | .nil => []
  | .cons s tl => rangedVarsSpec s ++ rangedVarsSpecs tl

end

/-- The names of all identifiers ranged over in the declaration list. -/
def rangedVarsDecls : List Decl → List String
  | [] => []
  | .funcDecl _ body :: rest => rangedVarsStmts body ++ rangedVarsDecls rest
  | .genDecl _ specs :: rest => rangedVarsSpecs specs ++ rangedVarsDecls rest

/-- The names of all identifiers ranged over in the file. -/
def rangedVarsFile (f : File) : List String :=
  rangedVarsDecls f.decls

/-- Would version 1's range callback act on this range statement (set
`modified`, possibly inject a key)?  It does exactly when the ranged
expression is an identifier, the looked-up top-level object has map
type, and the statement does not already bind both key and value. -/
def v1RangeHit (decls : List Decl) (key value : OptExpr) (x : Expr) : Bool :=
  match x with
  | .ident name =>
      isMapType (lookupObject decls name) && !(key.isSome && value.isSome)
  | _ => false

mutual

/-- No range statement in the expression is acted on by version 1's
range callback (with the given top-level declarations). -/
def v1QuietExpr (decls : List Decl) : Expr → Bool
  | .ident _ => true
  | .basicLit _ _ => true
  | .compositeLit t es => v1QuietOpt decls t && v1QuietList decls es
  | .selectorExpr x _ => v1QuietExpr decls x
  | .callExpr f as => v1QuietExpr decls f && v1QuietList decls as
  | .keyValueExpr k v => v1QuietExpr decls k && v1QuietExpr decls v
  | .funcLit b => v1QuietStmts decls b
  | .arrayTypeE l e => v1QuietOpt decls l && v1QuietExpr decls e
  | .structTypeE fs => v1QuietFields decls fs
  | .mapTypeE k v => v1QuietExpr decls k && v1QuietExpr decls v
  | .otherExpr _ => true

def v1QuietOpt (decls : List Decl) : OptExpr → Bool
  | .none => true
  | .some e => v1QuietExpr decls e

def v1QuietList (decls : List Decl) : ExprList → Bool
  | .nil => true
  | .cons e tl => v1QuietExpr decls e && v1QuietList decls tl

def v1QuietFields (decls : List Decl) : FieldList → Bool
  | .nil => true
  | .cons (.mk _ t) fs => v1QuietExpr decls t && v1QuietFields decls fs

def v1QuietStmts (decls : List Decl) : StmtList → Bool
  | .nil => true
  | .cons s tl => v1QuietStmt decls s && v1QuietStmts decls tl

def v1QuietStmt (decls : List Decl) : Stmt → Bool
  | .assignStmt lhs _ rhs => v1QuietList decls lhs && v1QuietList decls rhs
  | .rangeStmt key value x body =>
      !v1RangeHit decls key value x && v1QuietOpt decls key &&
        v1QuietOpt decls value && v1QuietExpr decls x && v1QuietStmts decls body
  | .exprStmt e => v1QuietExpr decls e
  | .declStmt _ specs => v1QuietSpecs decls specs
  | .block body => v1QuietStmts decls body
  | .otherStmt _ => true

def v1QuietSpec (decls : List Decl) : Spec → Bool
  | .valueSpec _ typ values => v1QuietOpt decls typ && v1QuietList decls values
  | .otherSpec _ => true

def v1QuietSpecs (decls : List Decl) : SpecList → Bool
  | .nil => true
  | .cons s tl => v1QuietSpec decls s && v1QuietSpecs decls tl

end

/-- No range statement in the declaration list is acted on by version
1's range callback. -/
def v1QuietDecls (decls : List Decl) : List Decl → Bool
  | [] => true
  | .funcDecl _ body :: rest => v1QuietStmts decls body && v1QuietDecls decls rest
  | .genDecl _ specs :: rest => v1QuietSpecs decls specs && v1QuietDecls decls rest

/-- No range statement in the file is acted on by version 1's range
callback. -/
def v1QuietFile (f : File) : Bool :=
  v1QuietDecls f.decls f.decls

/-- Does some `ValueSpec` in the list have the eligible table-declaration
type (un-sized slice of an inline struct with a recognised name field)? -/
def specsHaveTableType : SpecList → Bool
  | .nil => false
  | .cons (.valueSpec _ typ _) tl =>
      (matchEligibleType typ).isSome || specsHaveTableType tl
  | .cons (.otherSpec _) tl => specsHaveTableType tl

mutual

/-- No generic declaration anywhere in the expression declares a value
with the eligible table type. -/
def noTableDeclExpr : Expr → Bool
  | .ident _ => true
  | .basicLit _ _ => true
  | .compositeLit t es => noTableDeclOpt t && noTableDeclList es
  | .selectorExpr x _ => noTableDeclExpr x
  | .callExpr f as => noTableDeclExpr f && noTableDeclList as
  | .keyValueExpr k v => noTableDeclExpr k && noTableDeclExpr v
  | .funcLit b => noTableDeclStmts b
  | .arrayTypeE l e => noTableDeclOpt l && noTableDeclExpr e
  | .structTypeE fs => noTableDeclFields fs
  | .mapTypeE k v => noTableDeclExpr k && noTableDeclExpr v
  | .otherExpr _ => true

def noTableDeclOpt : OptExpr → Bool
  | .none => true
  | .some e => noTableDeclExpr e

def noTableDeclList : ExprList → Bool
  | .nil => true
  | .cons e tl => noTableDeclExpr e && noTableDeclList tl

def noTableDeclFields : FieldList → Bool
  | .nil => true
  | .cons (.mk _ t) fs => noTableDeclExpr t && noTableDeclFields fs

def noTableDeclStmts : StmtList → Bool
  | .nil => true
  | .cons s tl => noTableDeclStmt s && noTableDeclStmts tl

def noTableDeclStmt : Stmt → Bool
  | .assignStmt lhs _ rhs => noTableDeclList lhs && noTableDeclList rhs
  | .rangeStmt key value x body =>
      noTableDeclOpt key && noTableDeclOpt value && noTableDeclExpr x &&
        noTableDeclStmts body
  | .exprStmt e => noTableDeclExpr e
  | .declStmt _ specs => !specsHaveTableType specs && noTableDeclSpecs specs
  | .block body => noTableDeclStmts body
  | .otherStmt _ => true

def noTableDeclSpec : Spec → Bool
  | .valueSpec _ typ values => noTableDeclOpt typ && noTableDeclList values
  | .otherSpec _ => true

def noTableDeclSpecs : SpecList → Bool
  | .nil => true
  | .cons s tl => noTableDeclSpec s && noTableDeclSpecs tl

end

/-- No generic declaration in the declaration list declares a value with
the eligible table type. -/
def noTableDeclDecls : List Decl → Bool
  | [] => true
  | .funcDecl _ body :: rest => noTableDeclStmts body && noTableDeclDecls rest
  | .genDecl _ specs :: rest =>
      !specsHaveTableType specs && noTableDeclSpecs specs && noTableDeclDecls rest

/-- No generic declaration in the file declares a value with the
eligible table type (the hypothesis of the selectivity claim). -/
def noTableDeclFile (f : File) : Bool :=
  noTableDeclDecls f.decls

/-! ## Concrete example files -/

/-- A `t.Run(tc.name, func(){})` call statement. -/
def tRunNameStmt : Stmt :=
  .exprStmt (.callExpr (.selectorExpr (.ident "t") "Run")
    (ExprList.ofList [.selectorExpr (.ident "tc") "name", .funcLit .nil]))

/-- A `t.Run(tc.desc, func(){})` call statement. -/
def tRunDescStmt : Stmt :=
  .exprStmt (.callExpr (.selectorExpr (.ident "t") "Run")
    (ExprList.ofList [.selectorExpr (.ident "tc") "desc", .funcLit .nil]))

/-- Struct fields `{name string; a int}`. -/
def fieldsNameA : FieldList :=
  .cons (.mk ["name"] (.ident "string"))
    (.cons (.mk ["a"] (.ident "int")) .nil)

/-- Example for the non-literal guard: a table whose second row carries
the identifier `dyn` (a non-literal expression) in the name position,
assigned with `:=` as version 2 expects:

`tests := []struct{name string; a int}{{"ok", 1}, {dyn, 2}}`. -/
def exC1File : File :=
  ⟨[.funcDecl "TestAdd"
    (.cons (.assignStmt (ExprList.ofList [.ident "tests"]) .DEFINE
      (ExprList.ofList
        [.compositeLit (.some (.arrayTypeE .none (.structTypeE fieldsNameA)))
          (ExprList.ofList
            [.compositeLit .none
              (ExprList.ofList [.basicLit .STRING "\"ok\"", .basicLit .INT "1"]),
             .compositeLit .none
              (ExprList.ofList [.ident "dyn", .basicLit .INT "2"])])]))
      .nil)]⟩

/-- What version 2 actually produces for `exC1File`: the declaration is
converted to a map literal and the non-literal row is dropped. -/
def exC1Out : File :=
  ⟨[.funcDecl "TestAdd"
    (.cons (.assignStmt (ExprList.ofList [.ident "tests"]) .DEFINE
      (ExprList.ofList
        [.compositeLit
          (.some (.mapTypeE (.ident "string")
            (.structTypeE (.cons (.mk ["a"] (.ident "int")) .nil))))
          (ExprList.ofList
            [.keyValueExpr (.basicLit .STRING "\"ok\"")
              (.compositeLit .none (ExprList.ofList [.basicLit .INT "1"]))])]))
      .nil)]⟩

/-- Example for the rewriter-correlation claim: a file in which nothing
is converted (there is no table declaration at all), yet a
`t.Run(tc.name, ...)` call sits inside a loop over the unrelated
variable `cases`. -/
def exC2File : File :=
  ⟨[.funcDecl "TestThing"
    (.cons (.rangeStmt (.some (.ident "_")) (.some (.ident "tc")) (.ident "cases")
      (.cons tRunNameStmt .nil)) .nil)]⟩

/-- What version 2 actually produces for `exC2File`: the call argument
is rewritten to `name` although no variable was converted. -/
def exC2Out : File :=
  ⟨[.funcDecl "TestThing"
    (.cons (.rangeStmt (.some (.ident "_")) (.some (.ident "tc")) (.ident "cases")
      (.cons (.exprStmt (.callExpr (.selectorExpr (.ident "t") "Run")
        (ExprList.ofList [.ident "name", .funcLit .nil]))) .nil)) .nil)]⟩

/-- Struct fields `{name string}`. -/
def fieldsNameOnly : FieldList :=
  .cons (.mk ["name"] (.ident "string")) .nil

/-- Example for the idempotence claim, version 1: a top-level table
declaration with explicit type, plus a loop binding only a (non-blank)
key: `for i := range tests`. -/
def exC5File : File :=
  ⟨[.genDecl .VAR
      (.cons (.valueSpec ["tests"]
        (.some (.arrayTypeE .none (.structTypeE fieldsNameOnly)))
        (ExprList.ofList
          [.compositeLit (.some (.arrayTypeE .none (.structTypeE fieldsNameOnly)))
            (ExprList.ofList
              [.compositeLit .none (ExprList.ofList [.basicLit .STRING "\"a\""])])]))
        .nil),
    .funcDecl "TestCount"
      (.cons (.rangeStmt (.some (.ident "i")) .none (.ident "tests") .nil) .nil)]⟩

/-- First-run output of version 1 on `exC5File`: the declaration is
converted; the key-only loop is left textually unchanged (but version
1's range callback still reports a modification for it on every run). -/
def exC5Out : File :=
  ⟨[.genDecl .VAR
      (.cons (.valueSpec ["tests"]
        (.some (.mapTypeE (.ident "string") (.structTypeE fieldsNameOnly)))
        (ExprList.ofList
          [.compositeLit (.some (.mapTypeE (.ident "string") (.structTypeE fieldsNameOnly)))
            (ExprList.ofList
              [.keyValueExpr (.basicLit .STRING "\"a\"")
                (.compositeLit .none .nil)])]))
        .nil),
    .funcDecl "TestCount"
      (.cons (.rangeStmt (.some (.ident "i")) .none (.ident "tests") .nil) .nil)]⟩

/-- Example for the selectivity claim, version 1: a file with no table
declaration of any kind, containing only a `t.Run(tc.name, ...)` call. -/
def exC6File : File :=
  ⟨[.funcDecl "TestHelper" (.cons (.block (.cons tRunNameStmt .nil)) .nil)]⟩

/-- What version 1 actually produces for `exC6File`: the call argument
is rewritten, so the file is reported modified and written back. -/
def exC6Out : File :=
  ⟨[.funcDecl "TestHelper"
    (.cons (.block (.cons (.exprStmt (.callExpr (.selectorExpr (.ident "t") "Run")
      (ExprList.ofList [.ident "name", .funcLit .nil]))) .nil)) .nil)]⟩

/-- Struct fields `{desc string; a int}`. -/
def fieldsDescA : FieldList :=
  .cons (.mk ["desc"] (.ident "string"))
    (.cons (.mk ["a"] (.ident "int")) .nil)

/-- Example for the alias claim, version 1: a `desc`-keyed table declared
inside the test function, iterated, and consumed by `t.Run(tc.desc, ...)`. -/
def exC7File : File :=
  ⟨[.funcDecl "TestMultiplication"
    (.cons (.declStmt .VAR
      (.cons (.valueSpec ["testCases"]
        (.some (.arrayTypeE .none (.structTypeE fieldsDescA)))
        (ExprList.ofList
          [.compositeLit (.some (.arrayTypeE .none (.structTypeE fieldsDescA)))
            (ExprList.ofList
              [.compositeLit .none
                (ExprList.ofList [.basicLit .STRING "\"simple\"", .basicLit .INT "2"])])]))
        .nil))
      (.cons (.rangeStmt (.some (.ident "_")) (.some (.ident "tc")) (.ident "testCases")
        (.cons tRunDescStmt .nil)) .nil))]⟩

/-- What version 1 actually produces for `exC7File`: the declaration is
converted (the `desc` field is recognised by `findNameField`) but the
`t.Run(tc.desc, ...)` argument is left unchanged, because version 1's
call-site pass only accepts the field literally named `name`. -/
def exC7Out : File :=
  ⟨[.funcDecl "TestMultiplication"
    (.cons (.declStmt .VAR
      (.cons (.valueSpec ["testCases"]
        (.some (.mapTypeE (.ident "string") (.structTypeE fieldsDescA)))
        (ExprList.ofList
          [.compositeLit (.some (.mapTypeE (.ident "string") (.structTypeE fieldsDescA)))
            (ExprList.ofList
              [.keyValueExpr (.basicLit .STRING "\"simple\"")
                (.compositeLit .none (ExprList.ofList [.basicLit .INT "2"]))])]))
        .nil))
      (.cons (.rangeStmt (.some (.ident "_")) (.some (.ident "tc")) (.ident "testCases")
        (.cons tRunDescStmt .nil)) .nil))]⟩

/-- A file that triggers none of the passes of either version: a single
function whose body is an opaque statement. -/
def exQuietFile : File :=
  ⟨[.funcDecl "TestDivision" (.cons (.otherStmt 0) .nil)]⟩

/-! ## Specification-side views of the batch fold -/

/-- The error message an item contributes to the batch error list, if
any (matching the two `append` sites of the walk callback). -/
def itemErrorMsg : WalkItem → Option String
  | .accessError path msg =>
      Option.some ("Error accessing " ++ path ++ ": " ++ msg)
  | .goFile path (.error msg) =>
      Option.some ("Error processing " ++ path ++ ": " ++ msg)
  | _ => Option.none

/-- Is the item a Go file processed without error? -/
def isOkFile : WalkItem → Bool
  | .goFile _ (.ok _) => true
  | _ => false

/-- Is the item a Go file processed without error and modified? -/
def isModFile : WalkItem → Bool
  | .goFile _ (.ok r) => r.Modified
  | _ => false

/-- The table count an item contributes. -/
def tableCount : WalkItem → Nat
  | .goFile _ (.ok r) => if r.Modified then r.TablesConverted else 0
  | _ => 0

/-- Number of files processed without error. -/
def okCount (items : List WalkItem) : Nat :=
  (items.filter isOkFile).length

/-- Number of files processed without error and modified. -/
def modCount (items : List WalkItem) : Nat :=
  (items.filter isModFile).length

/-- Total tables converted over the batch. -/
def tablesSum (items : List WalkItem) : Nat :=
  (items.map tableCount).sum

/-- The batch error list, in walk order. -/
def errorsOf (items : List WalkItem) : List String :=
  items.filterMap itemErrorMsg

/-! ## Auxiliary lemmas -/

/-- A call whose first argument is a plain identifier never matches the
call-site guard. -/
theorem isTRunRewritable_ident_arg (recog : String → Bool) (f : Expr)
    (n : String) (rest : ExprList) :
    isTRunRewritable recog f (.cons (.ident n) rest) = false := by
  cases f with
  | selectorExpr x s => cases x <;> rfl
  | _ => rfl

/-- The call-site guard fails on an empty argument list. -/
theorem isTRunRewritable_nil (recog : String → Bool) (f : Expr) :
    isTRunRewritable recog f .nil = false := by
  cases f with
  | selectorExpr x s => cases x <;> rfl
  | _ => rfl

/-- After the first argument is replaced by the identifier `name`, the
call no longer matches the guard. -/
theorem isTRunRewritable_replaceFirstArg (recog : String → Bool) (f : Expr)
    (args : ExprList) :
    isTRunRewritable recog f (replaceFirstArg args) = false := by
  cases args with
  | nil => exact isTRunRewritable_nil recog f
  | cons a rest => exact isTRunRewritable_ident_arg recog f "name" rest

mutual

theorem callPassExpr_noop (recog : String → Bool) :
    ∀ e : Expr, noTRunExpr recog e = true → callPassExpr recog e = (e, false) := by
  intro e h
  cases e with
  | ident n => rfl
  | basicLit k v => rfl
  | compositeLit t es =>
      simp only [noTRunExpr, Bool.and_eq_true] at h
      simp only [callPassExpr, callPassOpt_noop recog t h.1,
        callPassList_noop recog es h.2, Bool.or_self]
  | selectorExpr x s =>
      simp only [noTRunExpr] at h
      simp only [callPassExpr, callPassExpr_noop recog x h]
  | callExpr f as =>
      simp only [noTRunExpr, Bool.and_eq_true, Bool.not_eq_true'] at h
      obtain ⟨⟨hm, hf⟩, has⟩ := h
      simp only [callPassExpr, callPassExpr_noop recog f hf,
        callPassList_noop recog as has, hm, Bool.false_eq_true, if_false,
        Bool.or_self]
  | keyValueExpr k v =>
      simp only [noTRunExpr, Bool.and_eq_true] at h
      simp only [callPassExpr, callPassExpr_noop recog k h.1,
        callPassExpr_noop recog v h.2, Bool.or_self]
  | funcLit b =>
      simp only [noTRunExpr] at h
      simp only [callPassExpr, callPassStmts_noop recog b h]
  | arrayTypeE l e =>
      simp only [noTRunExpr, Bool.and_eq_true] at h
      simp only [callPassExpr, callPassOpt_noop recog l h.1,
        callPassExpr_noop recog e h.2, Bool.or_self]
  | structTypeE fs =>
      simp only [noTRunExpr] at h
      simp only [callPassExpr, callPassFields_noop recog fs h]
  | mapTypeE k v =>
      simp only [noTRunExpr, Bool.and_eq_true] at h
      simp only [callPassExpr, callPassExpr_noop recog k h.1,
        callPassExpr_noop recog v h.2, Bool.or_self]
  | otherExpr t => rfl

theorem callPassOpt_noop (recog : String → Bool) :
    ∀ o : OptExpr, noTRunOpt recog o = true → callPassOpt recog o = (o, false) := by
  intro o h
  cases o with
  | none => rfl
  | some e =>
      simp only [noTRunOpt] at h
      simp only [callPassOpt, callPassExpr_noop recog e h]

theorem callPassList_noop (recog : String → Bool) :
    ∀ es : ExprList, noTRunList recog es = true →
      callPassList recog es = (es, false) := by
  intro es h
  cases es with
  | nil => rfl
  | cons e tl =>
      simp only [noTRunList, Bool.and_eq_true] at h
      simp only [callPassList, callPassExpr_noop recog e h.1,
        callPassList_noop recog tl h.2, Bool.or_self]

theorem callPassFields_noop (recog : String → Bool) :
    ∀ fs : FieldList, noTRunFields recog fs = true →
      callPassFields recog fs = (fs, false) := by
  intro fs h
  cases fs with
  | nil => rfl
  | cons f tl =>
      cases f with
      | mk ns t =>
          simp only [noTRunFields, Bool.and_eq_true] at h
          simp only [callPassFields, callPassExpr_noop recog t h.1,
            callPassFields_noop recog tl h.2, Bool.or_self]

theorem callPassStmts_noop (recog : String → Bool) :
    ∀ ss : StmtList, noTRunStmts recog ss = true →
      callPassStmts recog ss = (ss, false) := by
  intro ss h
  cases ss with
  | nil => rfl
  | cons s tl =>
      simp only [noTRunStmts, Bool.and_eq_true] at h
      simp only [callPassStmts, callPassStmt_noop recog s h.1,
        callPassStmts_noop recog tl h.2, Bool.or_self]

theorem callPassStmt_noop (recog : String → Bool) :
    ∀ s : Stmt, noTRunStmt recog s = true → callPassStmt recog s = (s, false) := by
  intro s h
  cases s with
  | assignStmt lhs tok rhs =>
      simp only [noTRunStmt, Bool.and_eq_true] at h
      simp only [callPassStmt, callPassList_noop recog lhs h.1,
        callPassList_noop recog rhs h.2, Bool.or_self]
  | rangeStmt key value x body =>
      simp only [noTRunStmt, Bool.and_eq_true] at h
      obtain ⟨⟨⟨h1, h2⟩, h3⟩, h4⟩ := h
      simp only [callPassStmt, callPassOpt_noop recog key h1,
        callPassOpt_noop recog value h2, callPassExpr_noop recog x h3,
        callPassStmts_noop recog body h4, Bool.or_self]
  | exprStmt e =>
      simp only [noTRunStmt] at h
      simp only [callPassStmt, callPassExpr_noop recog e h]
  | declStmt tok specs =>
      simp only [noTRunStmt] at h
      simp only [callPassStmt, callPassSpecs_noop recog specs h]
  | block body =>
      simp only [noTRunStmt] at h
      simp only [callPassStmt, callPassStmts_noop recog body h]
  | otherStmt t => rfl

theorem callPassSpec_noop (recog : String → Bool) :
    ∀ s : Spec, noTRunSpec recog s = true → callPassSpec recog s = (s, false) := by
  intro s h
  cases s with
  | valueSpec names typ values =>
      simp only [noTRunSpec, Bool.and_eq_true] at h
      simp only [callPassSpec, callPassOpt_noop recog typ h.1,
        callPassList_noop recog values h.2, Bool.or_self]
  | otherSpec t => rfl

theorem callPassSpecs_noop (recog : String → Bool) :
    ∀ ss : SpecList, noTRunSpecs recog ss = true →
      callPassSpecs recog ss = (ss, false) := by
  intro ss h
  cases ss with
  | nil => rfl
  | cons s tl =>
      simp only [noTRunSpecs, Bool.and_eq_true] at h
      simp only [callPassSpecs, callPassSpec_noop recog s h.1,
        callPassSpecs_noop recog tl h.2, Bool.or_self]

end

/-- The call-site pass is a no-op on declaration lists without a
matching call. -/
theorem callPassDecls_noop (recog : String → Bool) :
    ∀ ds : List Decl, noTRunDecls recog ds = true →
      callPassDecls recog ds = (ds, false) := by
  intro ds h
  induction ds with
  | nil => rfl
  | cons d rest ih =>
      cases d with
      | funcDecl n body =>
          simp only [noTRunDecls, Bool.and_eq_true] at h
          simp only [callPassDecls, callPassStmts_noop recog body h.1, ih h.2,
            Bool.or_self]
      | genDecl tok specs =>
          simp only [noTRunDecls, Bool.and_eq_true] at h
          simp only [callPassDecls, callPassSpecs_noop recog specs h.1, ih h.2,
            Bool.or_self]

/-- The call-site pass is a no-op on files without a matching call. -/
theorem callPassFile_noop (recog : String → Bool) (f : File)
    (h : noTRunFile recog f = true) : callPassFile recog f = (f, false) := by
  cases f with
  | mk decls =>
      simp only [noTRunFile] at h
      simp only [callPassFile, callPassDecls_noop recog decls h]

mutual

theorem callPassExpr_clean (recog : String → Bool) :
    ∀ e : Expr, noTRunExpr recog (callPassExpr recog e).1 = true := by
  intro e
  cases e with
  | ident n => rfl
  | basicLit k v => rfl
  | compositeLit t es =>
      simp only [callPassExpr, noTRunExpr, Bool.and_eq_true]
      exact ⟨callPassOpt_clean recog t, callPassList_clean recog es⟩
  | selectorExpr x s =>
      simp only [callPassExpr, noTRunExpr]
      exact callPassExpr_clean recog x
  | callExpr f as =>
      simp only [callPassExpr]
      by_cases hm : isTRunRewritable recog (callPassExpr recog f).1
          (callPassList recog as).1 = true
      · simp only [hm, if_true, noTRunExpr, Bool.and_eq_true, Bool.not_eq_true']
        refine ⟨⟨isTRunRewritable_replaceFirstArg recog _ _, callPassExpr_clean recog f⟩, ?_⟩
        have h1 := callPassList_clean recog as
        cases h2 : (callPassList recog as).1 with
        | nil => simp [replaceFirstArg, noTRunList]
        | cons a rest =>
            rw [h2] at h1
            simp only [noTRunList, Bool.and_eq_true] at h1
            simp [replaceFirstArg, noTRunList, h1.2, noTRunExpr]
      · rw [Bool.not_eq_true] at hm
        simp [hm, noTRunExpr, callPassExpr_clean recog f, callPassList_clean recog as]
  | keyValueExpr k v =>
      simp only [callPassExpr, noTRunExpr, Bool.and_eq_true]
      exact ⟨callPassExpr_clean recog k, callPassExpr_clean recog v⟩
  | funcLit b =>
      simp only [callPassExpr, noTRunExpr]
      exact callPassStmts_clean recog b
  | arrayTypeE l e =>
      simp only [callPassExpr, noTRunExpr, Bool.and_eq_true]
      exact ⟨callPassOpt_clean recog l, callPassExpr_clean recog e⟩
  | structTypeE fs =>
      simp only [callPassExpr, noTRunExpr]
      exact callPassFields_clean recog fs
  | mapTypeE k v =>
      simp only [callPassExpr, noTRunExpr, Bool.and_eq_true]
      exact ⟨callPassExpr_clean recog k, callPassExpr_clean recog v⟩
  | otherExpr t => rfl

theorem callPassOpt_clean (recog : String → Bool) :
    ∀ o : OptExpr, noTRunOpt recog (callPassOpt recog o).1 = true := by
  intro o
  cases o with
  | none => rfl
  | some e =>
      simp only [callPassOpt, noTRunOpt]
      exact callPassExpr_clean recog e

theorem callPassList_clean (recog : String → Bool) :
    ∀ es : ExprList, noTRunList recog (callPassList recog es).1 = true := by
  intro es
  cases es with
  | nil => rfl
  | cons e tl =>
      simp only [callPassList, noTRunList, Bool.and_eq_true]
      exact ⟨callPassExpr_clean recog e, callPassList_clean recog tl⟩

theorem callPassFields_clean (recog : String → Bool) :
    ∀ fs : FieldList, noTRunFields recog (callPassFields recog fs).1 = true := by
  intro fs
  cases fs with
  | nil => rfl
  | cons f tl =>
      cases f with
      | mk ns t =>
          simp only [callPassFields, noTRunFields, Bool.and_eq_true]
          exact ⟨callPassExpr_clean recog t, callPassFields_clean recog tl⟩

theorem callPassStmts_clean (recog : String → Bool) :
    ∀ ss : StmtList, noTRunStmts recog (callPassStmts recog ss).1 = true := by
  intro ss
  cases ss with
  | nil => rfl
  | cons s tl =>
      simp only [callPassStmts, noTRunStmts, Bool.and_eq_true]
      exact ⟨callPassStmt_clean recog s, callPassStmts_clean recog tl⟩

theorem callPassStmt_clean (recog : String → Bool) :
    ∀ s : Stmt, noTRunStmt recog (callPassStmt recog s).1 = true := by
  intro s
  cases s with
  | assignStmt lhs tok rhs =>
      simp only [callPassStmt, noTRunStmt, Bool.and_eq_true]
      exact ⟨callPassList_clean recog lhs, callPassList_clean recog rhs⟩
  | rangeStmt key value x body =>
      simp only [callPassStmt, noTRunStmt, Bool.and_eq_true]
      exact ⟨⟨⟨callPassOpt_clean recog key, callPassOpt_clean recog value⟩,
        callPassExpr_clean recog x⟩, callPassStmts_clean recog body⟩
  | exprStmt e =>
      simp only [callPassStmt, noTRunStmt]
      exact callPassExpr_clean recog e
  | declStmt tok specs =>
      simp only [callPassStmt, noTRunStmt]
      exact callPassSpecs_clean recog specs
  | block body =>
      simp only [callPassStmt, noTRunStmt]
      exact callPassStmts_clean recog body
  | otherStmt t => rfl

theorem callPassSpec_clean (recog : String → Bool) :
    ∀ s : Spec, noTRunSpec recog (callPassSpec recog s).1 = true := by
  intro s
  cases s with
  | valueSpec names typ values =>
      simp only [callPassSpec, noTRunSpec, Bool.and_eq_true]
      exact ⟨callPassOpt_clean recog typ, callPassList_clean recog values⟩
  | otherSpec t => rfl

theorem callPassSpecs_clean (recog : String → Bool) :
    ∀ ss : SpecList, noTRunSpecs recog (callPassSpecs recog ss).1 = true := by
  intro ss
  cases ss with
  | nil => rfl
  | cons s tl =>
      simp only [callPassSpecs, noTRunSpecs, Bool.and_eq_true]
      exact ⟨callPassSpec_clean recog s, callPassSpecs_clean recog tl⟩

end

/-- The call-site pass leaves no matching call in a declaration list. -/
theorem callPassDecls_clean (recog : String → Bool) :
    ∀ ds : List Decl, noTRunDecls recog (callPassDecls recog ds).1 = true := by
  intro ds
  induction ds with
  | nil => rfl
  | cons d rest ih =>
      cases d with
      | funcDecl n body =>
          simp only [callPassDecls, noTRunDecls, Bool.and_eq_true]
          exact ⟨callPassStmts_clean recog body, ih⟩
      | genDecl tok specs =>
          simp only [callPassDecls, noTRunDecls, Bool.and_eq_true]
          exact ⟨callPassSpecs_clean recog specs, ih⟩

/-- The call-site pass leaves no matching call in a file. -/
theorem callPassFile_clean (recog : String → Bool) (f : File) :
    noTRunFile recog (callPassFile recog f).1 = true := by
  cases f with
  | mk decls =>
      simp only [callPassFile, noTRunFile]
      exact callPassDecls_clean recog decls

/-- Inversion of the version 2 right-hand-side guard. -/
theorem matchSliceTable_eq_some {r : Expr} {fields : FieldList}
    {elts : ExprList} {nm : String} {idx : Nat}
    (h : matchSliceTable r = Option.some (fields, elts, nm, idx)) :
    r = .compositeLit (.some (.arrayTypeE .none (.structTypeE fields))) elts ∧
      findNameField fields = Option.some (nm, idx) := by
  cases r with
  | compositeLit t es =>
      cases t with
      | none => simp [matchSliceTable] at h
      | some te =>
          cases te with
          | arrayTypeE lenO elt =>
              cases lenO with
              | none =>
                  cases elt with
                  | structTypeE fs =>
                      revert h
                      cases hn : findNameField fs with
                      | none => simp [matchSliceTable, hn]
                      | some p =>
                          cases p with
                          | mk a b =>
                              simp only [matchSliceTable, hn, Option.some.injEq,
                                Prod.mk.injEq]
                              intro h
                              obtain ⟨h1, h2, h3, h4⟩ := h
                              subst h1; subst h2; subst h3; subst h4
                              exact ⟨rfl, hn⟩
                  | _ => simp [matchSliceTable] at h
              | some l => simp [matchSliceTable] at h
          | _ => simp [matchSliceTable] at h
  | _ => simp_all [matchSliceTable]

/-- If no positional pair is convertible, version 2's pair walk keeps
everything and reports nothing. -/
theorem v2ConvertPairs_noop :
    ∀ lhs rhs, v2PairsConvertible lhs rhs = false →
      v2ConvertPairs lhs rhs = (rhs, [], false, 0) := by
  intro lhs rhs
  cases rhs with
  | nil => cases lhs <;> intro _ <;> rfl
  | cons r rtl =>
      intro h
      cases lhs with
      | nil =>
          simp only [v2PairsConvertible] at h
          simp only [v2ConvertPairs, v2ConvertPairs_noop .nil rtl h]
      | cons l ltl =>
          simp only [v2PairsConvertible, Bool.or_eq_false_iff] at h
          obtain ⟨h1, h2⟩ := h
          simp only [v2ConvertPairs, v2ConvertPairs_noop ltl rtl h2]
          cases l with
          | ident n =>
              simp only [pairConvertible] at h1
              cases hms : matchSliceTable r with
              | none => simp only [hms]
              | some p => rw [hms] at h1; simp at h1
          | basicLit k v => rfl
          | compositeLit t es => rfl
          | selectorExpr x s => rfl
          | callExpr f as => rfl
          | keyValueExpr k v => rfl
          | funcLit b => rfl
          | arrayTypeE a b => rfl
          | structTypeE fs => rfl
          | mapTypeE a b => rfl
          | otherExpr t => rfl

/-- If the assignment is not convertible, version 2's per-assignment
conversion keeps everything. -/
theorem v2ConvertAssign_noop (lhs : ExprList) (tok : AssignTok) (rhs : ExprList)
    (h : v2AssignConvertible lhs tok rhs = false) :
    v2ConvertAssign lhs tok rhs = (rhs, [], false, 0) := by
  cases tok with
  | DEFINE =>
      have hp : v2PairsConvertible lhs rhs = false := by
        simpa [v2AssignConvertible] using h
      simpa [v2ConvertAssign] using v2ConvertPairs_noop lhs rhs hp
  | ASSIGN =>
      have hp : v2PairsConvertible lhs rhs = false := by
        simpa [v2AssignConvertible] using h
      simpa [v2ConvertAssign] using v2ConvertPairs_noop lhs rhs hp
  | otherTok => rfl

mutual

theorem v2DetectExpr_noop :
    ∀ e : Expr, noConvExpr e = true → v2DetectExpr e = (e, [], false, 0) := by
  intro e h
  cases e with
  | ident n => rfl
  | basicLit k v => rfl
  | compositeLit t es =>
      simp only [noConvExpr, Bool.and_eq_true] at h
      simp only [v2DetectExpr, v2DetectOpt_noop t h.1, v2DetectList_noop es h.2,
        Bool.or_self, List.append_nil, Nat.add_zero]
  | selectorExpr x s =>
      simp only [noConvExpr] at h
      simp only [v2DetectExpr, v2DetectExpr_noop x h]
  | callExpr f as =>
      simp only [noConvExpr, Bool.and_eq_true] at h
      simp only [v2DetectExpr, v2DetectExpr_noop f h.1, v2DetectList_noop as h.2,
        Bool.or_self, List.append_nil, Nat.add_zero]
  | keyValueExpr k v =>
      simp only [noConvExpr, Bool.and_eq_true] at h
      simp only [v2DetectExpr, v2DetectExpr_noop k h.1, v2DetectExpr_noop v h.2,
        Bool.or_self, List.append_nil, Nat.add_zero]
  | funcLit b =>
      simp only [noConvExpr] at h
      simp only [v2DetectExpr, v2DetectStmts_noop b h]
  | arrayTypeE l e =>
      simp only [noConvExpr, Bool.and_eq_true] at h
      simp only [v2DetectExpr, v2DetectOpt_noop l h.1, v2DetectExpr_noop e h.2,
        Bool.or_self, List.append_nil, Nat.add_zero]
  | structTypeE fs =>
      simp only [noConvExpr] at h
      simp only [v2DetectExpr, v2DetectFields_noop fs h]
  | mapTypeE k v =>
      simp only [noConvExpr, Bool.and_eq_true] at h
      simp only [v2DetectExpr, v2DetectExpr_noop k h.1, v2DetectExpr_noop v h.2,
        Bool.or_self, List.append_nil, Nat.add_zero]
  | otherExpr t => rfl

theorem v2DetectOpt_noop :
    ∀ o : OptExpr, noConvOpt o = true → v2DetectOpt o = (o, [], false, 0) := by
  intro o h
  cases o with
  | none => rfl
  | some e =>
      simp only [noConvOpt] at h
      simp only [v2DetectOpt, v2DetectExpr_noop e h]

theorem v2DetectList_noop :
    ∀ es : ExprList, noConvList es = true → v2DetectList es = (es, [], false, 0) := by
  intro es h
  cases es with
  | nil => rfl
  | cons e tl =>
      simp only [noConvList, Bool.and_eq_true] at h
      simp only [v2DetectList, v2DetectExpr_noop e h.1, v2DetectList_noop tl h.2,
        Bool.or_self, List.append_nil, Nat.add_zero]

theorem v2DetectFields_noop :
    ∀ fs : FieldList, noConvFields fs = true →
      v2DetectFields fs = (fs, [], false, 0) := by
  intro fs h
  cases fs with
  | nil => rfl
  | cons f tl =>
      cases f with
      | mk ns t =>
          simp only [noConvFields, Bool.and_eq_true] at h
          simp only [v2DetectFields, v2DetectExpr_noop t h.1,
            v2DetectFields_noop tl h.2, Bool.or_self, List.append_nil, Nat.add_zero]

theorem v2DetectStmts_noop :
    ∀ ss : StmtList, noConvStmts ss = true → v2DetectStmts ss = (ss, [], false, 0) := by
  intro ss h
  cases ss with
  | nil => rfl
  | cons s tl =>
      simp only [noConvStmts, Bool.and_eq_true] at h
      simp only [v2DetectStmts, v2DetectStmt_noop s h.1, v2DetectStmts_noop tl h.2,
        Bool.or_self, List.append_nil, Nat.add_zero]

theorem v2DetectStmt_noop :
    ∀ s : Stmt, noConvStmt s = true → v2DetectStmt s = (s, [], false, 0) := by
  intro s h
  cases s with
  | assignStmt lhs tok rhs =>
      simp only [noConvStmt, Bool.and_eq_true, Bool.not_eq_true'] at h
      obtain ⟨⟨hc, h1⟩, h2⟩ := h
      simp only [v2DetectStmt, v2DetectList_noop lhs h1, v2DetectList_noop rhs h2,
        v2ConvertAssign_noop lhs tok rhs hc, Bool.or_self, List.append_nil,
        Nat.add_zero]
  | rangeStmt key value x body =>
      simp only [noConvStmt, Bool.and_eq_true] at h
      obtain ⟨⟨⟨h1, h2⟩, h3⟩, h4⟩ := h
      simp only [v2DetectStmt, v2DetectOpt_noop key h1, v2DetectOpt_noop value h2,
        v2DetectExpr_noop x h3, v2DetectStmts_noop body h4, Bool.or_self,
        List.append_nil, Nat.add_zero]
  | exprStmt e =>
      simp only [noConvStmt] at h
      simp only [v2DetectStmt, v2DetectExpr_noop e h]
  | declStmt tok specs =>
      simp only [noConvStmt] at h
      simp only [v2DetectStmt, v2DetectSpecs_noop specs h]
  | block body =>
      simp only [noConvStmt] at h
      simp only [v2DetectStmt, v2DetectStmts_noop body h]
  | otherStmt t => rfl

theorem v2DetectSpec_noop :
    ∀ s : Spec, noConvSpec s = true → v2DetectSpec s = (s, [], false, 0) := by
  intro s h
  cases s with
  | valueSpec names typ values =>
      simp only [noConvSpec, Bool.and_eq_true] at h
      simp only [v2DetectSpec, v2DetectOpt_noop typ h.1,
        v2DetectList_noop values h.2, Bool.or_self, List.append_nil, Nat.add_zero]
  | otherSpec t => rfl

theorem v2DetectSpecs_noop :
    ∀ ss : SpecList, noConvSpecs ss = true → v2DetectSpecs ss = (ss, [], false, 0) := by
  intro ss h
  cases ss with
  | nil => rfl
  | cons s tl =>
      simp only [noConvSpecs, Bool.and_eq_true] at h
      simp only [v2DetectSpecs, v2DetectSpec_noop s h.1, v2DetectSpecs_noop tl h.2,
        Bool.or_self, List.append_nil, Nat.add_zero]

end

/-- The version 2 detection pass is a no-op on declaration lists without
a convertible assignment. -/
theorem v2DetectDecls_noop :
    ∀ ds : List Decl, noConvDecls ds = true → v2DetectDecls ds = (ds, [], false, 0) := by
  intro ds h
  induction ds with
  | nil => rfl
  | cons d rest ih =>
      cases d with
      | funcDecl n body =>
          simp only [noConvDecls, Bool.and_eq_true] at h
          simp only [v2DetectDecls, v2DetectStmts_noop body h.1, ih h.2,
            Bool.or_self, List.append_nil, Nat.add_zero]
      | genDecl tok specs =>
          simp only [noConvDecls, Bool.and_eq_true] at h
          simp only [v2DetectDecls, v2DetectSpecs_noop specs h.1, ih h.2,
            Bool.or_self, List.append_nil, Nat.add_zero]

/-- The version 2 detection pass is a no-op on files without a
convertible assignment. -/
theorem v2DetectFile_noop (f : File) (h : noConvFile f = true) :
    v2DetectFile f = (f, [], false, 0) := by
  cases f with
  | mk decls =>
      simp only [noConvFile] at h
      simp only [v2DetectFile, v2DetectDecls_noop decls h]

/-- Removing an element preserves clean-of-convertible-assignments. -/
theorem noConvList_removeNth :
    ∀ (es : ExprList) (i : Nat), noConvList es = true →
      noConvList (es.removeNth i) = true := by
  intro es i h
  cases es with
  | nil => rfl
  | cons e tl =>
      simp only [noConvList, Bool.and_eq_true] at h
      cases i with
      | zero => exact h.2
      | succ n =>
          simp only [ExprList.removeNth, noConvList, Bool.and_eq_true]
          exact ⟨h.1, noConvList_removeNth tl n h.2⟩

/-- Removing a field preserves clean-of-convertible-assignments. -/
theorem noConvFields_removeNth :
    ∀ (fs : FieldList) (i : Nat), noConvFields fs = true →
      noConvFields (fs.removeNth i) = true := by
  intro fs i h
  cases fs with
  | nil => rfl
  | cons f tl =>
      cases f with
      | mk ns t =>
          simp only [noConvFields, Bool.and_eq_true] at h
          cases i with
          | zero => exact h.2
          | succ n =>
              simp only [FieldList.removeNth, noConvFields, Bool.and_eq_true]
              exact ⟨h.1, noConvFields_removeNth tl n h.2⟩

/-- The version 2 entry builder produces clean entries from clean rows. -/
theorem noConvList_v2MapEntries :
    ∀ (es : ExprList) (i : Nat), noConvList es = true →
      noConvList (v2MapEntries es i) = true := by
  intro es i h
  cases es with
  | nil => rfl
  | cons elt rest =>
      simp only [noConvList, Bool.and_eq_true] at h
      obtain ⟨he, hr⟩ := h
      cases elt with
      | compositeLit t elts =>
          simp only [noConvExpr, Bool.and_eq_true] at he
          simp only [v2MapEntries]
          split
          · cases hg : elts.get? i with
            | none => simp only [hg]; exact noConvList_v2MapEntries rest i hr
            | some g =>
                cases g with
                | basicLit kind value =>
                    simp only [hg, noConvList, Bool.and_eq_true]
                    refine ⟨?_, noConvList_v2MapEntries rest i hr⟩
                    simp only [noConvExpr, Bool.and_eq_true, noConvOpt]
                    exact ⟨trivial, trivial, noConvList_removeNth elts i he.2⟩
                | ident n => simp only [hg]; exact noConvList_v2MapEntries rest i hr
                | compositeLit a b => simp only [hg]; exact noConvList_v2MapEntries rest i hr
                | selectorExpr a b => simp only [hg]; exact noConvList_v2MapEntries rest i hr
                | callExpr a b => simp only [hg]; exact noConvList_v2MapEntries rest i hr
                | keyValueExpr a b => simp only [hg]; exact noConvList_v2MapEntries rest i hr
                | funcLit a => simp only [hg]; exact noConvList_v2MapEntries rest i hr
                | arrayTypeE a b => simp only [hg]; exact noConvList_v2MapEntries rest i hr
                | structTypeE a => simp only [hg]; exact noConvList_v2MapEntries rest i hr
                | mapTypeE a b => simp only [hg]; exact noConvList_v2MapEntries rest i hr
                | otherExpr a => simp only [hg]; exact noConvList_v2MapEntries rest i hr
          · exact noConvList_v2MapEntries rest i hr
      | ident n => exact noConvList_v2MapEntries rest i hr
      | basicLit k v => exact noConvList_v2MapEntries rest i hr
      | selectorExpr a b => exact noConvList_v2MapEntries rest i hr
      | callExpr a b => exact noConvList_v2MapEntries rest i hr
      | keyValueExpr a b => exact noConvList_v2MapEntries rest i hr
      | funcLit a => exact noConvList_v2MapEntries rest i hr
      | arrayTypeE a b => exact noConvList_v2MapEntries rest i hr
      | structTypeE a => exact noConvList_v2MapEntries rest i hr
      | mapTypeE a b => exact noConvList_v2MapEntries rest i hr
      | otherExpr a => exact noConvList_v2MapEntries rest i hr

/-- After version 2's pair walk, no positional pair is convertible any
more: converted right-hand sides now carry a map type, unconverted ones
were not convertible to begin with. -/
theorem v2PairsConvertible_after :
    ∀ lhs rhs, v2PairsConvertible lhs (v2ConvertPairs lhs rhs).1 = false := by
  intro lhs rhs
  cases rhs with
  | nil => cases lhs <;> rfl
  | cons r rtl =>
      cases lhs with
      | nil =>
          simp only [v2ConvertPairs, v2PairsConvertible]
          exact v2PairsConvertible_after .nil rtl
      | cons l ltl =>
          simp only [v2ConvertPairs]
          cases l with
          | ident n =>
              cases hms : matchSliceTable r with
              | none =>
                  simp only [hms, v2PairsConvertible, pairConvertible,
                    Bool.or_eq_false_iff]
                  exact ⟨rfl, v2PairsConvertible_after ltl rtl⟩
              | some p =>
                  obtain ⟨fields, elts, nm, idx⟩ := p
                  simp only [hms, v2PairsConvertible, pairConvertible,
                    Bool.or_eq_false_iff]
                  exact ⟨rfl, v2PairsConvertible_after ltl rtl⟩
          | basicLit k v =>
              simp only [v2PairsConvertible, pairConvertible, Bool.false_or]
              exact v2PairsConvertible_after ltl rtl
          | compositeLit a b =>
              simp only [v2PairsConvertible, pairConvertible, Bool.false_or]
              exact v2PairsConvertible_after ltl rtl
          | selectorExpr a b =>
              simp only [v2PairsConvertible, pairConvertible, Bool.false_or]
              exact v2PairsConvertible_after ltl rtl
          | callExpr a b =>
              simp only [v2PairsConvertible, pairConvertible, Bool.false_or]
              exact v2PairsConvertible_after ltl rtl
          | keyValueExpr a b =>
              simp only [v2PairsConvertible, pairConvertible, Bool.false_or]
              exact v2PairsConvertible_after ltl rtl
          | funcLit a =>
              simp only [v2PairsConvertible, pairConvertible, Bool.false_or]
              exact v2PairsConvertible_after ltl rtl
          | arrayTypeE a b =>
              simp only [v2PairsConvertible, pairConvertible, Bool.false_or]
              exact v2PairsConvertible_after ltl rtl
          | structTypeE a =>
              simp only [v2PairsConvertible, pairConvertible, Bool.false_or]
              exact v2PairsConvertible_after ltl rtl
          | mapTypeE a b =>
              simp only [v2PairsConvertible, pairConvertible, Bool.false_or]
              exact v2PairsConvertible_after ltl rtl
          | otherExpr a =>
              simp only [v2PairsConvertible, pairConvertible, Bool.false_or]
              exact v2PairsConvertible_after ltl rtl

/-- The pair walk keeps the right-hand sides clean. -/
theorem noConvList_v2ConvertPairs :
    ∀ lhs rhs, noConvList rhs = true →
      noConvList (v2ConvertPairs lhs rhs).1 = true := by
  intro lhs rhs h
  cases rhs with
  | nil => cases lhs <;> rfl
  | cons r rtl =>
      simp only [noConvList, Bool.and_eq_true] at h
      obtain ⟨hr, htl⟩ := h
      cases lhs with
      | nil =>
          simp only [v2ConvertPairs, noConvList, Bool.and_eq_true]
          exact ⟨hr, noConvList_v2ConvertPairs .nil rtl htl⟩
      | cons l ltl =>
          simp only [v2ConvertPairs]
          cases l with
          | ident n =>
              cases hms : matchSliceTable r with
              | none =>
                  simp only [hms, noConvList, Bool.and_eq_true]
                  exact ⟨hr, noConvList_v2ConvertPairs ltl rtl htl⟩
              | some p =>
                  obtain ⟨fields, elts, nm, idx⟩ := p
                  obtain ⟨hreq, hfn⟩ := matchSliceTable_eq_some hms
                  subst hreq
                  simp only [noConvExpr, noConvOpt, Bool.and_eq_true] at hr
                  simp only [hms, noConvList, Bool.and_eq_true]
                  refine ⟨?_, noConvList_v2ConvertPairs ltl rtl htl⟩
                  simp only [noConvExpr, noConvOpt, createStructTypeWithoutField,
                    Bool.and_eq_true]
                  exact ⟨⟨trivial, noConvFields_removeNth fields idx hr.1.2⟩,
                    noConvList_v2MapEntries elts idx hr.2⟩
          | basicLit k v =>
              simp only [noConvList, Bool.and_eq_true]
              exact ⟨hr, noConvList_v2ConvertPairs ltl rtl htl⟩
          | compositeLit a b =>
              simp only [noConvList, Bool.and_eq_true]
              exact ⟨hr, noConvList_v2ConvertPairs ltl rtl htl⟩
          | selectorExpr a b =>
              simp only [noConvList, Bool.and_eq_true]
              exact ⟨hr, noConvList_v2ConvertPairs ltl rtl htl⟩
          | callExpr a b =>
              simp only [noConvList, Bool.and_eq_true]
              exact ⟨hr, noConvList_v2ConvertPairs ltl rtl htl⟩
          | keyValueExpr a b =>
              simp only [noConvList, Bool.and_eq_true]
              exact ⟨hr, noConvList_v2ConvertPairs ltl rtl htl⟩
          | funcLit a =>
              simp only [noConvList, Bool.and_eq_true]
              exact ⟨hr, noConvList_v2ConvertPairs ltl rtl htl⟩
          | arrayTypeE a b =>
              simp only [noConvList, Bool.and_eq_true]
              exact ⟨hr, noConvList_v2ConvertPairs ltl rtl htl⟩
          | structTypeE a =>
              simp only [noConvList, Bool.and_eq_true]
              exact ⟨hr, noConvList_v2ConvertPairs ltl rtl htl⟩
          | mapTypeE a b =>
              simp only [noConvList, Bool.and_eq_true]
              exact ⟨hr, noConvList_v2ConvertPairs ltl rtl htl⟩
          | otherExpr a =>
              simp only [noConvList, Bool.and_eq_true]
              exact ⟨hr, noConvList_v2ConvertPairs ltl rtl htl⟩

/-- After version 2's per-assignment conversion, the assignment is no
longer convertible and its right-hand sides are clean. -/
theorem v2ConvertAssign_clean (lhs : ExprList) (tok : AssignTok) (rhs : ExprList)
    (h : noConvList rhs = true) :
    v2AssignConvertible lhs tok (v2ConvertAssign lhs tok rhs).1 = false ∧
      noConvList (v2ConvertAssign lhs tok rhs).1 = true := by
  cases tok with
  | DEFINE =>
      constructor
      · simp only [v2AssignConvertible, v2ConvertAssign]
        simp [v2PairsConvertible_after lhs rhs]
      · simp only [v2ConvertAssign]
        simpa using noConvList_v2ConvertPairs lhs rhs h
  | ASSIGN =>
      constructor
      · simp only [v2AssignConvertible, v2ConvertAssign]
        simp [v2PairsConvertible_after lhs rhs]
      · simp only [v2ConvertAssign]
        simpa using noConvList_v2ConvertPairs lhs rhs h
  | otherTok => exact ⟨rfl, by simpa [v2ConvertAssign] using h⟩

mutual

theorem v2DetectExpr_clean : ∀ e : Expr, noConvExpr (v2DetectExpr e).1 = true := by
  intro e
  cases e with
  | ident n => rfl
  | basicLit k v => rfl
  | compositeLit t es =>
      simp only [v2DetectExpr, noConvExpr, Bool.and_eq_true]
      exact ⟨v2DetectOpt_clean t, v2DetectList_clean es⟩
  | selectorExpr x s =>
      simp only [v2DetectExpr, noConvExpr]
      exact v2DetectExpr_clean x
  | callExpr f as =>
      simp only [v2DetectExpr, noConvExpr, Bool.and_eq_true]
      exact ⟨v2DetectExpr_clean f, v2DetectList_clean as⟩
  | keyValueExpr k v =>
      simp only [v2DetectExpr, noConvExpr, Bool.and_eq_true]
      exact ⟨v2DetectExpr_clean k, v2DetectExpr_clean v⟩
  | funcLit b =>
      simp only [v2DetectExpr, noConvExpr]
      exact v2DetectStmts_clean b
  | arrayTypeE l e =>
      simp only [v2DetectExpr, noConvExpr, Bool.and_eq_true]
      exact ⟨v2DetectOpt_clean l, v2DetectExpr_clean e⟩
  | structTypeE fs =>
      simp only [v2DetectExpr, noConvExpr]
      exact v2DetectFields_clean fs
  | mapTypeE k v =>
      simp only [v2DetectExpr, noConvExpr, Bool.and_eq_true]
      exact ⟨v2DetectExpr_clean k, v2DetectExpr_clean v⟩
  | otherExpr t => rfl

theorem v2DetectOpt_clean : ∀ o : OptExpr, noConvOpt (v2DetectOpt o).1 = true := by
  intro o
  cases o with
  | none => rfl
  | some e =>
      simp only [v2DetectOpt, noConvOpt]
      exact v2DetectExpr_clean e

theorem v2DetectList_clean : ∀ es : ExprList, noConvList (v2DetectList es).1 = true := by
  intro es
  cases es with
  | nil => rfl
  | cons e tl =>
      simp only [v2DetectList, noConvList, Bool.and_eq_true]
      exact ⟨v2DetectExpr_clean e, v2DetectList_clean tl⟩

theorem v2DetectFields_clean : ∀ fs : FieldList, noConvFields (v2DetectFields fs).1 = true := by
  intro fs
  cases fs with
  | nil => rfl
  | cons f tl =>
      cases f with
      | mk ns t =>
          simp only [v2DetectFields, noConvFields, Bool.and_eq_true]
          exact ⟨v2DetectExpr_clean t, v2DetectFields_clean tl⟩

theorem v2DetectStmts_clean : ∀ ss : StmtList, noConvStmts (v2DetectStmts ss).1 = true := by
  intro ss
  cases ss with
  | nil => rfl
  | cons s tl =>
      simp only [v2DetectStmts, noConvStmts, Bool.and_eq_true]
      exact ⟨v2DetectStmt_clean s, v2DetectStmts_clean tl⟩

theorem v2DetectStmt_clean : ∀ s : Stmt, noConvStmt (v2DetectStmt s).1 = true := by
  intro s
  cases s with
  | assignStmt lhs tok rhs =>
      simp only [v2DetectStmt, noConvStmt, Bool.and_eq_true, Bool.not_eq_true']
      have hclean := v2ConvertAssign_clean (v2DetectList lhs).1 tok
        (v2DetectList rhs).1 (v2DetectList_clean rhs)
      exact ⟨⟨hclean.1, v2DetectList_clean lhs⟩, hclean.2⟩
  | rangeStmt key value x body =>
      simp only [v2DetectStmt, noConvStmt, Bool.and_eq_true]
      exact ⟨⟨⟨v2DetectOpt_clean key, v2DetectOpt_clean value⟩,
        v2DetectExpr_clean x⟩, v2DetectStmts_clean body⟩
  | exprStmt e =>
      simp only [v2DetectStmt, noConvStmt]
      exact v2DetectExpr_clean e
  | declStmt tok specs =>
      simp only [v2DetectStmt, noConvStmt]
      exact v2DetectSpecs_clean specs
  | block body =>
      simp only [v2DetectStmt, noConvStmt]
      exact v2DetectStmts_clean body
  | otherStmt t => rfl

theorem v2DetectSpec_clean : ∀ s : Spec, noConvSpec (v2DetectSpec s).1 = true := by
  intro s
  cases s with
  | valueSpec names typ values =>
      simp only [v2DetectSpec, noConvSpec, Bool.and_eq_true]
      exact ⟨v2DetectOpt_clean typ, v2DetectList_clean values⟩
  | otherSpec t => rfl

theorem v2DetectSpecs_clean : ∀ ss : SpecList, noConvSpecs (v2DetectSpecs ss).1 = true := by
  intro ss
  cases ss with
  | nil => rfl
  | cons s tl =>
      simp only [v2DetectSpecs, noConvSpecs, Bool.and_eq_true]
      exact ⟨v2DetectSpec_clean s, v2DetectSpecs_clean tl⟩

end

/-- The version 2 detection pass leaves no convertible assignment in a
declaration list. -/
theorem v2DetectDecls_clean : ∀ ds : List Decl, noConvDecls (v2DetectDecls ds).1 = true := by
  intro ds
  induction ds with
  | nil => rfl
  | cons d rest ih =>
      cases d with
      | funcDecl n body =>
          simp only [v2DetectDecls, noConvDecls, Bool.and_eq_true]
          exact ⟨v2DetectStmts_clean body, ih⟩
      | genDecl tok specs =>
          simp only [v2DetectDecls, noConvDecls, Bool.and_eq_true]
          exact ⟨v2DetectSpecs_clean specs, ih⟩

/-- The version 2 detection pass leaves no convertible assignment in a
file. -/
theorem v2DetectFile_clean (f : File) : noConvFile (v2DetectFile f).1 = true := by
  cases f with
  | mk decls =>
      simp only [v2DetectFile, noConvFile]
      exact v2DetectDecls_clean decls

mutual

theorem v2RangeExpr_noop (vars : List String) :
    ∀ e : Expr, (∀ n, n ∈ rangedVarsExpr e → vars.contains n = false) →
      v2RangeExpr vars e = (e, false) := by
  intro e h
  cases e with
  | ident n => rfl
  | basicLit k v => rfl
  | compositeLit t es =>
      simp only [rangedVarsExpr, List.mem_append] at h
      simp only [v2RangeExpr,
        v2RangeOpt_noop vars t (fun n hn => h n (Or.inl hn)),
        v2RangeList_noop vars es (fun n hn => h n (Or.inr hn)), Bool.or_self]
  | selectorExpr x s =>
      simp only [rangedVarsExpr] at h
      simp only [v2RangeExpr, v2RangeExpr_noop vars x h]
  | callExpr f as =>
      simp only [rangedVarsExpr, List.mem_append] at h
      simp only [v2RangeExpr,
        v2RangeExpr_noop vars f (fun n hn => h n (Or.inl hn)),
        v2RangeList_noop vars as (fun n hn => h n (Or.inr hn)), Bool.or_self]
  | keyValueExpr k v =>
      simp only [rangedVarsExpr, List.mem_append] at h
      simp only [v2RangeExpr,
        v2RangeExpr_noop vars k (fun n hn => h n (Or.inl hn)),
        v2RangeExpr_noop vars v (fun n hn => h n (Or.inr hn)), Bool.or_self]
  | funcLit b =>
      simp only [rangedVarsExpr] at h
      simp only [v2RangeExpr, v2RangeStmts_noop vars b h]
  | arrayTypeE l e =>
      simp only [rangedVarsExpr, List.mem_append] at h
      simp only [v2RangeExpr,
        v2RangeOpt_noop vars l (fun n hn => h n (Or.inl hn)),
        v2RangeExpr_noop vars e (fun n hn => h n (Or.inr hn)), Bool.or_self]
  | structTypeE fs =>
      simp only [rangedVarsExpr] at h
      simp only [v2RangeExpr, v2RangeFields_noop vars fs h]
  | mapTypeE k v =>
      simp only [rangedVarsExpr, List.mem_append] at h
      simp only [v2RangeExpr,
        v2RangeExpr_noop vars k (fun n hn => h n (Or.inl hn)),
        v2RangeExpr_noop vars v (fun n hn => h n (Or.inr hn)), Bool.or_self]
  | otherExpr t => rfl

theorem v2RangeOpt_noop (vars : List String) :
    ∀ o : OptExpr, (∀ n, n ∈ rangedVarsOpt o → vars.contains n = false) →
      v2RangeOpt vars o = (o, false) := by
  intro o h
  cases o with
  | none => rfl
  | some e =>
      simp only [rangedVarsOpt] at h
      simp only [v2RangeOpt, v2RangeExpr_noop vars e h]

theorem v2RangeList_noop (vars : List String) :
    ∀ es : ExprList, (∀ n, n ∈ rangedVarsList es → vars.contains n = false) →
      v2RangeList vars es = (es, false) := by
  intro es h
  cases es with
  | nil => rfl
  | cons e tl =>
      simp only [rangedVarsList, List.mem_append] at h
      simp only [v2RangeList,
        v2RangeExpr_noop vars e (fun n hn => h n (Or.inl hn)),
        v2RangeList_noop vars tl (fun n hn => h n (Or.inr hn)), Bool.or_self]

theorem v2RangeFields_noop (vars : List String) :
    ∀ fs : FieldList, (∀ n, n ∈ rangedVarsFields fs → vars.contains n = false) →
      v2RangeFields vars fs = (fs, false) := by
  intro fs h
  cases fs with
  | nil => rfl
  | cons f tl =>
      cases f with
      | mk ns t =>
          simp only [rangedVarsFields, List.mem_append] at h
          simp only [v2RangeFields,
            v2RangeExpr_noop vars t (fun n hn => h n (Or.inl hn)),
            v2RangeFields_noop vars tl (fun n hn => h n (Or.inr hn)), Bool.or_self]

theorem v2RangeStmts_noop (vars : List String) :
    ∀ ss : StmtList, (∀ n, n ∈ rangedVarsStmts ss → vars.contains n = false) →
      v2RangeStmts vars ss = (ss, false) := by
  intro ss h
  cases ss with
  | nil => rfl
  | cons s tl =>
      simp only [rangedVarsStmts, List.mem_append] at h
      simp only [v2RangeStmts,
        v2RangeStmt_noop vars s (fun n hn => h n (Or.inl hn)),
        v2RangeStmts_noop vars tl (fun n hn => h n (Or.inr hn)), Bool.or_self]

theorem v2RangeStmt_noop (vars : List String) :
    ∀ s : Stmt, (∀ n, n ∈ rangedVarsStmt s → vars.contains n = false) →
      v2RangeStmt vars s = (s, false) := by
  intro s h
  cases s with
  | assignStmt lhs tok rhs =>
      simp only [rangedVarsStmt, List.mem_append] at h
      simp only [v2RangeStmt,
        v2RangeList_noop vars lhs (fun n hn => h n (Or.inl hn)),
        v2RangeList_noop vars rhs (fun n hn => h n (Or.inr hn)), Bool.or_self]
  | rangeStmt key value x body =>
      simp only [rangedVarsStmt, List.mem_append] at h
      have hkey : v2RangeOpt vars key = (key, false) :=
        v2RangeOpt_noop vars key
          (fun n hn => h n (Or.inl (Or.inl (Or.inl (Or.inr hn)))))
      have hvalue : v2RangeOpt vars value = (value, false) :=
        v2RangeOpt_noop vars value (fun n hn => h n (Or.inl (Or.inl (Or.inr hn))))
      have hx : v2RangeExpr vars x = (x, false) :=
        v2RangeExpr_noop vars x (fun n hn => h n (Or.inl (Or.inr hn)))
      have hbody : v2RangeStmts vars body = (body, false) :=
        v2RangeStmts_noop vars body (fun n hn => h n (Or.inr hn))
      have hrw : v2RangeRewrite vars key x = (key, false) := by
        cases x with
        | ident n =>
            have hmem : vars.contains n = false :=
              h n (Or.inl (Or.inl (Or.inl (Or.inl (by simp)))))
            simp only [v2RangeRewrite, hmem, Bool.false_and, Bool.false_eq_true,
              if_false]
        | basicLit a b => rfl
        | compositeLit a b => rfl
        | selectorExpr a b => rfl
        | callExpr a b => rfl
        | keyValueExpr a b => rfl
        | funcLit a => rfl
        | arrayTypeE a b => rfl
        | structTypeE a => rfl
        | mapTypeE a b => rfl
        | otherExpr a => rfl
      simp only [v2RangeStmt, hkey, hvalue, hx, hbody, hrw, Bool.or_self]
  | exprStmt e =>
      simp only [rangedVarsStmt] at h
      simp only [v2RangeStmt, v2RangeExpr_noop vars e h]
  | declStmt tok specs =>
      simp only [rangedVarsStmt] at h
      simp only [v2RangeStmt, v2RangeSpecs_noop vars specs h]
  | block body =>
      simp only [rangedVarsStmt] at h
      simp only [v2RangeStmt, v2RangeStmts_noop vars body h]
  | otherStmt t => rfl

theorem v2RangeSpec_noop (vars : List String) :
    ∀ s : Spec, (∀ n, n ∈ rangedVarsSpec s → vars.contains n = false) →
      v2RangeSpec vars s = (s, false) := by
  intro s h
  cases s with
  | valueSpec names typ values =>
      simp only [rangedVarsSpec, List.mem_append] at h
      simp only [v2RangeSpec,
        v2RangeOpt_noop vars typ (fun n hn => h n (Or.inl hn)),
        v2RangeList_noop vars values (fun n hn => h n (Or.inr hn)), Bool.or_self]
  | otherSpec t => rfl

theorem v2RangeSpecs_noop (vars : List String) :
    ∀ ss : SpecList, (∀ n, n ∈ rangedVarsSpecs ss → vars.contains n = false) →
      v2RangeSpecs vars ss = (ss, false) := by
  intro ss h
  cases ss with
  | nil => rfl
  | cons s tl =>
      simp only [rangedVarsSpecs, List.mem_append] at h
      simp only [v2RangeSpecs,
        v2RangeSpec_noop vars s (fun n hn => h n (Or.inl hn)),
        v2RangeSpecs_noop vars tl (fun n hn => h n (Or.inr hn)), Bool.or_self]

end

/-- The version 2 range pass is a no-op on declaration lists in which no
range statement iterates over a variable in `vars`. -/
theorem v2RangeDecls_noop (vars : List String) :
    ∀ ds : List Decl, (∀ n, n ∈ rangedVarsDecls ds → vars.contains n = false) →
      v2RangeDecls vars ds = (ds, false) := by
  intro ds h
  induction ds with
  | nil => rfl
  | cons d rest ih =>
      cases d with
      | funcDecl nm body =>
          simp only [rangedVarsDecls, List.mem_append] at h
          simp only [v2RangeDecls,
            v2RangeStmts_noop vars body (fun n hn => h n (Or.inl hn)),
            ih (fun n hn => h n (Or.inr hn)), Bool.or_self]
      | genDecl tok specs =>
          simp only [rangedVarsDecls, List.mem_append] at h
          simp only [v2RangeDecls,
            v2RangeSpecs_noop vars specs (fun n hn => h n (Or.inl hn)),
            ih (fun n hn => h n (Or.inr hn)), Bool.or_self]

/-- The version 2 range pass is a no-op on files in which no range
statement iterates over a variable in `vars`. -/
theorem v2RangeFile_noop (vars : List String) (f : File)
    (h : ∀ n, n ∈ rangedVarsFile f → vars.contains n = false) :
    v2RangeFile vars f = (f, false) := by
  cases f with
  | mk decls =>
      simp only [rangedVarsFile] at h
      simp only [v2RangeFile, v2RangeDecls_noop vars decls h]

/-- With an empty converted-variable set the version 2 range pass is a
no-op on every file. -/
theorem v2RangeFile_noop_nil (f : File) : v2RangeFile [] f = (f, false) :=
  v2RangeFile_noop [] f (fun _ _ => rfl)

/-- The version 2 range pass does not change field names, hence does not
change what `findNameField` finds. -/
theorem findNameFieldGo_v2Range (vars : List String) :
    ∀ (fs : FieldList) (i : Nat),
      findNameField.go (v2RangeFields vars fs).1 i = findNameField.go fs i := by
  intro fs i
  cases fs with
  | nil => rfl
  | cons f tl =>
      cases f with
      | mk ns t =>
          cases ht : v2RangeExpr vars t with
          | mk t1 m1 =>
              cases htl : v2RangeFields vars tl with
              | mk tl1 m2 =>
                  have ih : findNameField.go tl1 (i + 1) = findNameField.go tl (i + 1) := by
                    have := findNameFieldGo_v2Range vars tl (i + 1)
                    rw [htl] at this
                    exact this
                  cases ns with
                  | nil =>
                      simp only [v2RangeFields, ht, htl, findNameField.go]
                      exact ih
                  | cons nm more =>
                      simp only [v2RangeFields, ht, htl, findNameField.go]
                      split
                      · rfl
                      · exact ih

/-- The version 2 range pass preserves whether an expression matches the
slice-table guard. -/
theorem matchSliceTable_v2Range (vars : List String) :
    ∀ r : Expr,
      (matchSliceTable (v2RangeExpr vars r).1).isSome =
        (matchSliceTable r).isSome := by
  intro r
  cases r with
  | ident n => rfl
  | basicLit k v => rfl
  | selectorExpr x s =>
      cases hx : v2RangeExpr vars x with
      | mk x1 m => simp [v2RangeExpr, hx, matchSliceTable]
  | callExpr f as =>
      cases hf : v2RangeExpr vars f with
      | mk f1 m1 =>
          cases has : v2RangeList vars as with
          | mk as1 m2 => simp [v2RangeExpr, hf, has, matchSliceTable]
  | keyValueExpr k v =>
      cases hk : v2RangeExpr vars k with
      | mk k1 m1 =>
          cases hv : v2RangeExpr vars v with
          | mk v1 m2 => simp [v2RangeExpr, hk, hv, matchSliceTable]
  | funcLit b =>
      cases hb : v2RangeStmts vars b with
      | mk b1 m => simp [v2RangeExpr, hb, matchSliceTable]
  | arrayTypeE l e =>
      cases hl : v2RangeOpt vars l with
      | mk l1 m1 =>
          cases he : v2RangeExpr vars e with
          | mk e1 m2 => simp [v2RangeExpr, hl, he, matchSliceTable]
  | structTypeE fs =>
      cases hfs : v2RangeFields vars fs with
      | mk fs1 m => simp [v2RangeExpr, hfs, matchSliceTable]
  | mapTypeE k v =>
      cases hk : v2RangeExpr vars k with
      | mk k1 m1 =>
          cases hv : v2RangeExpr vars v with
          | mk v1 m2 => simp [v2RangeExpr, hk, hv, matchSliceTable]
  | otherExpr t => rfl
  | compositeLit t es =>
      cases hes : v2RangeList vars es with
      | mk es1 m2 =>
          cases t with
          | none => simp [v2RangeExpr, v2RangeOpt, hes, matchSliceTable]
          | some te =>
              cases te with
              | arrayTypeE lenO elt =>
                  cases lenO with
                  | some l =>
                      cases hl : v2RangeExpr vars l with
                      | mk l1 ml =>
                          cases helt : v2RangeExpr vars elt with
                          | mk elt1 me =>
                              simp [v2RangeExpr, v2RangeOpt, hl, helt, hes,
                                matchSliceTable]
                  | none =>
                      cases elt with
                      | structTypeE fs =>
                          cases hfs : v2RangeFields vars fs with
                          | mk fs1 m =>
                              have hfn : findNameField fs1 = findNameField fs := by
                                have := findNameFieldGo_v2Range vars fs 0
                                rw [hfs] at this
                                exact this
                              simp only [v2RangeExpr, v2RangeOpt, hfs, hes,
                                matchSliceTable, hfn]
                              cases findNameField fs with
                              | none => rfl
                              | some p => cases p with | mk a b => rfl
                      | ident n =>
                          simp [v2RangeExpr, v2RangeOpt, hes, matchSliceTable]
                      | basicLit k v =>
                          simp [v2RangeExpr, v2RangeOpt, hes, matchSliceTable]
                      | compositeLit a b =>
                          cases ha : v2RangeOpt vars a with
                          | mk a1 m1 =>
                              cases hb : v2RangeList vars b with
                              | mk b1 mb =>
                                  simp [v2RangeExpr, v2RangeOpt, ha, hb, hes,
                                    matchSliceTable]
                      | selectorExpr a b =>
                          cases ha : v2RangeExpr vars a with
                          | mk a1 m1 =>
                              simp [v2RangeExpr, v2RangeOpt, ha, hes, matchSliceTable]
                      | callExpr a b =>
                          cases ha : v2RangeExpr vars a with
                          | mk a1 m1 =>
                              cases hb : v2RangeList vars b with
                              | mk b1 mb =>
                                  simp [v2RangeExpr, v2RangeOpt, ha, hb, hes,
                                    matchSliceTable]
                      | keyValueExpr a b =>
                          cases ha : v2RangeExpr vars a with
                          | mk a1 m1 =>
                              cases hb : v2RangeExpr vars b with
                              | mk b1 mb =>
                                  simp [v2RangeExpr, v2RangeOpt, ha, hb, hes,
                                    matchSliceTable]
                      | funcLit a =>
                          cases ha : v2RangeStmts vars a with
                          | mk a1 m1 =>
                              simp [v2RangeExpr, v2RangeOpt, ha, hes, matchSliceTable]
                      | arrayTypeE a b =>
                          cases ha : v2RangeOpt vars a with
                          | mk a1 m1 =>
                              cases hb : v2RangeExpr vars b with
                              | mk b1 mb =>
                                  simp [v2RangeExpr, v2RangeOpt, ha, hb, hes,
                                    matchSliceTable]
                      | mapTypeE a b =>
                          cases ha : v2RangeExpr vars a with
                          | mk a1 m1 =>
                              cases hb : v2RangeExpr vars b with
                              | mk b1 mb =>
                                  simp [v2RangeExpr, v2RangeOpt, ha, hb, hes,
                                    matchSliceTable]
                      | otherExpr a =>
                          simp [v2RangeExpr, v2RangeOpt, hes, matchSliceTable]
              | ident n => simp [v2RangeExpr, v2RangeOpt, hes, matchSliceTable]
              | basicLit k v => simp [v2RangeExpr, v2RangeOpt, hes, matchSliceTable]
              | compositeLit a b =>
                  cases ha : v2RangeOpt vars a with
                  | mk a1 m1 =>
                      cases hb : v2RangeList vars b with
                      | mk b1 mb =>
                          simp [v2RangeExpr, v2RangeOpt, ha, hb, hes, matchSliceTable]
              | selectorExpr a b =>
                  cases ha : v2RangeExpr vars a with
                  | mk a1 m1 =>
                      simp [v2RangeExpr, v2RangeOpt, ha, hes, matchSliceTable]
              | callExpr a b =>
                  cases ha : v2RangeExpr vars a with
                  | mk a1 m1 =>
                      cases hb : v2RangeList vars b with
                      | mk b1 mb =>
                          simp [v2RangeExpr, v2RangeOpt, ha, hb, hes, matchSliceTable]
              | keyValueExpr a b =>
                  cases ha : v2RangeExpr vars a with
                  | mk a1 m1 =>
                      cases hb : v2RangeExpr vars b with
                      | mk b1 mb =>
                          simp [v2RangeExpr, v2RangeOpt, ha, hb, hes, matchSliceTable]
              | funcLit a =>
                  cases ha : v2RangeStmts vars a with
                  | mk a1 m1 =>
                      simp [v2RangeExpr, v2RangeOpt, ha, hes, matchSliceTable]
              | structTypeE a =>
                  cases ha : v2RangeFields vars a with
                  | mk a1 m1 =>
                      simp [v2RangeExpr, v2RangeOpt, ha, hes, matchSliceTable]
              | mapTypeE a b =>
                  cases ha : v2RangeExpr vars a with
                  | mk a1 m1 =>
                      cases hb : v2RangeExpr vars b with
                      | mk b1 mb =>
                          simp [v2RangeExpr, v2RangeOpt, ha, hb, hes, matchSliceTable]
              | otherExpr a => simp [v2RangeExpr, v2RangeOpt, hes, matchSliceTable]

/-- The version 2 range pass preserves pair convertibility. -/
theorem pairConvertible_v2Range (vars : List String) (l r : Expr) :
    pairConvertible (v2RangeExpr vars l).1 (v2RangeExpr vars r).1 =
      pairConvertible l r := by
  cases l with
  | ident n =>
      simp only [v2RangeExpr, pairConvertible]
      exact matchSliceTable_v2Range vars r
  | basicLit k v => simp [v2RangeExpr, pairConvertible]
  | compositeLit a b =>
      cases ha : v2RangeOpt vars a with
      | mk a1 m1 =>
          cases hb : v2RangeList vars b with
          | mk b1 mb => simp [v2RangeExpr, ha, hb, pairConvertible]
  | selectorExpr a b =>
      cases ha : v2RangeExpr vars a with
      | mk a1 m1 => simp [v2RangeExpr, ha, pairConvertible]
  | callExpr a b =>
      cases ha : v2RangeExpr vars a with
      | mk a1 m1 =>
          cases hb : v2RangeList vars b with
          | mk b1 mb => simp [v2RangeExpr, ha, hb, pairConvertible]
  | keyValueExpr a b =>
      cases ha : v2RangeExpr vars a with
      | mk a1 m1 =>
          cases hb : v2RangeExpr vars b with
          | mk b1 mb => simp [v2RangeExpr, ha, hb, pairConvertible]
  | funcLit a =>
      cases ha : v2RangeStmts vars a with
      | mk a1 m1 => simp [v2RangeExpr, ha, pairConvertible]
  | arrayTypeE a b =>
      cases ha : v2RangeOpt vars a with
      | mk a1 m1 =>
          cases hb : v2RangeExpr vars b with
          | mk b1 mb => simp [v2RangeExpr, ha, hb, pairConvertible]
  | structTypeE a =>
      cases ha : v2RangeFields vars a with
      | mk a1 m1 => simp [v2RangeExpr, ha, pairConvertible]
  | mapTypeE a b =>
      cases ha : v2RangeExpr vars a with
      | mk a1 m1 =>
          cases hb : v2RangeExpr vars b with
          | mk b1 mb => simp [v2RangeExpr, ha, hb, pairConvertible]
  | otherExpr a => simp [v2RangeExpr, pairConvertible]

/-- The version 2 range pass preserves pair-walk convertibility. -/
theorem v2PairsConvertible_v2Range (vars : List String) :
    ∀ lhs rhs,
      v2PairsConvertible (v2RangeList vars lhs).1 (v2RangeList vars rhs).1 =
        v2PairsConvertible lhs rhs := by
  intro lhs rhs
  cases rhs with
  | nil =>
      cases lhs with
      | nil => rfl
      | cons l ltl =>
          cases hl : v2RangeExpr vars l with
          | mk l1 m1 =>
              cases hltl : v2RangeList vars ltl with
              | mk ltl1 m2 => simp [v2RangeList, hl, hltl, v2PairsConvertible]
  | cons r rtl =>
      cases hr : v2RangeExpr vars r with
      | mk r1 m1 =>
          cases hrtl : v2RangeList vars rtl with
          | mk rtl1 m2 =>
              cases lhs with
              | nil =>
                  have ih := v2PairsConvertible_v2Range vars .nil rtl
                  rw [hrtl] at ih
                  simp only [v2RangeList, hr, hrtl, v2PairsConvertible]
                  simpa using ih
              | cons l ltl =>
                  cases hl : v2RangeExpr vars l with
                  | mk l1 m3 =>
                      cases hltl : v2RangeList vars ltl with
                      | mk ltl1 m4 =>
                          have ih := v2PairsConvertible_v2Range vars ltl rtl
                          rw [hrtl, hltl] at ih
                          have hpc := pairConvertible_v2Range vars l r
                          rw [hl, hr] at hpc
                          simp only [v2RangeList, hl, hltl, hr, hrtl,
                            v2PairsConvertible]
                          rw [hpc, ih]

/-- The version 2 range pass preserves assignment convertibility. -/
theorem v2AssignConvertible_v2Range (vars : List String) (lhs : ExprList)
    (tok : AssignTok) (rhs : ExprList) :
    v2AssignConvertible (v2RangeList vars lhs).1 tok (v2RangeList vars rhs).1 =
      v2AssignConvertible lhs tok rhs := by
  simp [v2AssignConvertible, v2PairsConvertible_v2Range]

/-- A possibly rewritten range key is still clean. -/
theorem noConvOpt_v2RangeRewrite (vars : List String) (key : OptExpr) (x : Expr)
    (h : noConvOpt key = true) :
    noConvOpt (v2RangeRewrite vars key x).1 = true := by
  cases x with
  | ident n =>
      simp only [v2RangeRewrite]
      split
      · rfl
      · exact h
  | basicLit k v => exact h
  | compositeLit a b => exact h
  | selectorExpr a b => exact h
  | callExpr a b => exact h
  | keyValueExpr a b => exact h
  | funcLit a => exact h
  | arrayTypeE a b => exact h
  | structTypeE a => exact h
  | mapTypeE a b => exact h
  | otherExpr a => exact h

mutual

theorem noConvExpr_v2Range (vars : List String) :
    ∀ e : Expr, noConvExpr e = true → noConvExpr (v2RangeExpr vars e).1 = true := by
  intro e h
  cases e with
  | ident n => rfl
  | basicLit k v => rfl
  | compositeLit t es =>
      simp only [noConvExpr, Bool.and_eq_true] at h
      simp only [v2RangeExpr, noConvExpr, Bool.and_eq_true]
      exact ⟨noConvOpt_v2Range vars t h.1, noConvList_v2Range vars es h.2⟩
  | selectorExpr x s =>
      simp only [noConvExpr] at h
      simp only [v2RangeExpr, noConvExpr]
      exact noConvExpr_v2Range vars x h
  | callExpr f as =>
      simp only [noConvExpr, Bool.and_eq_true] at h
      simp only [v2RangeExpr, noConvExpr, Bool.and_eq_true]
      exact ⟨noConvExpr_v2Range vars f h.1, noConvList_v2Range vars as h.2⟩
  | keyValueExpr k v =>
      simp only [noConvExpr, Bool.and_eq_true] at h
      simp only [v2RangeExpr, noConvExpr, Bool.and_eq_true]
      exact ⟨noConvExpr_v2Range vars k h.1, noConvExpr_v2Range vars v h.2⟩
  | funcLit b =>
      simp only [noConvExpr] at h
      simp only [v2RangeExpr, noConvExpr]
      exact noConvStmts_v2Range vars b h
  | arrayTypeE l e =>
      simp only [noConvExpr, Bool.and_eq_true] at h
      simp only [v2RangeExpr, noConvExpr, Bool.and_eq_true]
      exact ⟨noConvOpt_v2Range vars l h.1, noConvExpr_v2Range vars e h.2⟩
  | structTypeE fs =>
      simp only [noConvExpr] at h
      simp only [v2RangeExpr, noConvExpr]
      exact noConvFields_v2Range vars fs h
  | mapTypeE k v =>
      simp only [noConvExpr, Bool.and_eq_true] at h
      simp only [v2RangeExpr, noConvExpr, Bool.and_eq_true]
      exact ⟨noConvExpr_v2Range vars k h.1, noConvExpr_v2Range vars v h.2⟩
  | otherExpr t => rfl

theorem noConvOpt_v2Range (vars : List String) :
    ∀ o : OptExpr, noConvOpt o = true → noConvOpt (v2RangeOpt vars o).1 = true := by
  intro o h
  cases o with
  | none => rfl
  | some e =>
      simp only [noConvOpt] at h
      simp only [v2RangeOpt, noConvOpt]
      exact noConvExpr_v2Range vars e h

theorem noConvList_v2Range (vars : List String) :
    ∀ es : ExprList, noConvList es = true → noConvList (v2RangeList vars es).1 = true := by
  intro es h
  cases es with
  | nil => rfl
  | cons e tl =>
      simp only [noConvList, Bool.and_eq_true] at h
      simp only [v2RangeList, noConvList, Bool.and_eq_true]
      exact ⟨noConvExpr_v2Range vars e h.1, noConvList_v2Range vars tl h.2⟩

theorem noConvFields_v2Range (vars : List String) :
    ∀ fs : FieldList, noConvFields fs = true →
      noConvFields (v2RangeFields vars fs).1 = true := by
  intro fs h
  cases fs with
  | nil => rfl
  | cons f tl =>
      cases f with
      | mk ns t =>
          simp only [noConvFields, Bool.and_eq_true] at h
          simp only [v2RangeFields, noConvFields, Bool.and_eq_true]
          exact ⟨noConvExpr_v2Range vars t h.1, noConvFields_v2Range vars tl h.2⟩

theorem noConvStmts_v2Range (vars : List String) :
    ∀ ss : StmtList, noConvStmts ss = true →
      noConvStmts (v2RangeStmts vars ss).1 = true := by
  intro ss h
  cases ss with
  | nil => rfl
  | cons s tl =>
      simp only [noConvStmts, Bool.and_eq_true] at h
      simp only [v2RangeStmts, noConvStmts, Bool.and_eq_true]
      exact ⟨noConvStmt_v2Range vars s h.1, noConvStmts_v2Range vars tl h.2⟩

theorem noConvStmt_v2Range (vars : List String) :
    ∀ s : Stmt, noConvStmt s = true → noConvStmt (v2RangeStmt vars s).1 = true := by
  intro s h
  cases s with
  | assignStmt lhs tok rhs =>
      simp only [noConvStmt, Bool.and_eq_true, Bool.not_eq_true'] at h
      obtain ⟨⟨hc, h1⟩, h2⟩ := h
      simp only [v2RangeStmt, noConvStmt, Bool.and_eq_true, Bool.not_eq_true']
      refine ⟨⟨?_, noConvList_v2Range vars lhs h1⟩, noConvList_v2Range vars rhs h2⟩
      rw [v2AssignConvertible_v2Range]
      exact hc
  | rangeStmt key value x body =>
      simp only [noConvStmt, Bool.and_eq_true] at h
      obtain ⟨⟨⟨h1, h2⟩, h3⟩, h4⟩ := h
      simp only [v2RangeStmt, noConvStmt, Bool.and_eq_true]
      refine ⟨⟨⟨?_, noConvOpt_v2Range vars value h2⟩,
        noConvExpr_v2Range vars x h3⟩, noConvStmts_v2Range vars body h4⟩
      exact noConvOpt_v2RangeRewrite vars (v2RangeOpt vars key).1
        (v2RangeExpr vars x).1 (noConvOpt_v2Range vars key h1)
  | exprStmt e =>
      simp only [noConvStmt] at h
      simp only [v2RangeStmt, noConvStmt]
      exact noConvExpr_v2Range vars e h
  | declStmt tok specs =>
      simp only [noConvStmt] at h
      simp only [v2RangeStmt, noConvStmt]
      exact noConvSpecs_v2Range vars specs h
  | block body =>
      simp only [noConvStmt] at h
      simp only [v2RangeStmt, noConvStmt]
      exact noConvStmts_v2Range vars body h
  | otherStmt t => rfl

theorem noConvSpec_v2Range (vars : List String) :
    ∀ s : Spec, noConvSpec s = true → noConvSpec (v2RangeSpec vars s).1 = true := by
  intro s h
  cases s with
  | valueSpec names typ values =>
      simp only [noConvSpec, Bool.and_eq_true] at h
      simp only [v2RangeSpec, noConvSpec, Bool.and_eq_true]
      exact ⟨noConvOpt_v2Range vars typ h.1, noConvList_v2Range vars values h.2⟩
  | otherSpec t => rfl

theorem noConvSpecs_v2Range (vars : List String) :
    ∀ ss : SpecList, noConvSpecs ss = true →
      noConvSpecs (v2RangeSpecs vars ss).1 = true := by
  intro ss h
  cases ss with
  | nil => rfl
  | cons s tl =>
      simp only [noConvSpecs, Bool.and_eq_true] at h
      simp only [v2RangeSpecs, noConvSpecs, Bool.and_eq_true]
      exact ⟨noConvSpec_v2Range vars s h.1, noConvSpecs_v2Range vars tl h.2⟩

end

/-- The version 2 range pass preserves cleanliness of declaration lists. -/
theorem noConvDecls_v2Range (vars : List String) :
    ∀ ds : List Decl, noConvDecls ds = true →
      noConvDecls (v2RangeDecls vars ds).1 = true := by
  intro ds h
  induction ds with
  | nil => rfl
  | cons d rest ih =>
      cases d with
      | funcDecl n body =>
          simp only [noConvDecls, Bool.and_eq_true] at h
          simp only [v2RangeDecls, noConvDecls, Bool.and_eq_true]
          exact ⟨noConvStmts_v2Range vars body h.1, ih h.2⟩
      | genDecl tok specs =>
          simp only [noConvDecls, Bool.and_eq_true] at h
          simp only [v2RangeDecls, noConvDecls, Bool.and_eq_true]
          exact ⟨noConvSpecs_v2Range vars specs h.1, ih h.2⟩

/-- The version 2 range pass preserves cleanliness of files. -/
theorem noConvFile_v2Range (vars : List String) (f : File)
    (h : noConvFile f = true) : noConvFile (v2RangeFile vars f).1 = true := by
  cases f with
  | mk decls =>
      simp only [noConvFile] at h
      simp only [v2RangeFile, noConvFile]
      exact noConvDecls_v2Range vars decls h

/-- The call-site pass does not change field names, hence does not change
what `findNameField` finds. -/
theorem findNameFieldGo_callPass (recog : String → Bool) :
    ∀ (fs : FieldList) (i : Nat),
      findNameField.go (callPassFields recog fs).1 i = findNameField.go fs i := by
  intro fs i
  cases fs with
  | nil => rfl
  | cons f tl =>
      cases f with
      | mk ns t =>
          cases ht : callPassExpr recog t with
          | mk t1 m1 =>
              cases htl : callPassFields recog tl with
              | mk tl1 m2 =>
                  have ih : findNameField.go tl1 (i + 1) = findNameField.go tl (i + 1) := by
                    have := findNameFieldGo_callPass recog tl (i + 1)
                    rw [htl] at this
                    exact this
                  cases ns with
                  | nil =>
                      simp only [callPassFields, ht, htl, findNameField.go]
                      exact ih
                  | cons nm more =>
                      simp only [callPassFields, ht, htl, findNameField.go]
                      split
                      · rfl
                      · exact ih

/-- The call-site pass preserves whether an expression matches the
slice-table guard. -/
theorem matchSliceTable_callPass (recog : String → Bool) :
    ∀ r : Expr,
      (matchSliceTable (callPassExpr recog r).1).isSome =
        (matchSliceTable r).isSome := by
  intro r
  cases r with
  | ident n => rfl
  | basicLit k v => rfl
  | selectorExpr x s =>
      cases hx : callPassExpr recog x with
      | mk x1 m => simp [callPassExpr, hx, matchSliceTable]
  | callExpr f as =>
      cases hf : callPassExpr recog f with
      | mk f1 m1 =>
          cases has : callPassList recog as with
          | mk as1 m2 =>
              simp only [callPassExpr, hf, has]
              split <;> simp [matchSliceTable]
  | keyValueExpr k v =>
      cases hk : callPassExpr recog k with
      | mk k1 m1 =>
          cases hv : callPassExpr recog v with
          | mk v1 m2 => simp [callPassExpr, hk, hv, matchSliceTable]
  | funcLit b =>
      cases hb : callPassStmts recog b with
      | mk b1 m => simp [callPassExpr, hb, matchSliceTable]
  | arrayTypeE l e =>
      cases hl : callPassOpt recog l with
      | mk l1 m1 =>
          cases he : callPassExpr recog e with
          | mk e1 m2 => simp [callPassExpr, hl, he, matchSliceTable]
  | structTypeE fs =>
      cases hfs : callPassFields recog fs with
      | mk fs1 m => simp [callPassExpr, hfs, matchSliceTable]
  | mapTypeE k v =>
      cases hk : callPassExpr recog k with
      | mk k1 m1 =>
          cases hv : callPassExpr recog v with
          | mk v1 m2 => simp [callPassExpr, hk, hv, matchSliceTable]
  | otherExpr t => rfl
  | compositeLit t es =>
      cases hes : callPassList recog es with
      | mk es1 m2 =>
          cases t with
          | none => simp [callPassExpr, callPassOpt, hes, matchSliceTable]
          | some te =>
              cases te with
              | arrayTypeE lenO elt =>
                  cases lenO with
                  | some l =>
                      cases hl : callPassExpr recog l with
                      | mk l1 ml =>
                          cases helt : callPassExpr recog elt with
                          | mk elt1 me =>
                              simp [callPassExpr, callPassOpt, hl, helt, hes,
                                matchSliceTable]
                  | none =>
                      cases elt with
                      | structTypeE fs =>
                          cases hfs : callPassFields recog fs with
                          | mk fs1 m =>
                              have hfn : findNameField fs1 = findNameField fs := by
                                have := findNameFieldGo_callPass recog fs 0
                                rw [hfs] at this
                                exact this
                              simp only [callPassExpr, callPassOpt, hfs, hes,
                                matchSliceTable, hfn]
                              cases findNameField fs with
                              | none => rfl
                              | some p => cases p with | mk a b => rfl
                      | ident n =>
                          simp [callPassExpr, callPassOpt, hes, matchSliceTable]
                      | basicLit k v =>
                          simp [callPassExpr, callPassOpt, hes, matchSliceTable]
                      | compositeLit a b =>
                          cases ha : callPassOpt recog a with
                          | mk a1 m1 =>
                              cases hb : callPassList recog b with
                              | mk b1 mb =>
                                  simp [callPassExpr, callPassOpt, ha, hb, hes,
                                    matchSliceTable]
                      | selectorExpr a b =>
                          cases ha : callPassExpr recog a with
                          | mk a1 m1 =>
                              simp [callPassExpr, callPassOpt, ha, hes,
                                matchSliceTable]
                      | callExpr a b =>
                          cases ha : callPassExpr recog a with
                          | mk a1 m1 =>
                              cases hb : callPassList recog b with
                              | mk b1 mb =>
                                  simp only [callPassExpr, callPassOpt, ha, hb, hes]
                                  split <;> simp [matchSliceTable]
                      | keyValueExpr a b =>
                          cases ha : callPassExpr recog a with
                          | mk a1 m1 =>
                              cases hb : callPassExpr recog b with
                              | mk b1 mb =>
                                  simp [callPassExpr, callPassOpt, ha, hb, hes,
                                    matchSliceTable]
                      | funcLit a =>
                          cases ha : callPassStmts recog a with
                          | mk a1 m1 =>
                              simp [callPassExpr, callPassOpt, ha, hes,
                                matchSliceTable]
                      | arrayTypeE a b =>
                          cases ha : callPassOpt recog a with
                          | mk a1 m1 =>
                              cases hb : callPassExpr recog b with
                              | mk b1 mb =>
                                  simp [callPassExpr, callPassOpt, ha, hb, hes,
                                    matchSliceTable]
                      | mapTypeE a b =>
                          cases ha : callPassExpr recog a with
                          | mk a1 m1 =>
                              cases hb : callPassExpr recog b with
                              | mk b1 mb =>
                                  simp [callPassExpr, callPassOpt, ha, hb, hes,
                                    matchSliceTable]
                      | otherExpr a =>
                          simp [callPassExpr, callPassOpt, hes, matchSliceTable]
              | ident n => simp [callPassExpr, callPassOpt, hes, matchSliceTable]
              | basicLit k v => simp [callPassExpr, callPassOpt, hes, matchSliceTable]
              | compositeLit a b =>
                  cases ha : callPassOpt recog a with
                  | mk a1 m1 =>
                      cases hb : callPassList recog b with
                      | mk b1 mb =>
                          simp [callPassExpr, callPassOpt, ha, hb, hes,
                            matchSliceTable]
              | selectorExpr a b =>
                  cases ha : callPassExpr recog a with
                  | mk a1 m1 =>
                      simp [callPassExpr, callPassOpt, ha, hes, matchSliceTable]
              | callExpr a b =>
                  cases ha : callPassExpr recog a with
                  | mk a1 m1 =>
                      cases hb : callPassList recog b with
                      | mk b1 mb =>
                          simp only [callPassExpr, callPassOpt, ha, hb, hes]
                          split <;> simp [matchSliceTable]
              | keyValueExpr a b =>
                  cases ha : callPassExpr recog a with
                  | mk a1 m1 =>
                      cases hb : callPassExpr recog b with
                      | mk b1 mb =>
                          simp [callPassExpr, callPassOpt, ha, hb, hes,
                            matchSliceTable]
              | funcLit a =>
                  cases ha : callPassStmts recog a with
                  | mk a1 m1 =>
                      simp [callPassExpr, callPassOpt, ha, hes, matchSliceTable]
              | structTypeE a =>
                  cases ha : callPassFields recog a with
                  | mk a1 m1 =>
                      simp [callPassExpr, callPassOpt, ha, hes, matchSliceTable]
              | mapTypeE a b =>
                  cases ha : callPassExpr recog a with
                  | mk a1 m1 =>
                      cases hb : callPassExpr recog b with
                      | mk b1 mb =>
                          simp [callPassExpr, callPassOpt, ha, hb, hes,
                            matchSliceTable]
              | otherExpr a => simp [callPassExpr, callPassOpt, hes, matchSliceTable]

/-- The call-site pass preserves pair convertibility. -/
theorem pairConvertible_callPass (recog : String → Bool) (l r : Expr) :
    pairConvertible (callPassExpr recog l).1 (callPassExpr recog r).1 =
      pairConvertible l r := by
  cases l with
  | ident n =>
      simp only [callPassExpr, pairConvertible]
      exact matchSliceTable_callPass recog r
  | basicLit k v => simp [callPassExpr, pairConvertible]
  | compositeLit a b =>
      cases ha : callPassOpt recog a with
      | mk a1 m1 =>
          cases hb : callPassList recog b with
          | mk b1 mb => simp [callPassExpr, ha, hb, pairConvertible]
  | selectorExpr a b =>
      cases ha : callPassExpr recog a with
      | mk a1 m1 => simp [callPassExpr, ha, pairConvertible]
  | callExpr a b =>
      cases ha : callPassExpr recog a with
      | mk a1 m1 =>
          cases hb : callPassList recog b with
          | mk b1 mb =>
              simp only [callPassExpr, ha, hb]
              split <;> simp [pairConvertible]
  | keyValueExpr a b =>
      cases ha : callPassExpr recog a with
      | mk a1 m1 =>
          cases hb : callPassExpr recog b with
          | mk b1 mb => simp [callPassExpr, ha, hb, pairConvertible]
  | funcLit a =>
      cases ha : callPassStmts recog a with
      | mk a1 m1 => simp [callPassExpr, ha, pairConvertible]
  | arrayTypeE a b =>
      cases ha : callPassOpt recog a with
      | mk a1 m1 =>
          cases hb : callPassExpr recog b with
          | mk b1 mb => simp [callPassExpr, ha, hb, pairConvertible]
  | structTypeE a =>
      cases ha : callPassFields recog a with
      | mk a1 m1 => simp [callPassExpr, ha, pairConvertible]
  | mapTypeE a b =>
      cases ha : callPassExpr recog a with
      | mk a1 m1 =>
          cases hb : callPassExpr recog b with
          | mk b1 mb => simp [callPassExpr, ha, hb, pairConvertible]
  | otherExpr a => simp [callPassExpr, pairConvertible]

/-- The call-site pass preserves pair-walk convertibility. -/
theorem v2PairsConvertible_callPass (recog : String → Bool) :
    ∀ lhs rhs,
      v2PairsConvertible (callPassList recog lhs).1 (callPassList recog rhs).1 =
        v2PairsConvertible lhs rhs := by
  intro lhs rhs
  cases rhs with
  | nil =>
      cases lhs with
      | nil => rfl
      | cons l ltl =>
          cases hl : callPassExpr recog l with
          | mk l1 m1 =>
              cases hltl : callPassList recog ltl with
              | mk ltl1 m2 => simp [callPassList, hl, hltl, v2PairsConvertible]
  | cons r rtl =>
      cases hr : callPassExpr recog r with
      | mk r1 m1 =>
          cases hrtl : callPassList recog rtl with
          | mk rtl1 m2 =>
              cases lhs with
              | nil =>
                  have ih := v2PairsConvertible_callPass recog .nil rtl
                  rw [hrtl] at ih
                  simp only [callPassList, hr, hrtl, v2PairsConvertible]
                  simpa using ih
              | cons l ltl =>
                  cases hl : callPassExpr recog l with
                  | mk l1 m3 =>
                      cases hltl : callPassList recog ltl with
                      | mk ltl1 m4 =>
                          have ih := v2PairsConvertible_callPass recog ltl rtl
                          rw [hrtl, hltl] at ih
                          have hpc := pairConvertible_callPass recog l r
                          rw [hl, hr] at hpc
                          simp only [callPassList, hl, hltl, hr, hrtl,
                            v2PairsConvertible]
                          rw [hpc, ih]

/-- The call-site pass preserves assignment convertibility. -/
theorem v2AssignConvertible_callPass (recog : String → Bool) (lhs : ExprList)
    (tok : AssignTok) (rhs : ExprList) :
    v2AssignConvertible (callPassList recog lhs).1 tok (callPassList recog rhs).1 =
      v2AssignConvertible lhs tok rhs := by
  simp [v2AssignConvertible, v2PairsConvertible_callPass]

/-- Replacing the first argument keeps an argument list clean. -/
theorem noConvList_replaceFirstArg (args : ExprList) (h : noConvList args = true) :
    noConvList (replaceFirstArg args) = true := by
  cases args with
  | nil => rfl
  | cons a rest =>
      simp only [noConvList, Bool.and_eq_true] at h
      simp only [replaceFirstArg, noConvList, Bool.and_eq_true]
      exact ⟨rfl, h.2⟩

mutual

theorem noConvExpr_callPass (recog : String → Bool) :
    ∀ e : Expr, noConvExpr e = true → noConvExpr (callPassExpr recog e).1 = true := by
  intro e h
  cases e with
  | ident n => rfl
  | basicLit k v => rfl
  | compositeLit t es =>
      simp only [noConvExpr, Bool.and_eq_true] at h
      simp only [callPassExpr, noConvExpr, Bool.and_eq_true]
      exact ⟨noConvOpt_callPass recog t h.1, noConvList_callPass recog es h.2⟩
  | selectorExpr x s =>
      simp only [noConvExpr] at h
      simp only [callPassExpr, noConvExpr]
      exact noConvExpr_callPass recog x h
  | callExpr f as =>
      simp only [noConvExpr, Bool.and_eq_true] at h
      simp only [callPassExpr]
      split
      · simp only [noConvExpr, Bool.and_eq_true]
        exact ⟨noConvExpr_callPass recog f h.1,
          noConvList_replaceFirstArg _ (noConvList_callPass recog as h.2)⟩
      · simp only [noConvExpr, Bool.and_eq_true]
        exact ⟨noConvExpr_callPass recog f h.1, noConvList_callPass recog as h.2⟩
  | keyValueExpr k v =>
      simp only [noConvExpr, Bool.and_eq_true] at h
      simp only [callPassExpr, noConvExpr, Bool.and_eq_true]
      exact ⟨noConvExpr_callPass recog k h.1, noConvExpr_callPass recog v h.2⟩
  | funcLit b =>
      simp only [noConvExpr] at h
      simp only [callPassExpr, noConvExpr]
      exact noConvStmts_callPass recog b h
  | arrayTypeE l e =>
      simp only [noConvExpr, Bool.and_eq_true] at h
      simp only [callPassExpr, noConvExpr, Bool.and_eq_true]
      exact ⟨noConvOpt_callPass recog l h.1, noConvExpr_callPass recog e h.2⟩
  | structTypeE fs =>
      simp only [noConvExpr] at h
      simp only [callPassExpr, noConvExpr]
      exact noConvFields_callPass recog fs h
  | mapTypeE k v =>
      simp only [noConvExpr, Bool.and_eq_true] at h
      simp only [callPassExpr, noConvExpr, Bool.and_eq_true]
      exact ⟨noConvExpr_callPass recog k h.1, noConvExpr_callPass recog v h.2⟩
  | otherExpr t => rfl

theorem noConvOpt_callPass (recog : String → Bool) :
    ∀ o : OptExpr, noConvOpt o = true → noConvOpt (callPassOpt recog o).1 = true := by
  intro o h
  cases o with
  | none => rfl
  | some e =>
      simp only [noConvOpt] at h
      simp only [callPassOpt, noConvOpt]
      exact noConvExpr_callPass recog e h

theorem noConvList_callPass (recog : String → Bool) :
    ∀ es : ExprList, noConvList es = true →
      noConvList (callPassList recog es).1 = true := by
  intro es h
  cases es with
  | nil => rfl
  | cons e tl =>
      simp only [noConvList, Bool.and_eq_true] at h
      simp only [callPassList, noConvList, Bool.and_eq_true]
      exact ⟨noConvExpr_callPass recog e h.1, noConvList_callPass recog tl h.2⟩

theorem noConvFields_callPass (recog : String → Bool) :
    ∀ fs : FieldList, noConvFields fs = true →
      noConvFields (callPassFields recog fs).1 = true := by
  intro fs h
  cases fs with
  | nil => rfl
  | cons f tl =>
      cases f with
      | mk ns t =>
          simp only [noConvFields, Bool.and_eq_true] at h
          simp only [callPassFields, noConvFields, Bool.and_eq_true]
          exact ⟨noConvExpr_callPass recog t h.1, noConvFields_callPass recog tl h.2⟩

theorem noConvStmts_callPass (recog : String → Bool) :
    ∀ ss : StmtList, noConvStmts ss = true →
      noConvStmts (callPassStmts recog ss).1 = true := by
  intro ss h
  cases ss with
  | nil => rfl
  | cons s tl =>
      simp only [noConvStmts, Bool.and_eq_true] at h
      simp only [callPassStmts, noConvStmts, Bool.and_eq_true]
      exact ⟨noConvStmt_callPass recog s h.1, noConvStmts_callPass recog tl h.2⟩

theorem noConvStmt_callPass (recog : String → Bool) :
    ∀ s : Stmt, noConvStmt s = true → noConvStmt (callPassStmt recog s).1 = true := by
  intro s h
  cases s with
  | assignStmt lhs tok rhs =>
      simp only [noConvStmt, Bool.and_eq_true, Bool.not_eq_true'] at h
      obtain ⟨⟨hc, h1⟩, h2⟩ := h
      simp only [callPassStmt, noConvStmt, Bool.and_eq_true, Bool.not_eq_true']
      refine ⟨⟨?_, noConvList_callPass recog lhs h1⟩,
        noConvList_callPass recog rhs h2⟩
      rw [v2AssignConvertible_callPass]
      exact hc
  | rangeStmt key value x body =>
      simp only [noConvStmt, Bool.and_eq_true] at h
      obtain ⟨⟨⟨h1, h2⟩, h3⟩, h4⟩ := h
      simp only [callPassStmt, noConvStmt, Bool.and_eq_true]
      exact ⟨⟨⟨noConvOpt_callPass recog key h1, noConvOpt_callPass recog value h2⟩,
        noConvExpr_callPass recog x h3⟩, noConvStmts_callPass recog body h4⟩
  | exprStmt e =>
      simp only [noConvStmt] at h
      simp only [callPassStmt, noConvStmt]
      exact noConvExpr_callPass recog e h
  | declStmt tok specs =>
      simp only [noConvStmt] at h
      simp only [callPassStmt, noConvStmt]
      exact noConvSpecs_callPass recog specs h
  | block body =>
      simp only [noConvStmt] at h
      simp only [callPassStmt, noConvStmt]
      exact noConvStmts_callPass recog body h
  | otherStmt t => rfl

theorem noConvSpec_callPass (recog : String → Bool) :
    ∀ s : Spec, noConvSpec s = true → noConvSpec (callPassSpec recog s).1 = true := by
  intro s h
  cases s with
  | valueSpec names typ values =>
      simp only [noConvSpec, Bool.and_eq_true] at h
      simp only [callPassSpec, noConvSpec, Bool.and_eq_true]
      exact ⟨noConvOpt_callPass recog typ h.1, noConvList_callPass recog values h.2⟩
  | otherSpec t => rfl

theorem noConvSpecs_callPass (recog : String → Bool) :
    ∀ ss : SpecList, noConvSpecs ss = true →
      noConvSpecs (callPassSpecs recog ss).1 = true := by
  intro ss h
  cases ss with
  | nil => rfl
  | cons s tl =>
      simp only [noConvSpecs, Bool.and_eq_true] at h
      simp only [callPassSpecs, noConvSpecs, Bool.and_eq_true]
      exact ⟨noConvSpec_callPass recog s h.1, noConvSpecs_callPass recog tl h.2⟩

end

/-- The call-site pass preserves cleanliness of declaration lists. -/
theorem noConvDecls_callPass (recog : String → Bool) :
    ∀ ds : List Decl, noConvDecls ds = true →
      noConvDecls (callPassDecls recog ds).1 = true := by
  intro ds h
  induction ds with
  | nil => rfl
  | cons d rest ih =>
      cases d with
      | funcDecl n body =>
          simp only [noConvDecls, Bool.and_eq_true] at h
          simp only [callPassDecls, noConvDecls, Bool.and_eq_true]
          exact ⟨noConvStmts_callPass recog body h.1, ih h.2⟩
      | genDecl tok specs =>
          simp only [noConvDecls, Bool.and_eq_true] at h
          simp only [callPassDecls, noConvDecls, Bool.and_eq_true]
          exact ⟨noConvSpecs_callPass recog specs h.1, ih h.2⟩

/-- The call-site pass preserves cleanliness of files. -/
theorem noConvFile_callPass (recog : String → Bool) (f : File)
    (h : noConvFile f = true) : noConvFile (callPassFile recog f).1 = true := by
  cases f with
  | mk decls =>
      simp only [noConvFile] at h
      simp only [callPassFile, noConvFile]
      exact noConvDecls_callPass recog decls h

/-- Running version 2 on its own output is a complete no-op: the second
run reports `modified = false`, converts no table, and returns the same
tree. -/
theorem processFileV2_second_run (f : File) :
    processFileV2 ((processFileV2 f).2) = (⟨false, 0⟩, (processFileV2 f).2) := by
  cases hd : v2DetectFile f with
  | mk f1 r1 =>
      cases r1 with
      | mk vars r2 =>
          cases r2 with
          | mk m1 c1 =>
              cases hr : v2RangeFile vars f1 with
              | mk f2 m2 =>
                  cases hc : callPassFile recognizedV2 f2 with
                  | mk f3 m3 =>
                      have hf3 : (processFileV2 f).2 = f3 := by
                        simp only [processFileV2, hd, hr, hc]
                      have hclean1 : noConvFile f1 = true := by
                        have hx := v2DetectFile_clean f
                        rw [hd] at hx
                        exact hx
                      have hclean2 : noConvFile f2 = true := by
                        have hx := noConvFile_v2Range vars f1 hclean1
                        rw [hr] at hx
                        exact hx
                      have hclean3 : noConvFile f3 = true := by
                        have hx := noConvFile_callPass recognizedV2 f2 hclean2
                        rw [hc] at hx
                        exact hx
                      have htrun : noTRunFile recognizedV2 f3 = true := by
                        have hx := callPassFile_clean recognizedV2 f2
                        rw [hc] at hx
                        exact hx
                      rw [hf3]
                      simp only [processFileV2, v2DetectFile_noop f3 hclean3,
                        v2RangeFile_noop_nil f3,
                        callPassFile_noop recognizedV2 f3 htrun, Bool.or_self,
                        Bool.false_eq_true, if_false]

/-- Version 1's per-value loop is a no-op when the spec's type is not an
eligible table type. -/
theorem v1ConvertValues_noop (typ : OptExpr)
    (hmet : matchEligibleType typ = Option.none) :
    ∀ values : ExprList, v1ConvertValues typ values = (typ, values, false, 0) := by
  intro values
  cases values with
  | nil => rfl
  | cons value rest =>
      simp only [v1ConvertValues, hmet, v1ConvertValues_noop typ hmet rest]

/-- Version 1's per-spec loop is a no-op when no spec has an eligible
table type. -/
theorem v1ConvertSpecs_noop :
    ∀ specs : SpecList, specsHaveTableType specs = false →
      v1ConvertSpecs specs = (specs, false, 0) := by
  intro specs h
  cases specs with
  | nil => rfl
  | cons s tl =>
      cases s with
      | valueSpec names typ values =>
          simp only [specsHaveTableType, Bool.or_eq_false_iff] at h
          have hmet : matchEligibleType typ = Option.none := by
            cases hm : matchEligibleType typ with
            | none => rfl
            | some p => rw [hm] at h; simp at h
          simp only [v1ConvertSpecs, v1ConvertSpec, v1ConvertValues_noop typ hmet,
            v1ConvertSpecs_noop tl h.2, Bool.or_self]
      | otherSpec t =>
          simp only [specsHaveTableType] at h
          simp only [v1ConvertSpecs, v1ConvertSpec, v1ConvertSpecs_noop tl h,
            Bool.or_self]

/-- Version 1's generic-declaration conversion is a no-op when no spec
has an eligible table type. -/
theorem v1ConvertGenDecl_noop (tok : DeclTok) (specs : SpecList)
    (h : specsHaveTableType specs = false) :
    v1ConvertGenDecl tok specs = (specs, false, 0) := by
  cases tok with
  | VAR => simpa [v1ConvertGenDecl] using v1ConvertSpecs_noop specs h
  | CONST => simpa [v1ConvertGenDecl] using v1ConvertSpecs_noop specs h
  | otherDeclTok => rfl

mutual

theorem v1DetectExpr_noop :
    ∀ e : Expr, noTableDeclExpr e = true → v1DetectExpr e = (e, false, 0) := by
  intro e h
  cases e with
  | ident n => rfl
  | basicLit k v => rfl
  | compositeLit t es =>
      simp only [noTableDeclExpr, Bool.and_eq_true] at h
      simp only [v1DetectExpr, v1DetectOpt_noop t h.1, v1DetectList_noop es h.2,
        Bool.or_self, Nat.add_zero]
  | selectorExpr x s =>
      simp only [noTableDeclExpr] at h
      simp only [v1DetectExpr, v1DetectExpr_noop x h]
  | callExpr f as =>
      simp only [noTableDeclExpr, Bool.and_eq_true] at h
      simp only [v1DetectExpr, v1DetectExpr_noop f h.1, v1DetectList_noop as h.2,
        Bool.or_self, Nat.add_zero]
  | keyValueExpr k v =>
      simp only [noTableDeclExpr, Bool.and_eq_true] at h
      simp only [v1DetectExpr, v1DetectExpr_noop k h.1, v1DetectExpr_noop v h.2,
        Bool.or_self, Nat.add_zero]
  | funcLit b =>
      simp only [noTableDeclExpr] at h
      simp only [v1DetectExpr, v1DetectStmts_noop b h]
  | arrayTypeE l e =>
      simp only [noTableDeclExpr, Bool.and_eq_true] at h
      simp only [v1DetectExpr, v1DetectOpt_noop l h.1, v1DetectExpr_noop e h.2,
        Bool.or_self, Nat.add_zero]
  | structTypeE fs =>
      simp only [noTableDeclExpr] at h
      simp only [v1DetectExpr, v1DetectFields_noop fs h]
  | mapTypeE k v =>
      simp only [noTableDeclExpr, Bool.and_eq_true] at h
      simp only [v1DetectExpr, v1DetectExpr_noop k h.1, v1DetectExpr_noop v h.2,
        Bool.or_self, Nat.add_zero]
  | otherExpr t => rfl

theorem v1DetectOpt_noop :
    ∀ o : OptExpr, noTableDeclOpt o = true → v1DetectOpt o = (o, false, 0) := by
  intro o h
  cases o with
  | none => rfl
  | some e =>
      simp only [noTableDeclOpt] at h
      simp only [v1DetectOpt, v1DetectExpr_noop e h]

theorem v1DetectList_noop :
    ∀ es : ExprList, noTableDeclList es = true → v1DetectList es = (es, false, 0) := by
  intro es h
  cases es with
  | nil => rfl
  | cons e tl =>
      simp only [noTableDeclList, Bool.and_eq_true] at h
      simp only [v1DetectList, v1DetectExpr_noop e h.1, v1DetectList_noop tl h.2,
        Bool.or_self, Nat.add_zero]

theorem v1DetectFields_noop :
    ∀ fs : FieldList, noTableDeclFields fs = true →
      v1DetectFields fs = (fs, false, 0) := by
  intro fs h
  cases fs with
  | nil => rfl
  | cons f tl =>
      cases f with
      | mk ns t =>
          simp only [noTableDeclFields, Bool.and_eq_true] at h
          simp only [v1DetectFields, v1DetectExpr_noop t h.1,
            v1DetectFields_noop tl h.2, Bool.or_self, Nat.add_zero]

theorem v1DetectStmts_noop :
    ∀ ss : StmtList, noTableDeclStmts ss = true →
      v1DetectStmts ss = (ss, false, 0) := by
  intro ss h
  cases ss with
  | nil => rfl
  | cons s tl =>
      simp only [noTableDeclStmts, Bool.and_eq_true] at h
      simp only [v1DetectStmts, v1DetectStmt_noop s h.1, v1DetectStmts_noop tl h.2,
        Bool.or_self, Nat.add_zero]

theorem v1DetectStmt_noop :
    ∀ s : Stmt, noTableDeclStmt s = true → v1DetectStmt s = (s, false, 0) := by
  intro s h
  cases s with
  | assignStmt lhs tok rhs =>
      simp only [noTableDeclStmt, Bool.and_eq_true] at h
      simp only [v1DetectStmt, v1DetectList_noop lhs h.1, v1DetectList_noop rhs h.2,
        Bool.or_self, Nat.add_zero]
  | rangeStmt key value x body =>
      simp only [noTableDeclStmt, Bool.and_eq_true] at h
      obtain ⟨⟨⟨h1, h2⟩, h3⟩, h4⟩ := h
      simp only [v1DetectStmt, v1DetectOpt_noop key h1, v1DetectOpt_noop value h2,
        v1DetectExpr_noop x h3, v1DetectStmts_noop body h4, Bool.or_self,
        Nat.add_zero]
  | exprStmt e =>
      simp only [noTableDeclStmt] at h
      simp only [v1DetectStmt, v1DetectExpr_noop e h]
  | declStmt tok specs =>
      simp only [noTableDeclStmt, Bool.and_eq_true, Bool.not_eq_true'] at h
      simp only [v1DetectStmt, v1DetectSpecs_noop specs h.2,
        v1ConvertGenDecl_noop tok specs h.1, Bool.or_self, Nat.add_zero]
  | block body =>
      simp only [noTableDeclStmt] at h
      simp only [v1DetectStmt, v1DetectStmts_noop body h]
  | otherStmt t => rfl

theorem v1DetectSpec_noop :
    ∀ s : Spec, noTableDeclSpec s = true → v1DetectSpec s = (s, false, 0) := by
  intro s h
  cases s with
  | valueSpec names typ values =>
      simp only [noTableDeclSpec, Bool.and_eq_true] at h
      simp only [v1DetectSpec, v1DetectOpt_noop typ h.1,
        v1DetectList_noop values h.2, Bool.or_self, Nat.add_zero]
  | otherSpec t => rfl

theorem v1DetectSpecs_noop :
    ∀ ss : SpecList, noTableDeclSpecs ss = true →
      v1DetectSpecs ss = (ss, false, 0) := by
  intro ss h
  cases ss with
  | nil => rfl
  | cons s tl =>
      simp only [noTableDeclSpecs, Bool.and_eq_true] at h
      simp only [v1DetectSpecs, v1DetectSpec_noop s h.1, v1DetectSpecs_noop tl h.2,
        Bool.or_self, Nat.add_zero]

end

/-- The version 1 detection pass is a no-op on declaration lists without
an eligible table declaration. -/
theorem v1DetectDecls_noop :
    ∀ ds : List Decl, noTableDeclDecls ds = true →
      v1DetectDecls ds = (ds, false, 0) := by
  intro ds h
  induction ds with
  | nil => rfl
  | cons d rest ih =>
      cases d with
      | funcDecl n body =>
          simp only [noTableDeclDecls, Bool.and_eq_true] at h
          simp only [v1DetectDecls, v1DetectStmts_noop body h.1, ih h.2,
            Bool.or_self, Nat.add_zero]
      | genDecl tok specs =>
          simp only [noTableDeclDecls, Bool.and_eq_true, Bool.not_eq_true'] at h
          obtain ⟨⟨h1, h2⟩, h3⟩ := h
          simp only [v1DetectDecls, v1DetectSpecs_noop specs h2,
            v1ConvertGenDecl_noop tok specs h1, ih h3, Bool.or_self, Nat.add_zero]

/-- The version 1 detection pass is a no-op on files without an eligible
table declaration. -/
theorem v1DetectFile_noop (f : File) (h : noTableDeclFile f = true) :
    v1DetectFile f = (f, false, 0) := by
  cases f with
  | mk decls =>
      simp only [noTableDeclFile] at h
      simp only [v1DetectFile, v1DetectDecls_noop decls h]

/-- Version 1's range-statement rewrite leaves a statement alone when the
hit condition fails. -/
theorem v1RangeRewrite_noop (decls : List Decl) (key value : OptExpr) (x : Expr)
    (h : v1RangeHit decls key value x = false) :
    v1RangeRewrite decls key value x = (key, false) := by
  cases x with
  | ident n =>
      simp only [v1RangeHit, Bool.and_eq_false_iff] at h
      simp only [v1RangeRewrite]
      cases h with
      | inl hmap => simp [hmap]
      | inr hboth =>
          have hb : (key.isSome && value.isSome) = true := by simpa using hboth
          simp [hb]
  | basicLit k v => rfl
  | compositeLit a b => rfl
  | selectorExpr a b => rfl
  | callExpr a b => rfl
  | keyValueExpr a b => rfl
  | funcLit a => rfl
  | arrayTypeE a b => rfl
  | structTypeE a => rfl
  | mapTypeE a b => rfl
  | otherExpr a => rfl

mutual

theorem v1RangeExpr_noop (decls : List Decl) :
    ∀ e : Expr, v1QuietExpr decls e = true → v1RangeExpr decls e = (e, false) := by
  intro e h
  cases e with
  | ident n => rfl
  | basicLit k v => rfl
  | compositeLit t es =>
      simp only [v1QuietExpr, Bool.and_eq_true] at h
      simp only [v1RangeExpr, v1RangeOpt_noop decls t h.1,
        v1RangeList_noop decls es h.2, Bool.or_self]
  | selectorExpr x s =>
      simp only [v1QuietExpr] at h
      simp only [v1RangeExpr, v1RangeExpr_noop decls x h]
  | callExpr f as =>
      simp only [v1QuietExpr, Bool.and_eq_true] at h
      simp only [v1RangeExpr, v1RangeExpr_noop decls f h.1,
        v1RangeList_noop decls as h.2, Bool.or_self]
  | keyValueExpr k v =>
      simp only [v1QuietExpr, Bool.and_eq_true] at h
      simp only [v1RangeExpr, v1RangeExpr_noop decls k h.1,
        v1RangeExpr_noop decls v h.2, Bool.or_self]
  | funcLit b =>
      simp only [v1QuietExpr] at h
      simp only [v1RangeExpr, v1RangeStmts_noop decls b h]
  | arrayTypeE l e =>
      simp only [v1QuietExpr, Bool.and_eq_true] at h
      simp only [v1RangeExpr, v1RangeOpt_noop decls l h.1,
        v1RangeExpr_noop decls e h.2, Bool.or_self]
  | structTypeE fs =>
      simp only [v1QuietExpr] at h
      simp only [v1RangeExpr, v1RangeFields_noop decls fs h]
  | mapTypeE k v =>
      simp only [v1QuietExpr, Bool.and_eq_true] at h
      simp only [v1RangeExpr, v1RangeExpr_noop decls k h.1,
        v1RangeExpr_noop decls v h.2, Bool.or_self]
  | otherExpr t => rfl

theorem v1RangeOpt_noop (decls : List Decl) :
    ∀ o : OptExpr, v1QuietOpt decls o = true → v1RangeOpt decls o = (o, false) := by
  intro o h
  cases o with
  | none => rfl
  | some e =>
      simp only [v1QuietOpt] at h
      simp only [v1RangeOpt, v1RangeExpr_noop decls e h]

theorem v1RangeList_noop (decls : List Decl) :
    ∀ es : ExprList, v1QuietList decls es = true →
      v1RangeList decls es = (es, false) := by
  intro es h
  cases es with
  | nil => rfl
  | cons e tl =>
      simp only [v1QuietList, Bool.and_eq_true] at h
      simp only [v1RangeList, v1RangeExpr_noop decls e h.1,
        v1RangeList_noop decls tl h.2, Bool.or_self]

theorem v1RangeFields_noop (decls : List Decl) :
    ∀ fs : FieldList, v1QuietFields decls fs = true →
      v1RangeFields decls fs = (fs, false) := by
  intro fs h
  cases fs with
  | nil => rfl
  | cons f tl =>
      cases f with
      | mk ns t =>
          simp only [v1QuietFields, Bool.and_eq_true] at h
          simp only [v1RangeFields, v1RangeExpr_noop decls t h.1,
            v1RangeFields_noop decls tl h.2, Bool.or_self]

theorem v1RangeStmts_noop (decls : List Decl) :
    ∀ ss : StmtList, v1QuietStmts decls ss = true →
      v1RangeStmts decls ss = (ss, false) := by
  intro ss h
  cases ss with
  | nil => rfl
  | cons s tl =>
      simp only [v1QuietStmts, Bool.and_eq_true] at h
      simp only [v1RangeStmts, v1RangeStmt_noop decls s h.1,
        v1RangeStmts_noop decls tl h.2, Bool.or_self]

theorem v1RangeStmt_noop (decls : List Decl) :
    ∀ s : Stmt, v1QuietStmt decls s = true → v1RangeStmt decls s = (s, false) := by
  intro s h
  cases s with
  | assignStmt lhs tok rhs =>
      simp only [v1QuietStmt, Bool.and_eq_true] at h
      simp only [v1RangeStmt, v1RangeList_noop decls lhs h.1,
        v1RangeList_noop decls rhs h.2, Bool.or_self]
  | rangeStmt key value x body =>
      simp only [v1QuietStmt, Bool.and_eq_true, Bool.not_eq_true'] at h
      obtain ⟨⟨⟨⟨hhit, h1⟩, h2⟩, h3⟩, h4⟩ := h
      simp only [v1RangeStmt, v1RangeOpt_noop decls key h1,
        v1RangeOpt_noop decls value h2, v1RangeExpr_noop decls x h3,
        v1RangeStmts_noop decls body h4,
        v1RangeRewrite_noop decls key value x hhit, Bool.or_self]
  | exprStmt e =>
      simp only [v1QuietStmt] at h
      simp only [v1RangeStmt, v1RangeExpr_noop decls e h]
  | declStmt tok specs =>
      simp only [v1QuietStmt] at h
      simp only [v1RangeStmt, v1RangeSpecs_noop decls specs h]
  | block body =>
      simp only [v1QuietStmt] at h
      simp only [v1RangeStmt, v1RangeStmts_noop decls body h]
  | otherStmt t => rfl

theorem v1RangeSpec_noop (decls : List Decl) :
    ∀ s : Spec, v1QuietSpec decls s = true → v1RangeSpec decls s = (s, false) := by
  intro s h
  cases s with
  | valueSpec names typ values =>
      simp only [v1QuietSpec, Bool.and_eq_true] at h
      simp only [v1RangeSpec, v1RangeOpt_noop decls typ h.1,
        v1RangeList_noop decls values h.2, Bool.or_self]
  | otherSpec t => rfl

theorem v1RangeSpecs_noop (decls : List Decl) :
    ∀ ss : SpecList, v1QuietSpecs decls ss = true →
      v1RangeSpecs decls ss = (ss, false) := by
  intro ss h
  cases ss with
  | nil => rfl
  | cons s tl =>
      simp only [v1QuietSpecs, Bool.and_eq_true] at h
      simp only [v1RangeSpecs, v1RangeSpec_noop decls s h.1,
        v1RangeSpecs_noop decls tl h.2, Bool.or_self]

end

/-- The version 1 range pass is a no-op on declaration lists in which no
range statement satisfies the hit condition. -/
theorem v1RangeDecls_noop (decls : List Decl) :
    ∀ ds : List Decl, v1QuietDecls decls ds = true →
      v1RangeDecls decls ds = (ds, false) := by
  intro ds h
  induction ds with
  | nil => rfl
  | cons d rest ih =>
      cases d with
      | funcDecl n body =>
          simp only [v1QuietDecls, Bool.and_eq_true] at h
          simp only [v1RangeDecls, v1RangeStmts_noop decls body h.1, ih h.2,
            Bool.or_self]
      | genDecl tok specs =>
          simp only [v1QuietDecls, Bool.and_eq_true] at h
          simp only [v1RangeDecls, v1RangeSpecs_noop decls specs h.1, ih h.2,
            Bool.or_self]

/-- The version 1 range pass is a no-op on quiet files. -/
theorem v1RangeFile_noop (f : File) (h : v1QuietFile f = true) :
    v1RangeFile f = (f, false) := by
  cases f with
  | mk decls =>
      simp only [v1QuietFile] at h
      simp only [v1RangeFile, v1RangeDecls_noop decls decls h]

/-- Version 1 leaves a file completely untouched when it has no eligible
table declaration, no range statement over a top-level map-typed
variable lacking a binding, and no `t.Run(tc.name, ...)` call. -/
theorem processFileV1_untouched (f : File) (h1 : noTableDeclFile f = true)
    (h2 : v1QuietFile f = true) (h3 : noTRunFile recognizedV1 f = true) :
    processFileV1 f = (⟨false, 0⟩, f) := by
  simp only [processFileV1, v1DetectFile_noop f h1, v1RangeFile_noop f h2,
    callPassFile_noop recognizedV1 f h3, Bool.or_self, Bool.false_eq_true,
    if_false]

/-! ## Row-conversion characterisations -/

/-- Removing the element at an index is `List.eraseIdx` on the
underlying list: the remaining elements are unaltered and keep their
original relative order. -/
theorem removeNth_toList :
    ∀ (es : ExprList) (i : Nat), (es.removeNth i).toList = es.toList.eraseIdx i := by
  intro es i
  cases es with
  | nil => rfl
  | cons e tl =>
      cases i with
      | zero => rfl
      | succ n =>
          simp only [ExprList.removeNth, ExprList.toList, List.eraseIdx,
            removeNth_toList tl n]

/-- Version 1's entry builder is exactly the per-row conversion
`rowEntryV1` filter-mapped over the rows. -/
theorem convertElementsToMapEntries_eq_filterMap :
    ∀ (elts : ExprList) (idx : Nat),
      convertElementsToMapEntries elts idx = elts.filterMap (rowEntryV1 idx) := by
  intro elts idx
  cases elts with
  | nil => rfl
  | cons elt rest =>
      have ih := convertElementsToMapEntries_eq_filterMap rest idx
      cases elt with
      | compositeLit t relts =>
          simp only [convertElementsToMapEntries, ExprList.filterMap, rowEntryV1]
          split
          · exact ih
          · cases hg : relts.get? idx with
            | none => simp only [hg]; exact ih
            | some g =>
                cases g with
                | basicLit kind value => simp only [hg, ih]
                | ident n => simp only [hg]; exact ih
                | compositeLit a b => simp only [hg]; exact ih
                | selectorExpr a b => simp only [hg]; exact ih
                | callExpr a b => simp only [hg]; exact ih
                | keyValueExpr a b => simp only [hg]; exact ih
                | funcLit a => simp only [hg]; exact ih
                | arrayTypeE a b => simp only [hg]; exact ih
                | structTypeE a => simp only [hg]; exact ih
                | mapTypeE a b => simp only [hg]; exact ih
                | otherExpr a => simp only [hg]; exact ih
      | ident n => exact ih
      | basicLit k v => exact ih
      | selectorExpr a b => exact ih
      | callExpr a b => exact ih
      | keyValueExpr a b => exact ih
      | funcLit a => exact ih
      | arrayTypeE a b => exact ih
      | structTypeE a => exact ih
      | mapTypeE a b => exact ih
      | otherExpr a => exact ih

/-- Version 2's entry builder is exactly the per-row conversion
`rowEntryV2` filter-mapped over the rows. -/
theorem v2MapEntries_eq_filterMap :
    ∀ (elts : ExprList) (idx : Nat),
      v2MapEntries elts idx = elts.filterMap (rowEntryV2 idx) := by
  intro elts idx
  cases elts with
  | nil => rfl
  | cons elt rest =>
      have ih := v2MapEntries_eq_filterMap rest idx
      cases elt with
      | compositeLit t relts =>
          simp only [v2MapEntries, ExprList.filterMap, rowEntryV2]
          split
          · cases hg : relts.get? idx with
            | none => simp only [hg]; exact ih
            | some g =>
                cases g with
                | basicLit kind value => simp only [hg, ih]
                | ident n => simp only [hg]; exact ih
                | compositeLit a b => simp only [hg]; exact ih
                | selectorExpr a b => simp only [hg]; exact ih
                | callExpr a b => simp only [hg]; exact ih
                | keyValueExpr a b => simp only [hg]; exact ih
                | funcLit a => simp only [hg]; exact ih
                | arrayTypeE a b => simp only [hg]; exact ih
                | structTypeE a => simp only [hg]; exact ih
                | mapTypeE a b => simp only [hg]; exact ih
                | otherExpr a => simp only [hg]; exact ih
          · exact ih
      | ident n => exact ih
      | basicLit k v => exact ih
      | selectorExpr a b => exact ih
      | callExpr a b => exact ih
      | keyValueExpr a b => exact ih
      | funcLit a => exact ih
      | arrayTypeE a b => exact ih
      | structTypeE a => exact ih
      | mapTypeE a b => exact ih
      | otherExpr a => exact ih

/-- Version 2 drops a row whose name position holds a non-literal. -/
theorem v2MapEntries_drops (t : OptExpr) (relts rest : ExprList) (idx : Nat)
    (g : Expr) (hg : relts.get? idx = Option.some g) (hnl : isBasicLit g = false) :
    v2MapEntries (.cons (.compositeLit t relts) rest) idx =
      v2MapEntries rest idx := by
  simp only [v2MapEntries]
  split
  · cases g with
    | basicLit k v => simp [isBasicLit] at hnl
    | ident n => simp only [hg]
    | compositeLit a b => simp only [hg]
    | selectorExpr a b => simp only [hg]
    | callExpr a b => simp only [hg]
    | keyValueExpr a b => simp only [hg]
    | funcLit a => simp only [hg]
    | arrayTypeE a b => simp only [hg]
    | structTypeE a => simp only [hg]
    | mapTypeE a b => simp only [hg]
    | otherExpr a => simp only [hg]
  · rfl

/-- Version 1 drops a row whose name position holds a non-literal. -/
theorem convertElementsToMapEntries_drops (t : OptExpr) (relts rest : ExprList)
    (idx : Nat) (g : Expr) (hg : relts.get? idx = Option.some g)
    (hnl : isBasicLit g = false) :
    convertElementsToMapEntries (.cons (.compositeLit t relts) rest) idx =
      convertElementsToMapEntries rest idx := by
  simp only [convertElementsToMapEntries]
  split
  · rfl
  · cases g with
    | basicLit k v => simp [isBasicLit] at hnl
    | ident n => simp only [hg]
    | compositeLit a b => simp only [hg]
    | selectorExpr a b => simp only [hg]
    | callExpr a b => simp only [hg]
    | keyValueExpr a b => simp only [hg]
    | funcLit a => simp only [hg]
    | arrayTypeE a b => simp only [hg]
    | structTypeE a => simp only [hg]
    | mapTypeE a b => simp only [hg]
    | otherExpr a => simp only [hg]

/-- Version 2 converts an identifier-bound eligible table regardless of
whether its rows hold literals at the name position. -/
theorem v2ConvertPairs_converts (name : String) (fields : FieldList)
    (elts : ExprList) (nm : String) (idx : Nat) (ltl rtl : ExprList)
    (hfn : findNameField fields = Option.some (nm, idx)) :
    v2ConvertPairs (.cons (.ident name) ltl)
        (.cons (.compositeLit (.some (.arrayTypeE .none (.structTypeE fields))) elts)
          rtl) =
      (.cons (.compositeLit
          (.some (.mapTypeE (.ident "string") (createStructTypeWithoutField fields idx)))
          (v2MapEntries elts idx)) (v2ConvertPairs ltl rtl).1,
        name :: (v2ConvertPairs ltl rtl).2.1,
        true,
        (v2ConvertPairs ltl rtl).2.2.2 + 1) := by
  cases hrec : v2ConvertPairs ltl rtl with
  | mk rtl2 r1 =>
      cases r1 with
      | mk vs r2 =>
          cases r2 with
          | mk m c =>
              simp only [v2ConvertPairs, hrec, matchSliceTable, hfn]

/-- Version 1 converts an eligible declaration value regardless of
whether its rows hold literals at the name position; the new map value
type keeps the original struct (including the name field). -/
theorem v1ConvertValues_converts (fields : FieldList) (nm : String) (idx : Nat)
    (t : OptExpr) (elts : ExprList) (rest : ExprList)
    (hfn : findNameField fields = Option.some (nm, idx)) :
    v1ConvertValues (.some (.arrayTypeE .none (.structTypeE fields)))
        (.cons (.compositeLit t elts) rest) =
      ((v1ConvertValues
          (.some (.mapTypeE (.ident "string") (.structTypeE fields))) rest).1,
        .cons (.compositeLit
            (.some (.mapTypeE (.ident "string") (.structTypeE fields)))
            (convertElementsToMapEntries elts idx))
          (v1ConvertValues
            (.some (.mapTypeE (.ident "string") (.structTypeE fields))) rest).2.1,
        true,
        (v1ConvertValues
          (.some (.mapTypeE (.ident "string") (.structTypeE fields))) rest).2.2.2 + 1) := by
  cases hrec : v1ConvertValues
      (.some (.mapTypeE (.ident "string") (.structTypeE fields))) rest with
  | mk t2 r1 =>
      cases r1 with
      | mk vals r2 =>
          cases r2 with
          | mk m c =>
              simp only [v1ConvertValues, matchEligibleType, hfn, hrec]

/-! ## Call-node computations -/

/-- A `t.Run` call whose first argument is `tc.<field>` with a
recognised field name has its first argument replaced by the identifier
`name`, and the pass reports a modification. -/
theorem callPassExpr_rewrites (recog : String → Bool) (fld : String)
    (rest : ExprList) (h : recog fld = true) :
    callPassExpr recog (.callExpr (.selectorExpr (.ident "t") "Run")
        (.cons (.selectorExpr (.ident "tc") fld) rest)) =
      (.callExpr (.selectorExpr (.ident "t") "Run")
        (.cons (.ident "name") (callPassList recog rest).1), true) := by
  cases hres : callPassList recog rest with
  | mk rest1 m2 =>
      simp [callPassExpr, callPassList, hres, isTRunRewritable, replaceFirstArg, h]

/-- A `t.Run` call whose first argument is `tc.<field>` with an
unrecognised field name keeps its first argument. -/
theorem callPassExpr_skips (recog : String → Bool) (fld : String)
    (rest : ExprList) (h : recog fld = false) :
    callPassExpr recog (.callExpr (.selectorExpr (.ident "t") "Run")
        (.cons (.selectorExpr (.ident "tc") fld) rest)) =
      (.callExpr (.selectorExpr (.ident "t") "Run")
        (.cons (.selectorExpr (.ident "tc") fld) (callPassList recog rest).1),
        (callPassList recog rest).2) := by
  cases hres : callPassList recog rest with
  | mk rest1 m2 =>
      simp [callPassExpr, callPassList, hres, isTRunRewritable, h]

/-- A `t.Run` call whose first argument is a field access on any
identifier other than `tc` is left unchanged (beyond recursive
processing of the remaining arguments), for any recognised-field
predicate. -/
theorem callPassExpr_other_base (recog : String → Bool) (base fld : String)
    (rest : ExprList) (h : base ≠ "tc") :
    callPassExpr recog (.callExpr (.selectorExpr (.ident "t") "Run")
        (.cons (.selectorExpr (.ident base) fld) rest)) =
      (.callExpr (.selectorExpr (.ident "t") "Run")
        (.cons (.selectorExpr (.ident base) fld) (callPassList recog rest).1),
        (callPassList recog rest).2) := by
  have hb : (base == "tc") = false := by
    simp [h]
  cases hres : callPassList recog rest with
  | mk rest1 m2 =>
      simp [callPassExpr, callPassList, hres, isTRunRewritable, hb]

/-! ## Batch fold characterisation -/

/-- The walk callback fold, fully characterised: every item is examined,
error items append their message, successful files bump the counters. -/
theorem foldl_walkStep :
    ∀ (items : List WalkItem) (acc : ConversionResult),
      items.foldl walkStep acc =
        ⟨acc.FilesProcessed + okCount items, acc.FilesModified + modCount items,
          acc.TablesConverted + tablesSum items, acc.Errors ++ errorsOf items⟩ := by
  intro items
  induction items with
  | nil =>
      intro acc
      simp [okCount, modCount, tablesSum, errorsOf]
  | cons item rest ih =>
      intro acc
      simp only [List.foldl_cons, ih]
      cases item with
      | accessError p m =>
          simp [walkStep, okCount, modCount, tablesSum, errorsOf, isOkFile,
            isModFile, tableCount, itemErrorMsg]
      | dir p =>
          simp [walkStep, okCount, modCount, tablesSum, errorsOf, isOkFile,
            isModFile, tableCount, itemErrorMsg]
      | nonGoFile p =>
          simp [walkStep, okCount, modCount, tablesSum, errorsOf, isOkFile,
            isModFile, tableCount, itemErrorMsg]
      | goFile p outcome =>
          cases outcome with
          | error m =>
              simp [walkStep, okCount, modCount, tablesSum, errorsOf, isOkFile,
                isModFile, tableCount, itemErrorMsg]
          | ok r =>
              simp only [walkStep, okCount, modCount, tablesSum, errorsOf,
                isOkFile, isModFile, tableCount, itemErrorMsg, List.filter,
                List.map, List.sum_cons, List.filterMap, List.length_cons,
                ConversionResult.mk.injEq]
              refine ⟨by omega, ?_, ?_, by simp⟩
              · cases hm : r.Modified
                · simp [hm]
                · simp [hm]
                  omega
              · cases hm : r.Modified
                · simp [hm]
                · simp [hm]
                  omega

/-- `ConvertTableTests` fully characterised. -/
theorem convertTableTests_run (items : List WalkItem) :
    ConvertTableTests items =
      ⟨okCount items, modCount items, tablesSum items, errorsOf items⟩ := by
  simpa [ConvertTableTests] using foldl_walkStep items ⟨0, 0, 0, []⟩

/-! ## Claim theorems -/

/-- Claim C1, counterexample.  The claim states that a table with a
non-literal name value in any row is left entirely unconverted (declared
type stays the slice type, no row transformed).  On `exC1File` -- whose
second row carries the identifier `dyn` in the name position -- version
2 nevertheless converts the declaration to a map literal, transforms the
literal-keyed row, and silently drops the non-literal row, reporting
`Modified = true` and one converted table. -/
theorem claim1_counterexample :
    processFileV2 exC1File = (⟨true, 1⟩, exC1Out) ∧ exC1Out ≠ exC1File := by
  constructor
  · decide
  · decide

/-- Claim C1, amended.  A non-literal name value does not reject the
table: both versions convert any eligible declaration regardless of the
rows' contents (first two conjuncts, stated with no assumption about the
rows), and a row whose name position holds a non-literal expression is
silently dropped from the produced map literal (third conjunct). -/
theorem claim1_nonliteral_rows_dropped :
    (∀ (name : String) (fields : FieldList) (elts : ExprList) (nm : String)
        (idx : Nat) (ltl rtl : ExprList),
      findNameField fields = Option.some (nm, idx) →
      v2ConvertPairs (.cons (.ident name) ltl)
          (.cons (.compositeLit (.some (.arrayTypeE .none (.structTypeE fields)))
            elts) rtl) =
        (.cons (.compositeLit
            (.some (.mapTypeE (.ident "string")
              (createStructTypeWithoutField fields idx)))
            (v2MapEntries elts idx)) (v2ConvertPairs ltl rtl).1,
          name :: (v2ConvertPairs ltl rtl).2.1,
          true,
          (v2ConvertPairs ltl rtl).2.2.2 + 1)) ∧
    (∀ (fields : FieldList) (nm : String) (idx : Nat) (t : OptExpr)
        (elts rest : ExprList),
      findNameField fields = Option.some (nm, idx) →
      v1ConvertValues (.some (.arrayTypeE .none (.structTypeE fields)))
          (.cons (.compositeLit t elts) rest) =
        ((v1ConvertValues
            (.some (.mapTypeE (.ident "string") (.structTypeE fields))) rest).1,
          .cons (.compositeLit
              (.some (.mapTypeE (.ident "string") (.structTypeE fields)))
              (convertElementsToMapEntries elts idx))
            (v1ConvertValues
              (.some (.mapTypeE (.ident "string") (.structTypeE fields))) rest).2.1,
          true,
          (v1ConvertValues
            (.some (.mapTypeE (.ident "string") (.structTypeE fields))) rest).2.2.2
            + 1)) ∧
    (∀ (t : OptExpr) (relts rest : ExprList) (idx : Nat) (g : Expr),
      relts.get? idx = Option.some g → isBasicLit g = false →
      v2MapEntries (.cons (.compositeLit t relts) rest) idx =
          v2MapEntries rest idx ∧
        convertElementsToMapEntries (.cons (.compositeLit t relts) rest) idx =
          convertElementsToMapEntries rest idx) := by
  refine ⟨?_, ?_, ?_⟩
  · intro name fields elts nm idx ltl rtl hfn
    exact v2ConvertPairs_converts name fields elts nm idx ltl rtl hfn
  · intro fields nm idx t elts rest hfn
    exact v1ConvertValues_converts fields nm idx t elts rest hfn
  · intro t relts rest idx g hg hnl
    exact ⟨v2MapEntries_drops t relts rest idx g hg hnl,
      convertElementsToMapEntries_drops t relts rest idx g hg hnl⟩

/-- Claim C1, witness for the amended theorem. -/
theorem claim1_witness :
    findNameField fieldsNameA = Option.some ("name", 0) ∧
    (ExprList.ofList [Expr.ident "dyn", .basicLit .INT "2"]).get? 0 =
      Option.some (.ident "dyn") ∧
    isBasicLit (.ident "dyn") = false ∧
    v2MapEntries
        (.cons (.compositeLit .none
          (ExprList.ofList [Expr.ident "dyn", .basicLit .INT "2"])) .nil) 0 =
      v2MapEntries .nil 0 :=
  ⟨by decide, by decide, by decide,
    (claim1_nonliteral_rows_dropped.2.2 .none
      (ExprList.ofList [Expr.ident "dyn", .basicLit .INT "2"]) .nil 0
      (.ident "dyn") (by decide) (by decide)).1⟩

/-- Claim C2, counterexample.  The claim states the rewriter only
touches call-sites and iteration constructs referencing a variable
actually converted in the file.  `exC2File` converts nothing (its
detection pass records no variable), yet the call-site pass rewrites the
`t.Run(tc.name, ...)` argument and the file is reported modified. -/
theorem claim2_counterexample :
    (v2DetectFile exC2File).2.1 = [] ∧
    processFileV2 exC2File = (⟨true, 0⟩, exC2Out) ∧ exC2Out ≠ exC2File := by
  refine ⟨by decide, by decide, by decide⟩

/-- Claim C2, amended.  The iteration-construct rewrite does correlate:
version 2 touches only ranges over variables recorded as converted (a
file with no range over a recorded variable is left unchanged with no
modification reported), and version 1 touches only ranges over
top-level map-typed variables (quiet files are left unchanged).  The
call-site rewrite, by contrast, fires on any `t.Run` call whose first
argument is `tc.<recognised field>`, irrespective of which variables
were converted. -/
theorem claim2_rewriter_correlation :
    (∀ (vars : List String) (f : File),
      (∀ n, n ∈ rangedVarsFile f → vars.contains n = false) →
      v2RangeFile vars f = (f, false)) ∧
    (∀ f : File, v1QuietFile f = true → v1RangeFile f = (f, false)) ∧
    (∀ (recog : String → Bool) (fld : String) (rest : ExprList),
      recog fld = true →
      callPassExpr recog (.callExpr (.selectorExpr (.ident "t") "Run")
          (.cons (.selectorExpr (.ident "tc") fld) rest)) =
        (.callExpr (.selectorExpr (.ident "t") "Run")
          (.cons (.ident "name") (callPassList recog rest).1), true)) := by
  refine ⟨?_, ?_, ?_⟩
  · intro vars f h
    exact v2RangeFile_noop vars f h
  · intro f h
    exact v1RangeFile_noop f h
  · intro recog fld rest h
    exact callPassExpr_rewrites recog fld rest h

/-- Claim C2, witness for the amended theorem. -/
theorem claim2_witness :
    v2RangeFile ["other"] exC2File = (exC2File, false) ∧
    v1RangeFile exQuietFile = (exQuietFile, false) ∧
    callPassExpr recognizedV2 (.callExpr (.selectorExpr (.ident "t") "Run")
        (.cons (.selectorExpr (.ident "tc") "desc") .nil)) =
      (.callExpr (.selectorExpr (.ident "t") "Run")
        (.cons (.ident "name") (callPassList recognizedV2 .nil).1), true) :=
  ⟨claim2_rewriter_correlation.1 ["other"] exC2File (by decide),
    claim2_rewriter_correlation.2.1 exQuietFile (by decide),
    claim2_rewriter_correlation.2.2 recognizedV2 "desc" .nil (by decide)⟩

/-- Claim C3, counterexample.  The claim states that after a failed
write the on-disk content equals the pre-conversion content.  The code
opens the file with `os.Create` (truncating it) and streams
`printer.Fprint` into the handle, so a serialisation failure after two
bytes leaves the file holding those two bytes of the *new* rendering,
not the original content. -/
theorem claim3_counterexample :
    persist "old" "new!" true (.printFailsAt 2) = "ne" ∧ "ne" ≠ "old" := by
  constructor
  · decide
  · decide

/-- Claim C3, amended.  Only a failure of `os.Create` itself leaves the
pre-conversion content; a failure during serialisation leaves the prefix
of the new rendering written so far (the file was already truncated),
and no write at all happens when the file was not modified. -/
theorem claim3_write_failure_content :
    ∀ (original printed : String) (k : Nat),
      persist original printed true .createFails = original ∧
      persist original printed true (.printFailsAt k) = printed.take k ∧
      persist original printed true .succeeds = printed ∧
      (∀ o : WriteOutcome, persist original printed false o = original) := by
  intro original printed k
  exact ⟨rfl, rfl, rfl, fun o => rfl⟩

/-- Claim C4, confirmed.  Key fidelity of row conversion, in both
versions: the produced entry list is exactly the per-row conversion
filter-mapped over the rows, where `rowEntryV2` keys the entry by the
very literal that occupied the name position (kind and text), and
`rowEntryV1` keys it by a string-kinded literal carrying the same text
(identical rendered bytes); in both, the entry's value record is the
row's remaining values with the name position removed, which by the
third conjunct is `List.eraseIdx` -- the remaining values unaltered and
in their original relative order. -/
theorem claim4_key_fidelity :
    (∀ (elts : ExprList) (idx : Nat),
      convertElementsToMapEntries elts idx = elts.filterMap (rowEntryV1 idx)) ∧
    (∀ (elts : ExprList) (idx : Nat),
      v2MapEntries elts idx = elts.filterMap (rowEntryV2 idx)) ∧
    (∀ (es : ExprList) (i : Nat),
      (es.removeNth i).toList = es.toList.eraseIdx i) := by
  exact ⟨convertElementsToMapEntries_eq_filterMap, v2MapEntries_eq_filterMap,
    removeNth_toList⟩

/-- Claim C5, counterexample.  The claim states a second run on
already-converted input reports `modified == false` and performs no
write.  Version 1 converts `exC5File` (whose loop binds only the
non-blank key `i`); rerunning it on the written output leaves the tree
byte-identical but reports `Modified = true` again -- the range callback
sets `modified` for every key-only range over a map-typed table -- so
the file is rewritten on every run. -/
theorem claim5_counterexample :
    (processFileV1 exC5File).1 = ⟨true, 1⟩ ∧
    (processFileV1 exC5File).2 = exC5Out ∧
    (processFileV1 exC5Out).1.Modified = true ∧
    (processFileV1 exC5Out).2 = exC5Out := by
  refine ⟨by decide, by decide, by decide, by decide⟩

/-- Claim C5, amended.  The assignment-based version is fully
idempotent: running it on its own output reports `modified = false`,
converts no table, and returns the identical tree (so no write occurs).
The declaration-based version also returns an identical tree on a second
run in the exhibited case, but can keep reporting `modified == true`
(see the counterexample), so the claim's `modified == false / no write`
part holds only for the assignment-based version. -/
theorem claim5_idempotence :
    ∀ f : File,
      processFileV2 ((processFileV2 f).2) = (⟨false, 0⟩, (processFileV2 f).2) := by
  exact processFileV2_second_run

/-- Claim C6, counterexample.  The claim states a file with no eligible
table declaration is never written.  `exC6File` declares no table at
all, yet version 1 rewrites its `t.Run(tc.name, ...)` argument and
reports the file modified (so it is written back). -/
theorem claim6_counterexample :
    noTableDeclFile exC6File = true ∧
    processFileV1 exC6File = (⟨true, 0⟩, exC6Out) ∧ exC6Out ≠ exC6File := by
  refine ⟨by decide, by decide, by decide⟩

/-- Claim C6, amended.  A file with no eligible table declaration is
left byte-identical with `modified == false` (no write) *provided* it
also contains no `t.Run(tc.name, ...)` call and no range statement over
a top-level map-typed variable that fails to bind both key and value --
the two rewrites that fire without any conversion. -/
theorem claim6_selectivity :
    ∀ f : File, noTableDeclFile f = true → v1QuietFile f = true →
      noTRunFile recognizedV1 f = true →
      processFileV1 f = (⟨false, 0⟩, f) := by
  intro f h1 h2 h3
  exact processFileV1_untouched f h1 h2 h3

/-- Claim C6, witness for the amended theorem. -/
theorem claim6_witness :
    noTableDeclFile exQuietFile = true ∧
    v1QuietFile exQuietFile = true ∧
    noTRunFile recognizedV1 exQuietFile = true ∧
    processFileV1 exQuietFile = (⟨false, 0⟩, exQuietFile) :=
  ⟨by decide, by decide, by decide,
    claim6_selectivity exQuietFile (by decide) (by decide) (by decide)⟩

/-- Claim C7, counterexample.  The claim states the call-site rewrite
fires for any recognised name-field alias (`name`, `desc`,
`description`) in both cited code sites.  Version 1's call-site pass
accepts only the field literally named `name`: on `exC7File` the
`desc`-keyed table is converted, but `t.Run(tc.desc, ...)` is left
unchanged (see `exC7Out`), producing a file that still references the
removed field. -/
theorem claim7_counterexample :
    callPassStmt recognizedV1 tRunDescStmt = (tRunDescStmt, false) ∧
    processFileV1 exC7File = (⟨true, 1⟩, exC7Out) := by
  refine ⟨by decide, by decide⟩

/-- Claim C7, amended.  In the assignment-based version any of the three
recognised aliases triggers the replacement of the first argument by the
identifier `name`; in the declaration-based version only the field
literally named `name` triggers it, and `tc.desc` / `tc.description`
arguments are left unchanged. -/
theorem claim7_alias_recognition :
    (∀ (fld : String) (rest : ExprList), recognizedV2 fld = true →
      callPassExpr recognizedV2 (.callExpr (.selectorExpr (.ident "t") "Run")
          (.cons (.selectorExpr (.ident "tc") fld) rest)) =
        (.callExpr (.selectorExpr (.ident "t") "Run")
          (.cons (.ident "name") (callPassList recognizedV2 rest).1), true)) ∧
    (∀ rest : ExprList,
      callPassExpr recognizedV1 (.callExpr (.selectorExpr (.ident "t") "Run")
          (.cons (.selectorExpr (.ident "tc") "name") rest)) =
        (.callExpr (.selectorExpr (.ident "t") "Run")
          (.cons (.ident "name") (callPassList recognizedV1 rest).1), true)) ∧
    (∀ (fld : String) (rest : ExprList), fld = "desc" ∨ fld = "description" →
      callPassExpr recognizedV1 (.callExpr (.selectorExpr (.ident "t") "Run")
          (.cons (.selectorExpr (.ident "tc") fld) rest)) =
        (.callExpr (.selectorExpr (.ident "t") "Run")
          (.cons (.selectorExpr (.ident "tc") fld)
            (callPassList recognizedV1 rest).1),
          (callPassList recognizedV1 rest).2)) := by
  refine ⟨?_, ?_, ?_⟩
  · intro fld rest h
    exact callPassExpr_rewrites recognizedV2 fld rest h
  · intro rest
    exact callPassExpr_rewrites recognizedV1 "name" rest (by decide)
  · intro fld rest h
    refine callPassExpr_skips recognizedV1 fld rest ?_
    cases h with
    | inl he => rw [he]; decide
    | inr he => rw [he]; decide

/-- Claim C7, witness for the amended theorem. -/
theorem claim7_witness :
    recognizedV2 "desc" = true ∧
    callPassExpr recognizedV2 (.callExpr (.selectorExpr (.ident "t") "Run")
        (.cons (.selectorExpr (.ident "tc") "desc") .nil)) =
      (.callExpr (.selectorExpr (.ident "t") "Run")
        (.cons (.ident "name") (callPassList recognizedV2 .nil).1), true) :=
  ⟨by decide, claim7_alias_recognition.1 "desc" .nil (by decide)⟩

/-- Claim C8, confirmed.  A per-file failure appends exactly one
`(file, message)` entry at its position in the batch error list and the
batch continues: the files before and after it are still counted and
their errors still collected, and the batch operation evaluates to a
`ConversionResult` (the walk callback always returns nil, so no per-file
failure can abort the fold). -/
theorem claim8_batch_continues :
    ∀ (xs ys : List WalkItem) (p m : String),
      ConvertTableTests (xs ++ (WalkItem.goFile p (.error m)) :: ys) =
        ⟨okCount xs + okCount ys, modCount xs + modCount ys,
          tablesSum xs + tablesSum ys,
          errorsOf xs ++ ("Error processing " ++ p ++ ": " ++ m) :: errorsOf ys⟩ := by
  intro xs ys p m
  rw [convertTableTests_run]
  simp only [ConversionResult.mk.injEq]
  refine ⟨?_, ?_, ?_, ?_⟩
  · simp [okCount, List.filter_append, isOkFile]
  · simp [modCount, List.filter_append, isModFile]
  · simp [tablesSum, List.map_append, tableCount]
  · simp [errorsOf, List.filterMap_append, itemErrorMsg]

/-- Claim C9, confirmed.  `FilesProcessed` counts exactly the files
processed without error: it equals the number of ok-files in the walk,
appending a failing file does not change it, and only the error list
grows (by exactly one entry). -/
theorem claim9_files_processed :
    ∀ (items : List WalkItem) (p m : String),
      (ConvertTableTests items).FilesProcessed = okCount items ∧
      (ConvertTableTests (items ++ [.goFile p (.error m)])).FilesProcessed =
        (ConvertTableTests items).FilesProcessed ∧
      (ConvertTableTests (items ++ [.goFile p (.error m)])).Errors.length =
        (ConvertTableTests items).Errors.length + 1 := by
  intro items p m
  rw [convertTableTests_run, convertTableTests_run]
  refine ⟨rfl, ?_, ?_⟩
  · simp [okCount, List.filter_append, isOkFile]
  · simp [errorsOf, List.filterMap_append, itemErrorMsg]

/-- Claim C10, confirmed.  In both versions the call-site rewrite fires
only when the base of the field-access argument is the identifier
literally named `tc`: a `t.Run` call whose first argument is a field
access on any other identifier keeps that argument (only the remaining
arguments are processed recursively), whatever field name is accessed. -/
theorem claim10_tc_base_only :
    ∀ (base fld : String) (rest : ExprList), base ≠ "tc" →
      callPassExpr recognizedV1 (.callExpr (.selectorExpr (.ident "t") "Run")
          (.cons (.selectorExpr (.ident base) fld) rest)) =
        (.callExpr (.selectorExpr (.ident "t") "Run")
          (.cons (.selectorExpr (.ident base) fld)
            (callPassList recognizedV1 rest).1),
          (callPassList recognizedV1 rest).2) ∧
      callPassExpr recognizedV2 (.callExpr (.selectorExpr (.ident "t") "Run")
          (.cons (.selectorExpr (.ident base) fld) rest)) =
        (.callExpr (.selectorExpr (.ident "t") "Run")
          (.cons (.selectorExpr (.ident base) fld)
            (callPassList recognizedV2 rest).1),
          (callPassList recognizedV2 rest).2) := by
  intro base fld rest h
  exact ⟨callPassExpr_other_base recognizedV1 base fld rest h,
    callPassExpr_other_base recognizedV2 base fld rest h⟩

/-- Claim C10, witness. -/
theorem claim10_witness :
    "test" ≠ "tc" ∧
    callPassExpr recognizedV2 (.callExpr (.selectorExpr (.ident "t") "Run")
        (.cons (.selectorExpr (.ident "test") "name") .nil)) =
      (.callExpr (.selectorExpr (.ident "t") "Run")
        (.cons (.selectorExpr (.ident "test") "name")
          (callPassList recognizedV2 .nil).1),
        (callPassList recognizedV2 .nil).2) :=
  ⟨by decide, (claim10_tc_base_only "test" "name" .nil (by decide)).2⟩

end GoConv
